import Mathlib

-- # Definitions

/-!
Verification of the ClawCal calendar core (event store + iCal codec).

JavaScript strings are modelled as lists of UTF-16 code units (`JSStr`),
which is the representation the source operates on: regular-expression
replacement, `indexOf`, slicing and `TextEncoder`-based octet counting all
work per code unit.  JavaScript `Date` values are modelled as integer
milliseconds since the Unix epoch.  Fallible operations return `Option`.
-/

/-- A JavaScript string: its sequence of UTF-16 code units. -/
abbrev JSStr := List Nat

/-- Convert a Lean string literal to its UTF-16 code-unit list (astral
characters become surrogate pairs, exactly as in a JS string literal). -/
def utf16 (s : String) : JSStr :=
  s.data.foldr (fun c acc =>
    if c.toNat < 65536 then c.toNat :: acc
    else (55296 + (c.toNat - 65536) / 1024) :: (56320 + (c.toNat - 65536) % 1024) :: acc) []

/-- `str.replace(/x/g, r)` for a single-unit pattern `x`: a per-unit map. -/
def replace1 (t : Nat) (r : JSStr) : JSStr → JSStr
  | [] => []
  | u :: rest => (if u = t then r else [u]) ++ replace1 t r rest

/-- `str.replace(/ab/g, r)` for a two-unit literal pattern: leftmost-first,
non-overlapping, scanning resumes after each replacement — the semantics of
a global regex replace in JavaScript. -/
def replace2 (a b : Nat) (r : JSStr) : JSStr → JSStr
  | [] => []
  | [u] => [u]
  | u :: v :: rest =>
    if u = a ∧ v = b then r ++ replace2 a b r rest
    else u :: replace2 a b r (v :: rest)

-- ## Text escaping (src/calendar.ts `escapeICS` / `unescapeICS`)

/-- `escapeICS`: `.replace(/\\/g,'\\\\').replace(/;/g,'\\;').replace(/,/g,'\\,').replace(/\n/g,'\\n')`,
applied in the source's order (backslash first, newline last).
Code units: backslash 92, semicolon 59, comma 44, newline 10, letter n 110. -/
def escapeICS (s : JSStr) : JSStr :=
  replace1 10 [92, 110] (replace1 44 [92, 44] (replace1 59 [92, 59] (replace1 92 [92, 92] s)))

/-- `unescapeICS`: `.replace(/\\n/g,'\n').replace(/\\,/g,',').replace(/\\;/g,';').replace(/\\\\/g,'\\')`,
in the source's order (backslash-n first, double backslash last). -/
def unescapeICS (s : JSStr) : JSStr :=
  replace2 92 92 [92] (replace2 92 59 [59] (replace2 92 44 [44] (replace2 92 110 [10] s)))

/-- The string has no literal backslash immediately followed by a literal
letter `n` (the two-unit sequence 92, 110). -/
def noBsN : JSStr → Bool
  | [] => true
  | [_] => true
  | u :: v :: rest => !(u == 92 && v == 110) && noBsN (v :: rest)

-- Single-pass characterizations of the four sequential escape replacements.
-- `enc3` escapes backslash, semicolon, comma and newline; `enc2` no longer
-- escapes newline (it has already been consumed by the first unescape step),
-- `enc1` escapes backslash and semicolon, `enc0` only backslash.

def enc3 (u : Nat) : JSStr :=
  if u = 92 then [92, 92] else if u = 59 then [92, 59]
  else if u = 44 then [92, 44] else if u = 10 then [92, 110] else [u]

def enc2 (u : Nat) : JSStr :=
  if u = 92 then [92, 92] else if u = 59 then [92, 59]
  else if u = 44 then [92, 44] else [u]

def enc1 (u : Nat) : JSStr :=
  if u = 92 then [92, 92] else if u = 59 then [92, 59] else [u]

def enc0 (u : Nat) : JSStr :=
  if u = 92 then [92, 92] else [u]

def E3 : JSStr → JSStr
  | [] => []
  | u :: rest => enc3 u ++ E3 rest

def E2 : JSStr → JSStr
  | [] => []
  | u :: rest => enc2 u ++ E2 rest

def E1 : JSStr → JSStr
  | [] => []
  | u :: rest => enc1 u ++ E1 rest

def E0 : JSStr → JSStr
  | [] => []
  | u :: rest => enc0 u ++ E0 rest

-- ## Dates
--
-- A JS `Date` is an integer count of milliseconds since the Unix epoch.
-- The source only uses `toISOString` (UTC civil fields), `Date.UTC`,
-- `getTime` and comparison; the civil conversion below models the
-- ECMAScript UTC calendar (proleptic Gregorian) for instants from 1970
-- up to year 9999, the only range the round-trip properties quantify over.

def isLeap (y : Nat) : Bool := (y % 4 == 0 && y % 100 != 0) || y % 400 == 0

def yearLen (y : Nat) : Nat := if isLeap y then 366 else 365

def monthLen (y : Nat) (m : Nat) : Nat :=
  if m = 2 then (if isLeap y then 29 else 28)
  else if m = 4 ∨ m = 6 ∨ m = 9 ∨ m = 11 then 30 else 31

/-- Peel whole years off a day count, starting at year `y`: returns the
year and the 0-based day within it.  The first argument is structural fuel
(any value above the day count is enough, since every step removes at least
365 days); fuel keeps the recursion kernel-reducible. -/
def yearOfA : Nat → Nat → Nat → Nat × Nat
  | 0, y, z => (y, z)
  | f + 1, y, z => if z < yearLen y then (y, z) else yearOfA f (y + 1) (z - yearLen y)

def yearOf (y z : Nat) : Nat × Nat := yearOfA (z + 1) y z

/-- Peel whole months off a 0-based day-of-year, starting at month `m`:
returns the month and the 1-based day within it (fueled as `yearOfA`). -/
def monthOfA : Nat → Nat → Nat → Nat → Nat × Nat
  | 0, _, m, z => (m, z + 1)
  | f + 1, y, m, z => if z < monthLen y m then (m, z + 1) else monthOfA f y (m + 1) (z - monthLen y m)

def monthOf (y m z : Nat) : Nat × Nat := monthOfA (z + 1) y m z

/-- 0-based day count since the epoch to a civil UTC date (year, month, day). -/
def civilOfDays (z : Nat) : Nat × Nat × Nat :=
  let yd := yearOf 1970 z
  let md := monthOf yd.1 1 yd.2
  (yd.1, md.1, md.2)

/-- Days in all years from 1970 up to (excluding) `y`. -/
def daysBeforeYear : Nat → Nat
  | 0 => 0
  | y + 1 => if y + 1 ≤ 1970 then 0 else daysBeforeYear y + yearLen y

/-- Days in all months of year `y` before month `m`. -/
def daysBeforeMonth (y : Nat) : Nat → Nat
  | 0 => 0
  | m + 1 => if m + 1 ≤ 1 then 0 else daysBeforeMonth y m + monthLen y m

/-- Civil UTC date to 0-based days since the epoch (the `Date.UTC` day
computation, for in-range arguments: year at least 1970, month 1–12). -/
def daysOfCivil (y m d : Nat) : Nat :=
  daysBeforeYear y + daysBeforeMonth y m + (d - 1)

/-- Millisecond instant to civil UTC fields (y, m, d, hour, minute, second);
models `toISOString`'s field extraction for nonnegative instants. -/
def civilOfMs (t : Int) : Nat × Nat × Nat × Nat × Nat × Nat :=
  let n := t.toNat
  let c := civilOfDays (n / 86400000)
  let rem := n % 86400000
  (c.1, c.2.1, c.2.2, rem / 3600000, rem % 3600000 / 60000, rem % 60000 / 1000)

/-- `Date.UTC(y, m-1, d, hh, mm, ss)` for the in-range arguments the parser
produces from rendered documents (year at least 1970, month 1–12 passed here
1-based; the source's 0-based month index is folded into this model). -/
def dateUTC (y m d hh mm ss : Nat) : Int :=
  ((daysOfCivil y m d : Int)) * 86400000 +
    (hh : Int) * 3600000 + (mm : Int) * 60000 + (ss : Int) * 1000

/-- Two-digit zero-padded field of an ISO timestamp (values below 100). -/
def pad2 (n : Nat) : JSStr := [48 + n / 10 % 10, 48 + n % 10]

/-- Four-digit zero-padded year field of an ISO timestamp (years 0–9999). -/
def pad4 (n : Nat) : JSStr :=
  [48 + n / 1000 % 10, 48 + n / 100 % 10, 48 + n / 10 % 10, 48 + n % 10]

/-- `formatICSDate`: `date.toISOString().replace(/[-:]/g,'').replace(/\.\d{3}/,'')`,
i.e. the composed result YYYYMMDDTHHMMSSZ (84 = T, 90 = Z). -/
def formatICSDate (t : Int) : JSStr :=
  let c := civilOfMs t
  pad4 c.1 ++ pad2 c.2.1 ++ pad2 c.2.2.1 ++ [84] ++
    pad2 c.2.2.2.1 ++ pad2 c.2.2.2.2.1 ++ pad2 c.2.2.2.2.2 ++ [90]

/-- `formatICSDateOnly`: `date.toISOString().slice(0,10)` with the dashes
removed by the global dash replace → YYYYMMDD. -/
def formatICSDateOnly (t : Int) : JSStr :=
  let c := civilOfMs t
  pad4 c.1 ++ pad2 c.2.1 ++ pad2 c.2.2.1

/-- `date.toISOString().slice(0, 10)`: YYYY-MM-DD (45 = the dash). -/
def isoDatePart (t : Int) : JSStr :=
  let c := civilOfMs t
  pad4 c.1 ++ [45] ++ pad2 c.2.1 ++ [45] ++ pad2 c.2.2.1

def isDigit (u : Nat) : Bool := 48 ≤ u && u ≤ 57

def val2 (a b : Nat) : Nat := (a - 48) * 10 + (b - 48)

def val4 (a b c d : Nat) : Nat := val2 a b * 100 + val2 c d

/-- `parseICSDate`: matches `^(\d{4})(\d{2})(\d{2})T(\d{2})(\d{2})(\d{2})Z?$`
and rebuilds the instant with `Date.UTC`; any other input falls back to the
permissive generic `new Date(str)` parse, modeled as failure since the spec
forbids callers from depending on that path. -/
def parseICSDate (s : JSStr) : Option Int :=
  match s with
  | [y1, y2, y3, y4, o1, o2, d1, d2, t, h1, h2, i1, i2, s1, s2] =>
    if isDigit y1 && isDigit y2 && isDigit y3 && isDigit y4 && isDigit o1 && isDigit o2 &&
        isDigit d1 && isDigit d2 && t == 84 && isDigit h1 && isDigit h2 && isDigit i1 &&
        isDigit i2 && isDigit s1 && isDigit s2 then
      some (dateUTC (val4 y1 y2 y3 y4) (val2 o1 o2) (val2 d1 d2)
        (val2 h1 h2) (val2 i1 i2) (val2 s1 s2))
    else none
  | [y1, y2, y3, y4, o1, o2, d1, d2, t, h1, h2, i1, i2, s1, s2, z] =>
    if isDigit y1 && isDigit y2 && isDigit y3 && isDigit y4 && isDigit o1 && isDigit o2 &&
        isDigit d1 && isDigit d2 && t == 84 && isDigit h1 && isDigit h2 && isDigit i1 &&
        isDigit i2 && isDigit s1 && isDigit s2 && z == 90 then
      some (dateUTC (val4 y1 y2 y3 y4) (val2 o1 o2) (val2 d1 d2)
        (val2 h1 h2) (val2 i1 i2) (val2 s1 s2))
    else none
  | _ => none

/-- `parseICSDateOnly`: matches `^(\d{4})(\d{2})(\d{2})$` and rebuilds the
UTC midnight instant; other input is the unsupported generic parse. -/
def parseICSDateOnly (s : JSStr) : Option Int :=
  match s with
  | [y1, y2, y3, y4, o1, o2, d1, d2] =>
    if isDigit y1 && isDigit y2 && isDigit y3 && isDigit y4 && isDigit o1 && isDigit o2 &&
        isDigit d1 && isDigit d2 then
      some (dateUTC (val4 y1 y2 y3 y4) (val2 o1 o2) (val2 d1 d2) 0 0 0)
    else none
  | _ => none

/-- A start instant the text codec represents exactly: nonnegative (year
1970 onward), before year 10000, and on a whole second. -/
def ValidICSTime (t : Int) : Prop :=
  0 ≤ t ∧ t < 253402300800000 ∧ t % 1000 = 0

instance (t : Int) : Decidable (ValidICSTime t) := by
  unfold ValidICSTime; infer_instance

-- Closed form for the year-sum, used to bound the year of an instant
-- below year 10000 without deep evaluation.

/-- Number of proleptic-Gregorian leap years strictly before year `y`
(for positive `y`). -/
def leapsBefore (y : Nat) : Nat := (y - 1) / 4 - (y - 1) / 100 + (y - 1) / 400

-- ## Number rendering and parsing

/-- Decimal digits of a natural number (fueled structural recursion; the
fuel `n + 1` always suffices since the value shrinks tenfold each step).
Models JS number-to-string for nonnegative integers below 1e21. -/
def natToDigitsA : Nat → Nat → JSStr
  | 0, _ => []
  | f + 1, n => if n < 10 then [48 + n] else natToDigitsA f (n / 10) ++ [48 + n % 10]

def natToDigits (n : Nat) : JSStr := natToDigitsA (n + 1) n

/-- Value of a digit string (the core of `parseInt` on digit-only input). -/
def digitsToNat (s : JSStr) : Nat := s.foldl (fun a u => a * 10 + (u - 48)) 0

-- ## parseInt and regex-extraction models

/-- The JS whitespace class (`\s` and what `trim`/`parseInt` skip). -/
def isJsWS (u : Nat) : Bool :=
  u == 9 || u == 10 || u == 11 || u == 12 || u == 13 || u == 32 || u == 160 ||
  u == 5760 || (8192 ≤ u && u ≤ 8202) || u == 8232 || u == 8233 || u == 8239 ||
  u == 8287 || u == 12288 || u == 65279

def parseDigitRun (r : JSStr) : Option Int :=
  let ds := r.takeWhile (fun u => isDigit u)
  if ds.isEmpty then none else some ((digitsToNat ds : Nat) : Int)

/-- `parseInt(str, 10)`: skip leading whitespace, optional sign, then the
longest digit prefix; no digits means NaN, modeled as `none`. -/
def parseIntJS (s : JSStr) : Option Int :=
  match s.dropWhile isJsWS with
  | 43 :: rest => parseDigitRun rest
  | 45 :: rest => (parseDigitRun rest).map (fun v => -v)
  | rest => parseDigitRun rest

/-- `value.match` of the regex minus-P-T-digits-M (a VALARM trigger): scan
for a minus-P-T, a nonempty digit run and an M right after it; a digit run
not followed by M cannot match at any shorter length (the shorter run would
end on a digit), so the scan resumes one unit later. -/
def triggerMatch : JSStr → Option Nat
  | 45 :: 80 :: 84 :: rest =>
    let ds := rest.takeWhile (fun u => isDigit u)
    if ds ≠ [] ∧ (rest.drop ds.length).head? = some 77 then some (digitsToNat ds)
    else triggerMatch (80 :: 84 :: rest)
  | _ :: rest => triggerMatch rest
  | [] => none

/-- `value.match(/PT(\d+)M/)`, same scan without the minus. -/
def durationMatch : JSStr → Option Nat
  | 80 :: 84 :: rest =>
    let ds := rest.takeWhile (fun u => isDigit u)
    if ds ≠ [] ∧ (rest.drop ds.length).head? = some 77 then some (digitsToNat ds)
    else durationMatch (84 :: rest)
  | _ :: rest => durationMatch rest
  | [] => none

-- ## Event model (src/types.ts via its uses in src/calendar.ts)

inductive EventStatus
  | PLANNED | IN_PROGRESS | COMPLETED | CANCELLED

deriving DecidableEq, Repr

/-- `mapStatus` (src/calendar.ts): internal status → serialized status. -/
def mapStatus : EventStatus → JSStr
  | .COMPLETED => utf16 "CONFIRMED"
  | .CANCELLED => utf16 "CANCELLED"
  | .IN_PROGRESS => utf16 "CONFIRMED"
  | .PLANNED => utf16 "TENTATIVE"

/-- `reverseMapStatus` (src/calendar.ts): serialized status → internal,
defaulting unknown values to PLANNED. -/
def reverseMapStatus (s : JSStr) : EventStatus :=
  if s = utf16 "CONFIRMED" then .COMPLETED
  else if s = utf16 "CANCELLED" then .CANCELLED
  else if s = utf16 "TENTATIVE" then .PLANNED
  else .PLANNED

structure EventAlert where
  minutes : Nat
  description : Option JSStr := none

deriving DecidableEq, Repr

/-- `CalendarEvent`.  Optional absent fields are `none`/`[]`; `allDay` is
used only for truthiness in the source, so an absent flag is modeled as
`false`, and an absent alert list as `[]`.  `endT` models the source's
`end` field (a Lean keyword). -/
structure CalendarEvent where
  uid : JSStr
  title : JSStr
  description : Option JSStr := none
  start : Int
  endT : Option Int := none
  duration : Option Nat := none
  allDay : Bool := false
  category : Option JSStr := none
  agent : Option JSStr := none
  project : Option JSStr := none
  status : Option EventStatus := none
  sequence : Option Int := none
  rrule : Option JSStr := none
  alerts : List EventAlert := []
  url : Option JSStr := none

deriving DecidableEq, Repr

/-- `Partial<CalendarEvent>` as used by `updateEvent`: a present field
overrides, an absent one keeps the existing value.  (A property explicitly
set to `undefined` is not modeled; no caller passes one.) -/
structure EventPatch where
  uid : Option JSStr := none
  title : Option JSStr := none
  description : Option JSStr := none
  start : Option Int := none
  endT : Option Int := none
  duration : Option Nat := none
  allDay : Option Bool := none
  category : Option JSStr := none
  agent : Option JSStr := none
  project : Option JSStr := none
  status : Option EventStatus := none
  sequence : Option Int := none
  rrule : Option JSStr := none
  alerts : Option (List EventAlert) := none
  url : Option JSStr := none

deriving DecidableEq, Repr

/-- The object spread `{...existing, ...updates}`. -/
def applyPatch (e : CalendarEvent) (p : EventPatch) : CalendarEvent where
  uid := p.uid.getD e.uid
  title := p.title.getD e.title
  description := match p.description with | some d => some d | none => e.description
  start := p.start.getD e.start
  endT := match p.endT with | some x => some x | none => e.endT
  duration := match p.duration with | some x => some x | none => e.duration
  allDay := p.allDay.getD e.allDay
  category := match p.category with | some x => some x | none => e.category
  agent := match p.agent with | some x => some x | none => e.agent
  project := match p.project with | some x => some x | none => e.project
  status := match p.status with | some x => some x | none => e.status
  sequence := match p.sequence with | some x => some x | none => e.sequence
  rrule := match p.rrule with | some x => some x | none => e.rrule
  alerts := p.alerts.getD e.alerts
  url := match p.url with | some x => some x | none => e.url

-- ## Sanitization (src/calendar.ts)

/-- Control characters stripped from structural fields:
x00–x1f, x7f, U+2028, U+2029. -/
def isCtrlStruct (u : Nat) : Bool := u ≤ 31 || u == 127 || u == 8232 || u == 8233

/-- `String.prototype.trim`. -/
def trimJS (s : JSStr) : JSStr :=
  ((s.dropWhile isJsWS).reverse.dropWhile isJsWS).reverse

/-- `stripControl`: drop every control character, then trim. -/
def stripControl (s : JSStr) : JSStr :=
  trimJS (s.filter (fun u => !isCtrlStruct u))

/-- Control characters stripped from content fields: x00–x09, x0b, x0c,
x0e–x1f, x7f — newline (x0a) and carriage return (x0d) survive. -/
def isCtrlContent (u : Nat) : Bool :=
  u ≤ 9 || u == 11 || u == 12 || (14 ≤ u && u ≤ 31) || u == 127

/-- `sanitizeContent`: U+2028/U+2029 become newlines, non-newline control
characters are dropped, then trim. -/
def sanitizeContent (s : JSStr) : JSStr :=
  trimJS ((replace1 8233 [10] (replace1 8232 [10] s)).filter (fun u => !isCtrlContent u))

/-- `sanitizeEvent`: structural fields stripped, description sanitized as
content; each optional field goes through a truthiness test, so an empty
string input maps to an absent field. -/
def sanitizeEvent (e : CalendarEvent) : CalendarEvent :=
  { e with
    title := stripControl e.title
    description := match e.description with
      | some d => if d = [] then none else some (sanitizeContent d)
      | none => none
    agent := match e.agent with
      | some x => if x = [] then none else some (stripControl x)
      | none => none
    project := match e.project with
      | some x => if x = [] then none else some (stripControl x)
      | none => none
    category := match e.category with
      | some x => if x = [] then none else some (stripControl x)
      | none => none
    url := match e.url with
      | some x => if x = [] then none else some (stripControl x)
      | none => none }

-- ## The event store (src/calendar.ts CalendarManager)

/-- The `Map<string, CalendarEvent>` in insertion order. -/
abbrev Store := List (JSStr × CalendarEvent)

/-- `Map.set`: replace in place when the key exists (keeping its insertion
position), append otherwise. -/
def setEntry (k : JSStr) (v : CalendarEvent) : Store → Store
  | [] => [(k, v)]
  | (k', v') :: rest => if k' = k then (k, v) :: rest else (k', v') :: setEntry k v rest

/-- `Map.get`. -/
def getEntry (k : JSStr) : Store → Option CalendarEvent
  | [] => none
  | (k', v') :: rest => if k' = k then some v' else getEntry k rest

/-- `Map.delete`. -/
def delEntry (k : JSStr) : Store → Store
  | [] => []
  | (k', v') :: rest => if k' = k then rest else (k', v') :: delEntry k rest

structure CalendarManager where
  events : Store
  filePath : JSStr
  calendarName : JSStr

deriving DecidableEq, Repr

def addEvent (m : CalendarManager) (e : CalendarEvent) : CalendarManager :=
  { m with events := setEntry e.uid (sanitizeEvent e) m.events }

def updateEvent (m : CalendarManager) (uid : JSStr) (p : EventPatch) : CalendarManager :=
  match getEntry uid m.events with
  | none => m
  | some existing =>
    let merged := applyPatch existing p
    let bumped : CalendarEvent := { merged with sequence := some (existing.sequence.getD 0 + 1) }
    { m with events := setEntry uid (sanitizeEvent bumped) m.events }

def cancelEvent (m : CalendarManager) (uid : JSStr) : CalendarManager :=
  updateEvent m uid { status := some .CANCELLED }

def removeEvent (m : CalendarManager) (uid : JSStr) : CalendarManager :=
  { m with events := delEntry uid m.events }

def getAllEvents (m : CalendarManager) : List CalendarEvent := m.events.map (·.2)

/-- Comparator of `cleanup`'s sort: ascending by start time.  The source's
`Array.prototype.sort` is stable (TimSort), as is `List.insertionSort`. -/
def startLE (a b : JSStr × CalendarEvent) : Prop := a.2.start ≤ b.2.start

instance : DecidableRel startLE := fun a b => by unfold startLE; infer_instance

/-- The retention cutoff `new Date(Date.now() - retentionDays * 86400000)`. -/
def cleanupCutoff (retentionDays : Nat) (now : Int) : Int :=
  now - (retentionDays : Int) * 86400000

/-- The first `cleanup` loop: delete completed events older than the cutoff
while iterating the map (deleting the entry under iteration keeps the rest
of the iteration intact, so this is a filter). -/
def cleanupPhase1 (m : CalendarManager) (retentionDays : Nat) (now : Int) : Store :=
  m.events.filter
    (fun kv => !(decide (kv.2.start < cleanupCutoff retentionDays now ∧
      kv.2.status = some .COMPLETED)))

/-- The remaining completed events sorted ascending by start time
(the source's `Array.prototype.sort` is stable, as is insertion sort). -/
def cleanupCompleted (p1 : Store) : Store :=
  List.insertionSort startLE (p1.filter (fun kv => decide (kv.2.status = some .COMPLETED)))

/-- The entries deleted by the second loop: the first
`Math.min(toRemove, completed.length)` of the sorted completed events. -/
def cleanupVictims (p1 : Store) (maxEvents : Nat) : Store :=
  (cleanupCompleted p1).take (min (p1.length - maxEvents) (cleanupCompleted p1).length)

/-- `Map.delete` of each victim's key. -/
def delAll (s : Store) (victims : Store) : Store :=
  victims.foldl (fun acc kv => delEntry kv.1 acc) s

/-- `cleanup(retentionDays, maxEvents)` at clock time `now`.
Returns (count removed, new store, whether the document was persisted:
the source writes exactly when the count is positive). -/
def cleanup (m : CalendarManager) (retentionDays maxEvents : Nat) (now : Int) :
    Nat × CalendarManager × Bool :=
  let phase1 := cleanupPhase1 m retentionDays now
  let removed1 := m.events.length - phase1.length
  if phase1.length > maxEvents then
    let victims := cleanupVictims phase1 maxEvents
    (removed1 + victims.length, { m with events := delAll phase1 victims },
      decide (0 < removed1 + victims.length))
  else
    (removed1, { m with events := phase1 }, decide (0 < removed1))

-- ## Octet-aware line folding (src/calendar.ts foldLine / cutAtOctetBoundary)

/-- `new TextEncoder().encode(str[i]).length` for one UTF-16 code unit:
1, 2 or 3 octets (a lone surrogate encodes as the replacement character,
3 octets). -/
def byteLenU (u : Nat) : Nat := if u ≤ 127 then 1 else if u ≤ 2047 then 2 else 3

/-- `new TextEncoder().encode(s).length` for a whole string: a proper
surrogate pair encodes to 4 octets, everything else per unit. -/
def encodeLen : JSStr → Nat
  | [] => 0
  | [u] => byteLenU u
  | u :: v :: rest =>
    if 55296 ≤ u ∧ u ≤ 56319 then
      if 56320 ≤ v ∧ v ≤ 57343 then 4 + encodeLen rest
      else byteLenU u + encodeLen (v :: rest)
    else byteLenU u + encodeLen (v :: rest)

/-- `cutAtOctetBoundary`: longest prefix of the remaining string whose
per-unit octet count fits the budget. -/
def cutAtOctetBoundary : JSStr → Nat → JSStr
  | [], _ => []
  | u :: rest, budget =>
    if byteLenU u ≤ budget then u :: cutAtOctetBoundary rest (budget - byteLenU u)
    else []

/-- The continuation-line loop of `foldLine`: each folded chunk is preceded
by CRLF and one space.  Structural fuel: every chunk is nonempty (the
continuation budget 74 exceeds any unit's octet count), so the remaining
length strictly decreases and `|rest|` steps always suffice. -/
def foldContin : Nat → JSStr → JSStr
  | 0, _ => []
  | f + 1, rest =>
    if rest = [] then []
    else
      let chunk := cutAtOctetBoundary rest 74
      [13, 10, 32] ++ chunk ++ foldContin f (rest.drop chunk.length)

/-- `foldLine(prefix, value)`: RFC 5545 folding at 75 octets; the first
line may carry `75 − len(prefix)` octets, continuations 74 after their
leading space. -/
def foldLine (pfx : JSStr) (value : JSStr) : JSStr :=
  let maxFirst := 75 - encodeLen pfx
  if encodeLen value ≤ maxFirst then value
  else
    let first := cutAtOctetBoundary value maxFirst
    first ++ foldContin value.length (value.drop first.length)

/-- The unfolding regex: drop every CRLF that is immediately followed by a
space or tab, together with that one space or tab. -/
def unfoldICS : JSStr → JSStr
  | 13 :: 10 :: u :: rest =>
    if u = 32 ∨ u = 9 then unfoldICS rest
    else 13 :: unfoldICS (10 :: u :: rest)
  | u :: rest => u :: unfoldICS rest
  | [] => []

-- ## Rendering (src/calendar.ts toICS / eventToVEvent)

/-- JS template interpolation of a number (integers, magnitude below 1e21). -/
def intToStr (i : Int) : JSStr :=
  if i < 0 then 45 :: natToDigits (-i).toNat else natToDigits i.toNat

/-- The VEVENT block of one event.  `now` is the wall clock read by
`new Date()` for DTSTAMP. -/
def eventToVEvent (now : Int) (e : CalendarEvent) : List JSStr :=
  [utf16 "BEGIN:VEVENT",
   utf16 "UID:" ++ e.uid ++ utf16 "@clawcal",
   utf16 "DTSTAMP:" ++ formatICSDate now] ++
  (if e.allDay then
    [utf16 "DTSTART;VALUE=DATE:" ++ formatICSDateOnly e.start] ++
    (match e.endT with
     | some en => [utf16 "DTEND;VALUE=DATE:" ++ formatICSDateOnly en]
     | none => [])
  else
    [utf16 "DTSTART:" ++ formatICSDate e.start] ++
    (match e.endT with
     | some en => [utf16 "DTEND:" ++ formatICSDate en]
     | none =>
       match e.duration with
       | some d =>
         if d = 0 then [utf16 "DTEND:" ++ formatICSDate (e.start + 15 * 60000)]
         else [utf16 "DURATION:PT" ++ natToDigits d ++ [77]]
       | none => [utf16 "DTEND:" ++ formatICSDate (e.start + 15 * 60000)])) ++
  [utf16 "SUMMARY:" ++ foldLine (utf16 "SUMMARY:") (escapeICS e.title)] ++
  (match e.description with
   | some d => if d = [] then []
       else [utf16 "DESCRIPTION:" ++ foldLine (utf16 "DESCRIPTION:") (escapeICS d)]
   | none => []) ++
  (match e.category with
   | some c => if c = [] then [] else [utf16 "CATEGORIES:" ++ escapeICS c]
   | none => []) ++
  (match e.status with
   | some s => [utf16 "STATUS:" ++ mapStatus s]
   | none => []) ++
  (match e.sequence with
   | some q => [utf16 "SEQUENCE:" ++ intToStr q]
   | none => []) ++
  (match e.rrule with
   | some r => if r = [] then [] else [utf16 "RRULE:" ++ r]
   | none => []) ++
  (match e.agent with
   | some a => if a = [] then [] else [utf16 "X-OPENCLAW-AGENT:" ++ escapeICS a]
   | none => []) ++
  (match e.project with
   | some p => if p = [] then [] else [utf16 "X-OPENCLAW-PROJECT:" ++ escapeICS p]
   | none => []) ++
  (match e.url with
   | some u => if u = [] then [] else [utf16 "URL:" ++ u]
   | none => []) ++
  [utf16 "X-CLAWCAL-SOURCE-ID:" ++ e.uid] ++
  (e.alerts.map (fun al =>
    [utf16 "BEGIN:VALARM",
     utf16 "ACTION:DISPLAY",
     utf16 "DESCRIPTION:" ++ escapeICS (match al.description with
       | some d => if d = [] then e.title else d
       | none => e.title),
     utf16 "TRIGGER:-PT" ++ natToDigits al.minutes ++ [77],
     utf16 "END:VALARM"])).join ++
  [utf16 "END:VEVENT"]

/-- The logical lines of the rendered calendar document (the `lines` array
of `toICS`); folded SUMMARY/DESCRIPTION entries already contain their
embedded CRLF-space breaks. -/
def renderLines (m : CalendarManager) (now : Int) : List JSStr :=
  [utf16 "BEGIN:VCALENDAR",
   utf16 "VERSION:2.0",
   utf16 "PRODID:-//ClawCal//OpenClaw//EN",
   utf16 "CALSCALE:GREGORIAN",
   utf16 "METHOD:PUBLISH",
   utf16 "X-WR-CALNAME:" ++ m.calendarName,
   utf16 "X-WR-TIMEZONE:UTC"] ++
  (m.events.map (fun kv => eventToVEvent now kv.2)).join ++
  [utf16 "END:VCALENDAR"]

def crlf : JSStr := [13, 10]

/-- `toICS`: the full document — lines joined by CRLF plus a trailing CRLF. -/
def toICS (m : CalendarManager) (now : Int) : JSStr :=
  List.intercalate crlf (renderLines m now) ++ crlf

-- ## Parsing (src/calendar.ts loadExisting)

/-- `content.split(/\r?\n/)`: a lone CR is not a separator. -/
def splitNL : JSStr → List JSStr
  | [] => [[]]
  | 13 :: 10 :: rest => [] :: splitNL rest
  | 10 :: rest => [] :: splitNL rest
  | u :: rest =>
    match splitNL rest with
    | [] => [[u]]
    | l :: ls => (u :: l) :: ls

/-- `line.indexOf(':')` and the two `substring`s: key before the first
colon (58), value after it; `none` when there is no colon. -/
def splitColon : JSStr → Option (JSStr × JSStr)
  | [] => none
  | 58 :: rest => some ([], rest)
  | u :: rest => (splitColon rest).map (fun kv => (u :: kv.1, kv.2))

/-- `value.replace` of the end-anchored at-clawcal pattern: strip one
trailing `@clawcal`. -/
def stripAtClawcal (v : JSStr) : JSStr :=
  let sfx := utf16 "@clawcal"
  if sfx.isSuffixOf v then v.take (v.length - sfx.length) else v

/-- A `Partial<EventAlert>` being assembled inside a VALARM block. -/
structure PAlert where
  minutes : Option Nat := none
  description : Option JSStr := none

deriving DecidableEq, Repr

/-- A `Partial<CalendarEvent>` being assembled inside a VEVENT block.
`start`/`endT` are `none` both when no DTSTART/DTEND line was seen and when
its value did not match the date shape (the source would store an Invalid
Date there; per the spec callers must not depend on that path). -/
structure PEvent where
  uid : Option JSStr := none
  title : Option JSStr := none
  description : Option JSStr := none
  start : Option Int := none
  endT : Option Int := none
  duration : Option Nat := none
  allDay : Bool := false
  category : Option JSStr := none
  agent : Option JSStr := none
  project : Option JSStr := none
  status : Option EventStatus := none
  sequence : Option Int := none
  rrule : Option JSStr := none
  url : Option JSStr := none
  alerts : List EventAlert := []

deriving DecidableEq, Repr

/-- The `current as CalendarEvent` cast at END:VEVENT, guarded by the
truthiness of `current.uid` (nonempty) and `current.start`.  A missing
title would be `undefined` in JS; it is modeled as the empty string (the
guarded events of every property proved here always carry one). -/
def finishEvent (p : PEvent) : Option (JSStr × CalendarEvent) :=
  match p.uid, p.start with
  | some u, some t =>
    if u = [] then none
    else some (u,
      { uid := u, title := p.title.getD [], description := p.description,
        start := t, endT := p.endT, duration := p.duration, allDay := p.allDay,
        category := p.category, agent := p.agent, project := p.project,
        status := p.status, sequence := p.sequence, rrule := p.rrule,
        alerts := p.alerts, url := p.url })
  | _, _ => none

/-- The per-key switch for event properties. -/
def applyEventKey (cur : PEvent) (key value : JSStr) : PEvent :=
  if key = utf16 "UID" then { cur with uid := some (stripAtClawcal value) }
  else if key = utf16 "SUMMARY" then { cur with title := some (unescapeICS value) }
  else if key = utf16 "DESCRIPTION" then { cur with description := some (unescapeICS value) }
  else if key = utf16 "DTSTART" then { cur with start := parseICSDate value }
  else if key = utf16 "DTSTART;VALUE=DATE" then
    { cur with start := parseICSDateOnly value, allDay := true }
  else if key = utf16 "DTEND" then { cur with endT := parseICSDate value }
  else if key = utf16 "DTEND;VALUE=DATE" then { cur with endT := parseICSDateOnly value }
  else if key = utf16 "DURATION" then
    match durationMatch value with
    | some d => { cur with duration := some d }
    | none => cur
  else if key = utf16 "CATEGORIES" then { cur with category := some value }
  else if key = utf16 "STATUS" then { cur with status := some (reverseMapStatus value) }
  else if key = utf16 "SEQUENCE" then { cur with sequence := parseIntJS value }
  else if key = utf16 "RRULE" then { cur with rrule := some value }
  else if key = utf16 "X-OPENCLAW-AGENT" then { cur with agent := some (unescapeICS value) }
  else if key = utf16 "X-OPENCLAW-PROJECT" then { cur with project := some (unescapeICS value) }
  else if key = utf16 "URL" then { cur with url := some value }
  else cur

/-- The per-key switch inside a VALARM block. -/
def applyAlarmKey (al : PAlert) (key value : JSStr) : PAlert :=
  if key = utf16 "TRIGGER" then
    match triggerMatch value with
    | some m => { al with minutes := some m }
    | none => al
  else if key = utf16 "DESCRIPTION" then { al with description := some (unescapeICS value) }
  else al

structure PState where
  current : Option PEvent := none
  inAlarm : Bool := false
  curAlert : Option PAlert := none
  events : Store := []

deriving DecidableEq, Repr

/-- One iteration of the `for (const line of lines)` loop of `loadExisting`. -/
def parseLine (st : PState) (line : JSStr) : PState :=
  if line = utf16 "BEGIN:VEVENT" then { st with current := some {} }
  else
    match st.current with
    | none => st
    | some cur =>
      if line = utf16 "END:VEVENT" then
        match finishEvent cur with
        | some (u, ev) => { st with current := none, events := setEntry u ev st.events }
        | none => { st with current := none }
      else if line = utf16 "BEGIN:VALARM" then
        { st with inAlarm := true, curAlert := some {} }
      else if line = utf16 "END:VALARM" then
        let cur' : PEvent :=
          match st.curAlert with
          | some al =>
            match al.minutes with
            | some mn => { cur with alerts := cur.alerts ++ [⟨mn, al.description⟩] }
            | none => cur
          | none => cur
        { st with inAlarm := false, curAlert := none, current := some cur' }
      else
        match splitColon line with
        | none => st
        | some (key, value) =>
          if st.inAlarm ∧ st.curAlert.isSome then
            { st with curAlert := (st.curAlert.map (fun al => applyAlarmKey al key value)) }
          else
            { st with current := some (applyEventKey cur key value) }

/-- `loadExisting` on a document string: unfold, split into lines, run the
state machine, return the rebuilt store. -/
def loadExisting (content : JSStr) : Store :=
  ((splitNL (unfoldICS content)).foldl parseLine {}).events

-- ## Claim C6 infrastructure: store operations as data

inductive StoreOp
  | add (e : CalendarEvent)
  | update (uid : JSStr) (p : EventPatch)
  | cancel (uid : JSStr)
  | remove (uid : JSStr)

def applyOp (m : CalendarManager) : StoreOp → CalendarManager
  | .add e => addEvent m e
  | .update uid p => updateEvent m uid p
  | .cancel uid => cancelEvent m uid
  | .remove uid => removeEvent m uid

def applyOps (m : CalendarManager) (ops : List StoreOp) : CalendarManager :=
  ops.foldl applyOp m

/-- Operations other than an explicit `removeEvent` of this uid
(cleanup is the other removal path and is excluded by the claim itself). -/
def Allowed (uid : JSStr) : StoreOp → Prop
  | .remove u => u ≠ uid
  | _ => True

/-- Operations that do not write to this uid at all. -/
def NotTouching (uid : JSStr) : StoreOp → Prop
  | .add e => e.uid ≠ uid
  | .update u _ => u ≠ uid
  | .cancel u => u ≠ uid
  | .remove u => u ≠ uid

-- ## Cleanup lemmas (claim C3)

def keysOf (s : Store) : List JSStr := s.map Prod.fst

instance : IsTotal (JSStr × CalendarEvent) startLE :=
  ⟨fun a b => Int.le_total a.2.start b.2.start⟩

instance : IsTrans (JSStr × CalendarEvent) startLE :=
  ⟨fun _ _ _ hab hbc => le_trans hab hbc⟩

def c3evA : CalendarEvent :=
  { uid := [97], title := [116, 49], start := -10000000000, status := some .COMPLETED }

def c3evB : CalendarEvent :=
  { uid := [98], title := [116, 50], start := 0 }

def c3mgr : CalendarManager :=
  { events := [([97], c3evA), ([98], c3evB)], filePath := [], calendarName := [] }

-- ## Folding invariants (C7)

/-- Per-unit octet count of a whole string (no surrogate pairing):
this is the budget arithmetic `cutAtOctetBoundary` performs. -/
def unitLen : JSStr → Nat
  | [] => 0
  | u :: r => byteLenU u + unitLen r

-- ## Render determinism (C10)

/-- Two logical lines agree up to the timestamp: either equal, or both are
DTSTAMP lines. -/
def dtstampR (l₁ l₂ : JSStr) : Prop :=
  l₁ = l₂ ∨ ∃ t₁ t₂, l₁ = utf16 "DTSTAMP:" ++ t₁ ∧ l₂ = utf16 "DTSTAMP:" ++ t₂

def c10ev : CalendarEvent := { uid := [101], title := [84], start := 0 }

def c10mA : CalendarManager :=
  { events := [([101], c10ev)], filePath := [97], calendarName := [88] }

def c10mB : CalendarManager :=
  { events := [([101], c10ev)], filePath := [98], calendarName := [88] }

-- ## Daily task aggregates (C4, src/events.ts buildDailyTaskAggregate)

/-- `buildDailyTaskAggregate(agentId, date, tasks)`: one all-day COMPLETED
event per (agent, day); the description joins one bullet per task with a
newline, with no truncation. -/
def buildDailyTaskAggregate (agentId : JSStr) (date : Int) (tasks : List JSStr) :
    CalendarEvent :=
  let dateStr := isoDatePart date
  let count := tasks.length
  let noun := if count = 1 then utf16 "task" else utf16 "tasks"
  { uid := utf16 "daily-tasks-" ++ agentId ++ [45] ++ dateStr,
    title := utf16 "Shipped " ++ natToDigits count ++ [32] ++ noun ++ utf16 " -- " ++ agentId,
    description := some (List.intercalate [10] (tasks.map (fun t => utf16 "- " ++ t))),
    start := date,
    allDay := true,
    category := some (utf16 "completed"),
    agent := some agentId,
    status := some .COMPLETED }

-- ## Cron translation (C8, src/events.ts cronToRRule)

/-- `cron.trim().split(/\s+/)`: on a trimmed string the regex split yields
exactly the maximal whitespace-free runs (a fully-blank string yields a
single empty field in JS and no field here; both have fewer than 5 parts). -/
def splitWs (s : JSStr) : List JSStr :=
  (s.splitOnP (fun u => isJsWS u)).filter (fun w => !w.isEmpty)

/-- ASCII uppercasing, the range `String.prototype.toUpperCase` touches in
cron fields. -/
def toUpperJS (s : JSStr) : JSStr :=
  s.map (fun u => if 97 ≤ u ∧ u ≤ 122 then u - 32 else u)

/-- The `dayMap` lookup table of `cronToRRule`. -/
def dayMap (k : JSStr) : Option JSStr :=
  if k = utf16 "0" then some (utf16 "SU")
  else if k = utf16 "1" then some (utf16 "MO")
  else if k = utf16 "2" then some (utf16 "TU")
  else if k = utf16 "3" then some (utf16 "WE")
  else if k = utf16 "4" then some (utf16 "TH")
  else if k = utf16 "5" then some (utf16 "FR")
  else if k = utf16 "6" then some (utf16 "SA")
  else if k = utf16 "7" then some (utf16 "SU")
  else if k = utf16 "SUN" then some (utf16 "SU")
  else if k = utf16 "MON" then some (utf16 "MO")
  else if k = utf16 "TUE" then some (utf16 "TU")
  else if k = utf16 "WED" then some (utf16 "WE")
  else if k = utf16 "THU" then some (utf16 "TH")
  else if k = utf16 "FRI" then some (utf16 "FR")
  else if k = utf16 "SAT" then some (utf16 "SA")
  else none

/-- `cronToRRule`: common cron patterns to an RRULE string, empty for
anything unsupported. -/
def cronToRRule (cron : JSStr) : JSStr :=
  match splitWs (trimJS cron) with
  | minute :: hour :: _ :: _ :: dayOfWeek :: _ =>
    if 47 ∈ minute ∨ 44 ∈ minute ∨ 47 ∈ hour then []
    else if dayOfWeek = [42] then utf16 "FREQ=DAILY"
    else
      match dayMap (toUpperJS dayOfWeek) with
      | some d => utf16 "FREQ=WEEKLY;BYDAY=" ++ d
      | none =>
        if 44 ∈ dayOfWeek then
          let days := (dayOfWeek.splitOn 44).filterMap
            (fun d => dayMap (toUpperJS (trimJS d)))
          if days ≠ [] then utf16 "FREQ=WEEKLY;BYDAY=" ++ List.intercalate [44] days
          else if dayOfWeek = utf16 "1-5" then
            utf16 "FREQ=WEEKLY;BYDAY=MO,TU,WE,TH,FR"
          else []
        else if dayOfWeek = utf16 "1-5" then
          utf16 "FREQ=WEEKLY;BYDAY=MO,TU,WE,TH,FR"
        else []
  | _ => []

-- ## Feed file naming (C9, src/feed-manager.ts getOrCreateAgentFeed)

/-- One character of the safe class `[a-zA-Z0-9_-]`. -/
def safeUnit (u : Nat) : Bool :=
  decide ((65 ≤ u ∧ u ≤ 90) ∨ (97 ≤ u ∧ u ≤ 122) ∨ (48 ≤ u ∧ u ≤ 57) ∨ u = 95 ∨ u = 45)

/-- The backing file name of a per-agent feed:
`agentId.replace(/[^a-zA-Z0-9_-]/g, '-')` plus the `.ics` extension. -/
def feedFileName (agentId : JSStr) : JSStr :=
  agentId.map (fun u => if safeUnit u then u else 45) ++ utf16 ".ics"

/-- The combined feed's reserved backing file name. -/
def combinedFeedFileName : JSStr := utf16 "all-agents.ics"

-- ## Document structure (C1): unfolding and line splitting of a rendered document

/-- A physical logical line of the rendered document: folded chunks, all free
of CR and LF, reassembling to the unfolded line `u`; nonempty and not
starting with space or tab. -/
def LineOK (l u : JSStr) : Prop :=
  (∃ c0 cs, l = List.intercalate [13, 10, 32] (c0 :: cs) ∧ (c0 :: cs).flatten = u ∧
    ∀ c ∈ c0 :: cs, (13 : Nat) ∉ c ∧ (10 : Nat) ∉ c) ∧
  l ≠ [] ∧ ∀ h ∈ l.head?, ¬(h = 32 ∨ h = 9)

-- ## Well-formedness for the round trip (C1)

/-- The round-trippable events: a nonempty CR/LF-free uid, a CR-free title
with no literal backslash-n pair, a valid (midnight-aligned if all-day)
start, CR-free optional text fields, no IN_PROGRESS status (it serializes
as CONFIRMED and reads back COMPLETED), a nonnegative sequence, none-or-
nonempty CR/LF-free rrule and url, and alerts with explicit nonempty
CR-free descriptions. -/
def WFEvent (e : CalendarEvent) : Prop :=
  e.uid ≠ [] ∧ (∀ x ∈ e.uid, x ≠ 13 ∧ x ≠ 10) ∧
  (∀ x ∈ e.title, x ≠ 13) ∧ noBsN e.title = true ∧
  ValidICSTime e.start ∧ (e.allDay = true → e.start % 86400000 = 0) ∧
  (match e.description with | some d => ∀ x ∈ d, x ≠ 13 | none => True) ∧
  (match e.category with | some c => ∀ x ∈ c, x ≠ 13 | none => True) ∧
  (match e.agent with | some a => ∀ x ∈ a, x ≠ 13 | none => True) ∧
  (match e.project with | some p => ∀ x ∈ p, x ≠ 13 | none => True) ∧
  e.status ≠ some .IN_PROGRESS ∧
  (match e.sequence with | some q => 0 ≤ q | none => True) ∧
  (match e.rrule with | some r => r ≠ [] ∧ ∀ x ∈ r, x ≠ 13 ∧ x ≠ 10 | none => True) ∧
  (match e.url with | some u => u ≠ [] ∧ ∀ x ∈ u, x ≠ 13 ∧ x ≠ 10 | none => True) ∧
  (∀ al ∈ e.alerts,
    match al.description with
    | some d => d ≠ [] ∧ (∀ x ∈ d, x ≠ 13) ∧ noBsN d = true
    | none => False)

/-- A round-trippable store: pairwise distinct keys, each key its event's
uid, each event well-formed. -/
def WFStore (s : Store) : Prop :=
  (keysOf s).Nodup ∧ ∀ kv ∈ s, kv.1 = kv.2.uid ∧ WFEvent kv.2

/-- The logical lines of one VEVENT block before folding: `eventToVEvent`
with the SUMMARY and DESCRIPTION values unfolded. -/
def eventLinesU (now : Int) (e : CalendarEvent) : List JSStr :=
  [utf16 "BEGIN:VEVENT",
   utf16 "UID:" ++ e.uid ++ utf16 "@clawcal",
   utf16 "DTSTAMP:" ++ formatICSDate now] ++
  (if e.allDay then
    [utf16 "DTSTART;VALUE=DATE:" ++ formatICSDateOnly e.start] ++
    (match e.endT with
     | some en => [utf16 "DTEND;VALUE=DATE:" ++ formatICSDateOnly en]
     | none => [])
  else
    [utf16 "DTSTART:" ++ formatICSDate e.start] ++
    (match e.endT with
     | some en => [utf16 "DTEND:" ++ formatICSDate en]
     | none =>
       match e.duration with
       | some d =>
         if d = 0 then [utf16 "DTEND:" ++ formatICSDate (e.start + 15 * 60000)]
         else [utf16 "DURATION:PT" ++ natToDigits d ++ [77]]
       | none => [utf16 "DTEND:" ++ formatICSDate (e.start + 15 * 60000)])) ++
  [utf16 "SUMMARY:" ++ escapeICS e.title] ++
  (match e.description with
   | some d => if d = [] then []
       else [utf16 "DESCRIPTION:" ++ escapeICS d]
   | none => []) ++
  (match e.category with
   | some c => if c = [] then [] else [utf16 "CATEGORIES:" ++ escapeICS c]
   | none => []) ++
  (match e.status with
   | some s => [utf16 "STATUS:" ++ mapStatus s]
   | none => []) ++
  (match e.sequence with
   | some q => [utf16 "SEQUENCE:" ++ intToStr q]
   | none => []) ++
  (match e.rrule with
   | some r => if r = [] then [] else [utf16 "RRULE:" ++ r]
   | none => []) ++
  (match e.agent with
   | some a => if a = [] then [] else [utf16 "X-OPENCLAW-AGENT:" ++ escapeICS a]
   | none => []) ++
  (match e.project with
   | some p => if p = [] then [] else [utf16 "X-OPENCLAW-PROJECT:" ++ escapeICS p]
   | none => []) ++
  (match e.url with
   | some u => if u = [] then [] else [utf16 "URL:" ++ u]
   | none => []) ++
  [utf16 "X-CLAWCAL-SOURCE-ID:" ++ e.uid] ++
  (e.alerts.map (fun al =>
    [utf16 "BEGIN:VALARM",
     utf16 "ACTION:DISPLAY",
     utf16 "DESCRIPTION:" ++ escapeICS (match al.description with
       | some d => if d = [] then e.title else d
       | none => e.title),
     utf16 "TRIGGER:-PT" ++ natToDigits al.minutes ++ [77],
     utf16 "END:VALARM"])).flatten ++
  [utf16 "END:VEVENT"]

/-- The unfolded logical lines of the whole document. -/
def renderLinesU (m : CalendarManager) (now : Int) : List JSStr :=
  [utf16 "BEGIN:VCALENDAR",
   utf16 "VERSION:2.0",
   utf16 "PRODID:-//ClawCal//OpenClaw//EN",
   utf16 "CALSCALE:GREGORIAN",
   utf16 "METHOD:PUBLISH",
   utf16 "X-WR-CALNAME:" ++ m.calendarName,
   utf16 "X-WR-TIMEZONE:UTC"] ++
  (m.events.map (fun kv => eventLinesU now kv.2)).flatten ++
  [utf16 "END:VCALENDAR"]

-- ## Parsing a rendered block (C1)

/-- Agreement on the nine fields named by the round-trip property. -/
def Agree9 (e e' : CalendarEvent) : Prop :=
  e'.uid = e.uid ∧ e'.title = e.title ∧ e'.start = e.start ∧ e'.allDay = e.allDay ∧
  e'.status = e.status ∧ e'.sequence = e.sequence ∧ e'.rrule = e.rrule ∧
  e'.alerts = e.alerts ∧ e'.url = e.url

/-- The nine tracked projections of a partial event. -/
def T9 (p : PEvent) : Option JSStr × Option JSStr × Option Int × Bool ×
    Option EventStatus × Option Int × Option JSStr × List EventAlert × Option JSStr :=
  (p.uid, p.title, p.start, p.allDay, p.status, p.sequence, p.rrule, p.alerts, p.url)

def c1ev : CalendarEvent :=
  { uid := [120], title := [84], start := 0, status := some .IN_PROGRESS }

def c1mgr : CalendarManager :=
  { events := [([120], c1ev)], filePath := [], calendarName := [88] }

def c1wev : CalendarEvent :=
  { uid := [119], title := [84, 105], description := some [68], start := 0,
    endT := some 3600000, allDay := false, category := some [67], agent := some [65],
    project := some [80], status := some .PLANNED, sequence := some 2,
    rrule := some (utf16 "FREQ=DAILY"), alerts := [⟨10, some [65]⟩],
    url := some (utf16 "http") }

def c1wmgr : CalendarManager :=
  { events := [([119], c1wev)], filePath := [], calendarName := [88] }

-- # Theorems

theorem replace1_append (t : Nat) (r a b : JSStr) :
    replace1 t r (a ++ b) = replace1 t r a ++ replace1 t r b := by
  induction a with
  | nil => rfl
  | cons u rest ih => simp [replace1, ih]

theorem escapeICS_cons (u : Nat) (rest : JSStr) :
    escapeICS (u :: rest) = enc3 u ++ escapeICS rest := by
  unfold escapeICS
  have h1 : replace1 92 [92, 92] (u :: rest)
      = (if u = 92 then [92, 92] else [u]) ++ replace1 92 [92, 92] rest := by
    simp [replace1]
  rw [h1, replace1_append, replace1_append, replace1_append]
  by_cases h92 : u = 92
  · subst h92; simp [enc3, replace1]
  · by_cases h59 : u = 59
    · subst h59; simp [enc3, replace1]
    · by_cases h44 : u = 44
      · subst h44; simp [enc3, replace1, h92]
      · by_cases h10 : u = 10
        · subst h10; simp [enc3, replace1, h92, h59]
        · simp [enc3, replace1, h92, h59, h44, h10]

theorem escapeICS_eq_E3 (s : JSStr) : escapeICS s = E3 s := by
  induction s with
  | nil => rfl
  | cons u rest ih => rw [escapeICS_cons, ih]; rfl

theorem replace2_cons_of_ne {a : Nat} (b : Nat) (r : JSStr) {u : Nat} (s : JSStr)
    (h : u ≠ a) : replace2 a b r (u :: s) = u :: replace2 a b r s := by
  cases s with
  | nil => simp [replace2]
  | cons v rest =>
    have : ¬(u = a ∧ v = b) := fun hc => h hc.1
    simp [replace2, this]

theorem replace2_cons₂_of_ne (a : Nat) {b : Nat} (r : JSStr) (u : Nat) {v : Nat}
    (s : JSStr) (h : v ≠ b) : replace2 a b r (u :: v :: s) = u :: replace2 a b r (v :: s) := by
  have : ¬(u = a ∧ v = b) := fun hc => h hc.2
  simp [replace2, this]

theorem replace2_match (a b : Nat) (r s : JSStr) :
    replace2 a b r (a :: b :: s) = r ++ replace2 a b r s := by
  simp [replace2]

theorem E3_nil_iff (t : JSStr) : E3 t = [] ↔ t = [] := by
  cases t with
  | nil => simp [E3]
  | cons w t' =>
    simp only [E3]
    constructor
    · intro hE
      exfalso
      by_cases h92 : w = 92
      · subst h92; simp [enc3] at hE
      · by_cases h59 : w = 59
        · subst h59; simp [enc3] at hE
        · by_cases h44 : w = 44
          · subst h44; simp [enc3, h92] at hE
          · by_cases h10 : w = 10
            · subst h10; simp [enc3, h92, h59] at hE
            · simp [enc3, h92, h59, h44, h10] at hE
    · intro hc; exact absurd hc (List.cons_ne_nil w t')

/-- After an escaped backslash, the image of the rest of the string never
starts with the letter n (110), provided the source had no literal
backslash-n pair. -/
theorem E3_head_ne {t : JSStr} (h : noBsN (92 :: t) = true) :
    ∀ v X, E3 t = v :: X → v ≠ 110 := by
  intro v X hE
  cases t with
  | nil => simp [E3] at hE
  | cons w t' =>
    have hw : w ≠ 110 := by
      intro hww; subst hww
      simp [noBsN] at h
    by_cases h92 : w = 92
    · subst h92; simp [E3, enc3] at hE; omega
    · by_cases h59 : w = 59
      · subst h59; simp [E3, enc3] at hE; omega
      · by_cases h44 : w = 44
        · subst h44; simp [E3, enc3, h92] at hE; omega
        · by_cases h10 : w = 10
          · subst h10; simp [E3, enc3, h92, h59] at hE; omega
          · simp [E3, enc3, h92, h59, h44, h10] at hE
            omega

theorem E2_head_ne (t : JSStr) : ∀ v X, E2 t = v :: X → v ≠ 44 := by
  intro v X hE
  cases t with
  | nil => simp [E2] at hE
  | cons w t' =>
    by_cases h92 : w = 92
    · subst h92; simp [E2, enc2] at hE; omega
    · by_cases h59 : w = 59
      · subst h59; simp [E2, enc2] at hE; omega
      · by_cases h44 : w = 44
        · subst h44; simp [E2, enc2, h92] at hE; omega
        · simp [E2, enc2, h92, h59, h44] at hE
          omega

theorem E1_head_ne (t : JSStr) : ∀ v X, E1 t = v :: X → v ≠ 59 := by
  intro v X hE
  cases t with
  | nil => simp [E1] at hE
  | cons w t' =>
    by_cases h92 : w = 92
    · subst h92; simp [E1, enc1] at hE; omega
    · by_cases h59 : w = 59
      · subst h59; simp [E1, enc1] at hE; omega
      · simp [E1, enc1, h92, h59] at hE
        omega

theorem noBsN_tail {u : Nat} {t : JSStr} (h : noBsN (u :: t) = true) : noBsN t = true := by
  cases t with
  | nil => rfl
  | cons v rest => simp [noBsN] at h; exact h.2

/-- The first unescape step (backslash-n to newline) maps the fully escaped
image to the image with newlines restored to literals, when the source had no
literal backslash-n pair. -/
theorem replace2_E3 (s : JSStr) (h : noBsN s = true) :
    replace2 92 110 [10] (E3 s) = E2 s := by
  induction s with
  | nil => rfl
  | cons u t ih =>
    have ih' := ih (noBsN_tail h)
    by_cases h92 : u = 92
    · subst h92
      show replace2 92 110 [10] (92 :: 92 :: E3 t) = 92 :: 92 :: E2 t
      rw [replace2_cons₂_of_ne 92 [10] 92 (E3 t) (by omega)]
      cases hE : E3 t with
      | nil =>
        rw [(E3_nil_iff t).mp hE]
        rfl
      | cons v X =>
        have hv : v ≠ 110 := E3_head_ne h v X hE
        rw [replace2_cons₂_of_ne 92 [10] 92 X hv, ← hE, ih']
    · by_cases h59 : u = 59
      · subst h59
        show replace2 92 110 [10] (92 :: 59 :: E3 t) = 92 :: 59 :: E2 t
        rw [replace2_cons₂_of_ne 92 [10] 92 (E3 t) (by omega),
          replace2_cons_of_ne 110 [10] (E3 t) (by omega), ih']
      · by_cases h44 : u = 44
        · subst h44
          show replace2 92 110 [10] (92 :: 44 :: E3 t) = 92 :: 44 :: E2 t
          rw [replace2_cons₂_of_ne 92 [10] 92 (E3 t) (by omega),
            replace2_cons_of_ne 110 [10] (E3 t) (by omega), ih']
        · by_cases h10 : u = 10
          · subst h10
            show replace2 92 110 [10] (92 :: 110 :: E3 t) = 10 :: E2 t
            rw [replace2_match 92 110 [10] (E3 t), ih']
            rfl
          · have he3 : enc3 u = [u] := by simp [enc3, h92, h59, h44, h10]
            have he2 : enc2 u = [u] := by simp [enc2, h92, h59, h44]
            show replace2 92 110 [10] (enc3 u ++ E3 t) = enc2 u ++ E2 t
            rw [he3, he2, List.singleton_append, List.singleton_append,
              replace2_cons_of_ne 110 [10] (E3 t) h92, ih']

/-- The second unescape step (backslash-comma) on the image with commas still
escaped restores literal commas. -/
theorem replace2_E2 (s : JSStr) : replace2 92 44 [44] (E2 s) = E1 s := by
  induction s with
  | nil => rfl
  | cons u t ih =>
    by_cases h92 : u = 92
    · subst h92
      show replace2 92 44 [44] (92 :: 92 :: E2 t) = 92 :: 92 :: E1 t
      rw [replace2_cons₂_of_ne 92 [44] 92 (E2 t) (by omega)]
      cases hE : E2 t with
      | nil =>
        have ht : E1 t = [] := by
          cases t with
          | nil => rfl
          | cons w t' =>
            exfalso
            by_cases hw : w = 92
            · subst hw; simp [E2, enc2] at hE
            · by_cases hw59 : w = 59
              · subst hw59; simp [E2, enc2] at hE
              · by_cases hw44 : w = 44
                · subst hw44; simp [E2, enc2, hw] at hE
                · simp [E2, enc2, hw, hw59, hw44] at hE
        rw [ht]
        rfl
      | cons v X =>
        have hv : v ≠ 44 := E2_head_ne t v X hE
        rw [replace2_cons₂_of_ne 92 [44] 92 X hv, ← hE, ih]
    · by_cases h59 : u = 59
      · subst h59
        show replace2 92 44 [44] (92 :: 59 :: E2 t) = 92 :: 59 :: E1 t
        rw [replace2_cons₂_of_ne 92 [44] 92 (E2 t) (by omega),
          replace2_cons_of_ne 44 [44] (E2 t) (by omega), ih]
      · by_cases h44 : u = 44
        · subst h44
          show replace2 92 44 [44] (92 :: 44 :: E2 t) = 44 :: E1 t
          rw [replace2_match 92 44 [44] (E2 t), ih]
          rfl
        · have he2 : enc2 u = [u] := by simp [enc2, h92, h59, h44]
          have he1 : enc1 u = [u] := by simp [enc1, h92, h59]
          show replace2 92 44 [44] (enc2 u ++ E2 t) = enc1 u ++ E1 t
          rw [he2, he1, List.singleton_append, List.singleton_append,
            replace2_cons_of_ne 44 [44] (E2 t) h92, ih]

/-- The third unescape step (backslash-semicolon) restores literal semicolons. -/
theorem replace2_E1 (s : JSStr) : replace2 92 59 [59] (E1 s) = E0 s := by
  induction s with
  | nil => rfl
  | cons u t ih =>
    by_cases h92 : u = 92
    · subst h92
      show replace2 92 59 [59] (92 :: 92 :: E1 t) = 92 :: 92 :: E0 t
      rw [replace2_cons₂_of_ne 92 [59] 92 (E1 t) (by omega)]
      cases hE : E1 t with
      | nil =>
        have ht : E0 t = [] := by
          cases t with
          | nil => rfl
          | cons w t' =>
            exfalso
            by_cases hw : w = 92
            · subst hw; simp [E1, enc1] at hE
            · by_cases hw59 : w = 59
              · subst hw59; simp [E1, enc1] at hE
              · simp [E1, enc1, hw, hw59] at hE
        rw [ht]
        rfl
      | cons v X =>
        have hv : v ≠ 59 := E1_head_ne t v X hE
        rw [replace2_cons₂_of_ne 92 [59] 92 X hv, ← hE, ih]
    · by_cases h59 : u = 59
      · subst h59
        show replace2 92 59 [59] (92 :: 59 :: E1 t) = 59 :: E0 t
        rw [replace2_match 92 59 [59] (E1 t), ih]
        rfl
      · have he1 : enc1 u = [u] := by simp [enc1, h92, h59]
        have he0 : enc0 u = [u] := by simp [enc0, h92]
        show replace2 92 59 [59] (enc1 u ++ E1 t) = enc0 u ++ E0 t
        rw [he1, he0, List.singleton_append, List.singleton_append,
          replace2_cons_of_ne 59 [59] (E1 t) h92, ih]

/-- The last unescape step (double backslash) restores literal backslashes. -/
theorem replace2_E0 (s : JSStr) : replace2 92 92 [92] (E0 s) = s := by
  induction s with
  | nil => rfl
  | cons u t ih =>
    by_cases h92 : u = 92
    · subst h92
      show replace2 92 92 [92] (92 :: 92 :: E0 t) = 92 :: t
      rw [replace2_match 92 92 [92] (E0 t), ih]
      rfl
    · have he0 : enc0 u = [u] := by simp [enc0, h92]
      show replace2 92 92 [92] (enc0 u ++ E0 t) = u :: t
      rw [he0, List.singleton_append, replace2_cons_of_ne 92 [92] (E0 t) h92, ih]

/-- Shared helper: the unescape chain inverts the escape chain for strings
without a literal backslash-n pair. -/
theorem unescape_escapeICS (s : JSStr) (h : noBsN s = true) :
    unescapeICS (escapeICS s) = s := by
  unfold unescapeICS
  rw [escapeICS_eq_E3, replace2_E3 s h, replace2_E2, replace2_E1, replace2_E0]

-- ## Claim C2

/-- Claim C2, counterexample: for the two-unit string backslash-n
(units 92, 110) the round trip fails — escaping gives backslash backslash n,
and the unescape chain, which replaces backslash-n before double backslash,
turns that into backslash newline instead of the original string. -/
theorem C2_counterexample :
    unescapeICS (escapeICS [92, 110]) = [92, 10] ∧
      unescapeICS (escapeICS [92, 110]) ≠ [92, 110] := by
  constructor
  · rfl
  · decide

/-- Claim C2 (amended): for every string with no literal backslash
immediately followed by a literal letter n, `unescapeICS (escapeICS s) = s`;
in particular this covers all strings containing backslashes, semicolons,
commas, and newlines that avoid that one two-unit pattern.  (As stated the
claim fails: the fixed unescape order replaces backslash-n first, so an
escaped backslash followed by a literal n is re-interpreted as an escape.) -/
theorem C2_escaping_invariant (s : JSStr) (h : noBsN s = true) :
    unescapeICS (escapeICS s) = s :=
  unescape_escapeICS s h

/-- Claim C2, witness: the amended invariant evaluated on a concrete string
containing a backslash, a semicolon, a comma and a newline. -/
theorem C2_witness :
    noBsN (utf16 "a\\b;c,d\ne") = true ∧
      unescapeICS (escapeICS (utf16 "a\\b;c,d\ne")) = utf16 "a\\b;c,d\ne" :=
  ⟨by decide, C2_escaping_invariant (utf16 "a\\b;c,d\ne") (by decide)⟩

theorem yearLen_pos (y : Nat) : 0 < yearLen y := by
  unfold yearLen; split <;> omega

theorem monthLen_pos (y m : Nat) : 0 < monthLen y m := by
  unfold monthLen; split <;> split <;> omega

theorem monthLen_le (y m : Nat) : monthLen y m ≤ 31 := by
  unfold monthLen; split <;> split <;> omega

theorem yearOfA_spec : ∀ (f z y : Nat), z < f → 1970 ≤ y →
    (yearOfA f y z).2 < yearLen (yearOfA f y z).1 ∧
    daysBeforeYear (yearOfA f y z).1 + (yearOfA f y z).2 = daysBeforeYear y + z ∧
    y ≤ (yearOfA f y z).1 := by
  have hsucc : ∀ f y z, yearOfA (f + 1) y z =
      if z < yearLen y then (y, z) else yearOfA f (y + 1) (z - yearLen y) := fun _ _ _ => rfl
  intro f
  induction f with
  | zero => intro z y hf; omega
  | succ f ih =>
    intro z y hf hy
    rw [hsucc]
    by_cases h : z < yearLen y
    · simp [h]
    · simp only [h, if_false]
      have hpos := yearLen_pos y
      obtain ⟨h1, h2, h3⟩ := ih (z - yearLen y) (y + 1) (by omega) (by omega)
      refine ⟨h1, ?_, by omega⟩
      have hstep : daysBeforeYear (y + 1) = daysBeforeYear y + yearLen y := by
        have hle : ¬(y + 1 ≤ 1970) := by omega
        simp [daysBeforeYear, hle]
      rw [h2, hstep]
      omega

theorem yearOf_spec (z : Nat) : ∀ y, 1970 ≤ y →
    (yearOf y z).2 < yearLen (yearOf y z).1 ∧
    daysBeforeYear (yearOf y z).1 + (yearOf y z).2 = daysBeforeYear y + z ∧
    y ≤ (yearOf y z).1 := by
  intro y hy
  exact yearOfA_spec (z + 1) z y (by omega) hy

theorem monthOfA_spec : ∀ (f z m : Nat), z < f → 1 ≤ m →
    ∀ y, 1 ≤ (monthOfA f y m z).2 ∧
    (monthOfA f y m z).2 ≤ monthLen y (monthOfA f y m z).1 ∧
    daysBeforeMonth y (monthOfA f y m z).1 + ((monthOfA f y m z).2 - 1) =
      daysBeforeMonth y m + z ∧
    m ≤ (monthOfA f y m z).1 := by
  have hsucc : ∀ f y m z, monthOfA (f + 1) y m z =
      if z < monthLen y m then (m, z + 1) else monthOfA f y (m + 1) (z - monthLen y m) :=
    fun _ _ _ _ => rfl
  intro f
  induction f with
  | zero => intro z m hf; omega
  | succ f ih =>
    intro z m hf hm y
    rw [hsucc]
    by_cases h : z < monthLen y m
    · simp only [h, if_true]
      refine ⟨by omega, by omega, by omega, by omega⟩
    · simp only [h, if_false]
      have hpos := monthLen_pos y m
      obtain ⟨h1, h2, h3, h4⟩ := ih (z - monthLen y m) (m + 1) (by omega) (by omega) y
      refine ⟨h1, h2, ?_, by omega⟩
      have hstep : daysBeforeMonth y (m + 1) = daysBeforeMonth y m + monthLen y m := by
        have hle : ¬(m + 1 ≤ 1) := by omega
        simp [daysBeforeMonth, hle]
      rw [h3, hstep]
      omega

theorem monthOf_spec (z : Nat) : ∀ m, 1 ≤ m →
    ∀ y, 1 ≤ (monthOf y m z).2 ∧
    (monthOf y m z).2 ≤ monthLen y (monthOf y m z).1 ∧
    daysBeforeMonth y (monthOf y m z).1 + ((monthOf y m z).2 - 1) = daysBeforeMonth y m + z ∧
    m ≤ (monthOf y m z).1 := by
  intro m hm y
  exact monthOfA_spec (z + 1) z m (by omega) hm y

theorem daysBeforeMonth_13 (y : Nat) : daysBeforeMonth y 13 = yearLen y := by
  have h2 : monthLen y 2 = if isLeap y then 29 else 28 := by simp [monthLen]
  cases hL : isLeap y <;>
    · rw [yearLen, hL]
      rw [daysBeforeMonth, daysBeforeMonth, daysBeforeMonth, daysBeforeMonth,
        daysBeforeMonth, daysBeforeMonth, daysBeforeMonth, daysBeforeMonth,
        daysBeforeMonth, daysBeforeMonth, daysBeforeMonth, daysBeforeMonth,
        daysBeforeMonth]
      simp [monthLen, hL]

theorem daysBeforeMonth_mono (y : Nat) {a b : Nat} (h : a ≤ b) :
    daysBeforeMonth y a ≤ daysBeforeMonth y b := by
  induction b with
  | zero => have : a = 0 := by omega
            subst this; exact le_refl _
  | succ b ih =>
    by_cases hab : a = b + 1
    · subst hab; exact le_refl _
    · have ha : a ≤ b := by omega
      have hb : daysBeforeMonth y (b + 1) = if b + 1 ≤ 1 then 0 else daysBeforeMonth y b + monthLen y b := rfl
      rw [hb]
      split
      · have : a = 0 ∨ a = 1 := by omega
        rcases this with h0 | h1
        · subst h0; exact le_refl _
        · subst h1; exact le_refl _
      · exact le_trans (ih ha) (by omega)

/-- The non-trivial bound for the civil conversion: the month peeled from a
day-of-year below the year length is at most 12. -/
theorem monthOf_le_12 (y : Nat) {z : Nat} (hz : z < yearLen y) :
    (monthOf y 1 z).1 ≤ 12 := by
  obtain ⟨h1, h2, h3, h4⟩ := monthOf_spec z 1 (by omega) y
  by_contra hgt
  have h13 : (13 : Nat) ≤ (monthOf y 1 z).1 := by omega
  have hmono := daysBeforeMonth_mono y h13
  rw [daysBeforeMonth_13] at hmono
  have hb1 : daysBeforeMonth y 1 = 0 := rfl
  omega

theorem daysBeforeYear_mono {a b : Nat} (h : a ≤ b) :
    daysBeforeYear a ≤ daysBeforeYear b := by
  induction b with
  | zero => have : a = 0 := by omega
            subst this; exact le_refl _
  | succ b ih =>
    by_cases hab : a = b + 1
    · subst hab; exact le_refl _
    · have ha : a ≤ b := by omega
      have hb : daysBeforeYear (b + 1) = if b + 1 ≤ 1970 then 0 else daysBeforeYear b + yearLen b := rfl
      rw [hb]
      split
      · have hble : a ≤ 1970 := by omega
        have hz : daysBeforeYear a = 0 := by
          cases a with
          | zero => rfl
          | succ a' =>
            have hle : a' + 1 ≤ 1970 := hble
            show (if a' + 1 ≤ 1970 then 0 else daysBeforeYear a' + yearLen a') = 0
            simp [hle]
        omega
      · exact le_trans (ih ha) (by omega)

/-- Full correctness of the day-count → civil conversion: converting back
with the `Date.UTC` day computation returns the original day count, and all
fields are in range. -/
theorem civilOfDays_spec (z : Nat) :
    daysOfCivil (civilOfDays z).1 (civilOfDays z).2.1 (civilOfDays z).2.2 = z ∧
    1970 ≤ (civilOfDays z).1 ∧ 1 ≤ (civilOfDays z).2.1 ∧ (civilOfDays z).2.1 ≤ 12 ∧
    1 ≤ (civilOfDays z).2.2 ∧ (civilOfDays z).2.2 ≤ 31 := by
  obtain ⟨hy1, hy2, hy3⟩ := yearOf_spec z 1970 (le_refl _)
  obtain ⟨hm1, hm2, hm3, hm4⟩ := monthOf_spec (yearOf 1970 z).2 1 (le_refl _) (yearOf 1970 z).1
  have h1970 : daysBeforeYear 1970 = 0 := by decide
  have hb1 : daysBeforeMonth (yearOf 1970 z).1 1 = 0 := rfl
  have h12 := monthOf_le_12 (yearOf 1970 z).1 hy1
  have h31 := monthLen_le (yearOf 1970 z).1 (monthOf (yearOf 1970 z).1 1 (yearOf 1970 z).2).1
  simp only [civilOfDays, daysOfCivil]
  refine ⟨by omega, by omega, by omega, h12, by omega, by omega⟩

theorem yearLen_step (y : Nat) (h : 1 ≤ y) :
    yearLen y + ((y - 1) / 4 + y / 100 + (y - 1) / 400) =
      365 + (y / 4 + (y - 1) / 100 + y / 400) := by
  by_cases h400 : y % 400 = 0
  · have hYL : yearLen y = 366 := by simp [yearLen, isLeap, h400]
    rw [hYL]; omega
  · by_cases h100 : y % 100 = 0
    · have h4 : y % 4 = 0 := by omega
      have hYL : yearLen y = 365 := by simp [yearLen, isLeap, h400, h100, h4]
      rw [hYL]; omega
    · by_cases h4 : y % 4 = 0
      · have hYL : yearLen y = 366 := by simp [yearLen, isLeap, h400, h100, h4]
        rw [hYL]; omega
      · have hYL : yearLen y = 365 := by simp [yearLen, isLeap, h400, h100, h4]
        rw [hYL]; omega

theorem daysBeforeYear_closed (y : Nat) (h : 1970 ≤ y) :
    daysBeforeYear y + leapsBefore 1970 = 365 * (y - 1970) + leapsBefore y := by
  induction y, h using Nat.le_induction with
  | base =>
    have h0 : daysBeforeYear 1970 = 0 := by decide
    rw [h0]
  | succ y hy ih =>
    have hstep : daysBeforeYear (y + 1) = daysBeforeYear y + yearLen y := by
      have hle : ¬(y + 1 ≤ 1970) := by omega
      show (if y + 1 ≤ 1970 then 0 else daysBeforeYear y + yearLen y) = _
      simp [hle]
    have hy1 : 1 ≤ y := by omega
    have hys := yearLen_step y hy1
    have hL : leapsBefore (y + 1) = y / 4 - y / 100 + y / 400 := by
      unfold leapsBefore
      omega
    have hLy : leapsBefore y = (y - 1) / 4 - (y - 1) / 100 + (y - 1) / 400 := rfl
    have hC : leapsBefore 1970 = 477 := by decide
    rw [hstep, hL, hC]
    rw [hLy, hC] at ih
    generalize hA : daysBeforeYear y = A at ih ⊢
    generalize hB : yearLen y = B at hys ⊢
    omega

theorem daysBeforeYear_10000 : daysBeforeYear 10000 = 2932897 := by
  have h := daysBeforeYear_closed 10000 (by omega)
  have h1 : leapsBefore 1970 = 477 := by decide
  have h2 : leapsBefore 10000 = 2424 := by decide
  omega

theorem val2_pad (n : Nat) (h : n < 100) :
    val2 (48 + n / 10 % 10) (48 + n % 10) = n := by
  unfold val2; omega

theorem val4_pad (n : Nat) (h : n < 10000) :
    val4 (48 + n / 1000 % 10) (48 + n / 100 % 10) (48 + n / 10 % 10) (48 + n % 10) = n := by
  unfold val4 val2; omega

theorem isDigit_mod (k : Nat) : isDigit (48 + k % 10) = true := by
  simp only [isDigit, Bool.and_eq_true, decide_eq_true_eq]
  omega

theorem parseICSDate_digits (a1 a2 a3 a4 b1 b2 c1 c2 d1 d2 e1 e2 f1 f2 : Nat)
    (ha : (isDigit a1 && isDigit a2 && isDigit a3 && isDigit a4 && isDigit b1 && isDigit b2 &&
      isDigit c1 && isDigit c2 && ((84 : Nat) == 84) && isDigit d1 && isDigit d2 && isDigit e1 &&
      isDigit e2 && isDigit f1 && isDigit f2 && ((90 : Nat) == 90) : Bool) = true) :
    parseICSDate [a1, a2, a3, a4, b1, b2, c1, c2, 84, d1, d2, e1, e2, f1, f2, 90] =
      some (dateUTC (val4 a1 a2 a3 a4) (val2 b1 b2) (val2 c1 c2)
        (val2 d1 d2) (val2 e1 e2) (val2 f1 f2)) := by
  show (if (isDigit a1 && isDigit a2 && isDigit a3 && isDigit a4 && isDigit b1 && isDigit b2 &&
      isDigit c1 && isDigit c2 && ((84 : Nat) == 84) && isDigit d1 && isDigit d2 && isDigit e1 &&
      isDigit e2 && isDigit f1 && isDigit f2 && ((90 : Nat) == 90) : Bool) = true then
      some (dateUTC (val4 a1 a2 a3 a4) (val2 b1 b2) (val2 c1 c2)
        (val2 d1 d2) (val2 e1 e2) (val2 f1 f2))
    else none) = some (dateUTC (val4 a1 a2 a3 a4) (val2 b1 b2) (val2 c1 c2)
        (val2 d1 d2) (val2 e1 e2) (val2 f1 f2))
  rw [if_pos ha]

theorem parseICSDateOnly_digits (a1 a2 a3 a4 b1 b2 c1 c2 : Nat)
    (ha : (isDigit a1 && isDigit a2 && isDigit a3 && isDigit a4 && isDigit b1 && isDigit b2 &&
      isDigit c1 && isDigit c2 : Bool) = true) :
    parseICSDateOnly [a1, a2, a3, a4, b1, b2, c1, c2] =
      some (dateUTC (val4 a1 a2 a3 a4) (val2 b1 b2) (val2 c1 c2) 0 0 0) := by
  show (if (isDigit a1 && isDigit a2 && isDigit a3 && isDigit a4 && isDigit b1 && isDigit b2 &&
      isDigit c1 && isDigit c2 : Bool) = true then
      some (dateUTC (val4 a1 a2 a3 a4) (val2 b1 b2) (val2 c1 c2) 0 0 0)
    else none) = some (dateUTC (val4 a1 a2 a3 a4) (val2 b1 b2) (val2 c1 c2) 0 0 0)
  rw [if_pos ha]

/-- Year bound: instants below the year-10000 limit have a civil year
below 10000. -/
theorem civil_year_lt (z : Nat) (hz : z < 2932897) : (civilOfDays z).1 < 10000 := by
  obtain ⟨hds, hy0, hm1, hm12, hd1, hd31⟩ := civilOfDays_spec z
  by_contra hge
  have hmono : daysBeforeYear 10000 ≤ daysBeforeYear (civilOfDays z).1 :=
    daysBeforeYear_mono (by omega)
  rw [daysBeforeYear_10000] at hmono
  unfold daysOfCivil at hds
  omega

/-- The codec round trip on instants: formatting then parsing restores the
instant exactly, for valid whole-second instants. -/
theorem parse_formatICSDate_nat (n : Nat) (hub : n < 253402300800000) (hms : n % 1000 = 0) :
    parseICSDate (formatICSDate (n : Int)) = some (n : Int) := by
  have hz : n / 86400000 < 2932897 := by omega
  obtain ⟨hds, hy0, hm1, hm12, hd1, hd31⟩ := civilOfDays_spec (n / 86400000)
  have hylt := civil_year_lt (n / 86400000) hz
  have hfmt : formatICSDate (n : Int) =
      pad4 (civilOfDays (n / 86400000)).1 ++ pad2 (civilOfDays (n / 86400000)).2.1 ++
      pad2 (civilOfDays (n / 86400000)).2.2 ++ [84] ++
      pad2 (n % 86400000 / 3600000) ++ pad2 (n % 86400000 % 3600000 / 60000) ++
      pad2 (n % 86400000 % 60000 / 1000) ++ [90] := by
    simp [formatICSDate, civilOfMs]
  rw [hfmt]
  have hlist : ∀ Y MO D HH MI SS : Nat,
      pad4 Y ++ pad2 MO ++ pad2 D ++ [84] ++ pad2 HH ++ pad2 MI ++ pad2 SS ++ [90] =
      [48 + Y / 1000 % 10, 48 + Y / 100 % 10, 48 + Y / 10 % 10, 48 + Y % 10,
       48 + MO / 10 % 10, 48 + MO % 10, 48 + D / 10 % 10, 48 + D % 10, 84,
       48 + HH / 10 % 10, 48 + HH % 10, 48 + MI / 10 % 10, 48 + MI % 10,
       48 + SS / 10 % 10, 48 + SS % 10, 90] := fun _ _ _ _ _ _ => rfl
  rw [hlist]
  rw [parseICSDate_digits _ _ _ _ _ _ _ _ _ _ _ _ _ _
    (by simp [isDigit_mod])]
  rw [val4_pad _ (by omega), val2_pad _ (by omega), val2_pad _ (by omega),
    val2_pad _ (by omega), val2_pad _ (by omega), val2_pad _ (by omega)]
  unfold dateUTC
  rw [hds]
  congr 1
  push_cast
  omega

theorem parse_formatICSDate (t : Int) (h : ValidICSTime t) :
    parseICSDate (formatICSDate t) = some t := by
  obtain ⟨h0, hub, hms⟩ := h
  have ht : t = ((t.toNat : Nat) : Int) := (Int.toNat_of_nonneg h0).symm
  rw [ht]
  exact parse_formatICSDate_nat t.toNat (by omega) (by omega)

theorem parse_formatICSDateOnly_nat (n : Nat) (hub : n < 253402300800000)
    (hmid : n % 86400000 = 0) :
    parseICSDateOnly (formatICSDateOnly (n : Int)) = some (n : Int) := by
  have hz : n / 86400000 < 2932897 := by omega
  obtain ⟨hds, hy0, hm1, hm12, hd1, hd31⟩ := civilOfDays_spec (n / 86400000)
  have hylt := civil_year_lt (n / 86400000) hz
  have hfmt : formatICSDateOnly (n : Int) =
      pad4 (civilOfDays (n / 86400000)).1 ++ pad2 (civilOfDays (n / 86400000)).2.1 ++
      pad2 (civilOfDays (n / 86400000)).2.2 := by
    simp [formatICSDateOnly, civilOfMs]
  rw [hfmt]
  have hlist : ∀ Y MO D : Nat,
      pad4 Y ++ pad2 MO ++ pad2 D =
      [48 + Y / 1000 % 10, 48 + Y / 100 % 10, 48 + Y / 10 % 10, 48 + Y % 10,
       48 + MO / 10 % 10, 48 + MO % 10, 48 + D / 10 % 10, 48 + D % 10] := fun _ _ _ => rfl
  rw [hlist]
  rw [parseICSDateOnly_digits _ _ _ _ _ _ _ _ (by simp [isDigit_mod])]
  rw [val4_pad _ (by omega), val2_pad _ (by omega), val2_pad _ (by omega)]
  unfold dateUTC
  rw [hds]
  congr 1
  push_cast
  omega

theorem parse_formatICSDateOnly (t : Int) (h : ValidICSTime t) (hmid : t % 86400000 = 0) :
    parseICSDateOnly (formatICSDateOnly t) = some t := by
  obtain ⟨h0, hub, hms⟩ := h
  have ht : t = ((t.toNat : Nat) : Int) := (Int.toNat_of_nonneg h0).symm
  rw [ht]
  exact parse_formatICSDateOnly_nat t.toNat (by omega) (by omega)

theorem digitsToNat_append (a b : JSStr) :
    digitsToNat (a ++ b) = b.foldl (fun a u => a * 10 + (u - 48)) (digitsToNat a) := by
  unfold digitsToNat
  rw [List.foldl_append]

theorem natToDigitsA_correct : ∀ (f n : Nat), n < f →
    digitsToNat (natToDigitsA f n) = n ∧ natToDigitsA f n ≠ [] ∧
    ∀ u ∈ natToDigitsA f n, isDigit u = true := by
  intro f
  induction f with
  | zero => intro n h; omega
  | succ f ih =>
    intro n h
    have hunf : natToDigitsA (f + 1) n =
        if n < 10 then [48 + n] else natToDigitsA f (n / 10) ++ [48 + n % 10] := rfl
    rw [hunf]
    by_cases h10 : n < 10
    · simp only [h10, if_true]
      refine ⟨by unfold digitsToNat; simp only [List.foldl]; omega, by simp, ?_⟩
      intro u hu
      simp at hu
      subst hu
      simp [isDigit]
      omega
    · simp only [h10, if_false]
      have hrec : n / 10 < f := by omega
      obtain ⟨ih1, ih2, ih3⟩ := ih (n / 10) hrec
      refine ⟨?_, by simp, ?_⟩
      · rw [digitsToNat_append, ih1]
        simp
        omega
      · intro u hu
        rw [List.mem_append] at hu
        rcases hu with hu | hu
        · exact ih3 u hu
        · simp at hu
          subst hu
          simp [isDigit]
          omega

theorem digitsToNat_natToDigits (n : Nat) : digitsToNat (natToDigits n) = n :=
  (natToDigitsA_correct (n + 1) n (by omega)).1

theorem natToDigits_ne_nil (n : Nat) : natToDigits n ≠ [] :=
  (natToDigitsA_correct (n + 1) n (by omega)).2.1

theorem natToDigits_digits (n : Nat) : ∀ u ∈ natToDigits n, isDigit u = true :=
  (natToDigitsA_correct (n + 1) n (by omega)).2.2

-- ## Store lemmas

theorem getEntry_setEntry_self (k : JSStr) (v : CalendarEvent) (s : Store) :
    getEntry k (setEntry k v s) = some v := by
  induction s with
  | nil => simp [setEntry, getEntry]
  | cons kv rest ih =>
    obtain ⟨k', v'⟩ := kv
    by_cases h : k' = k
    · subst h; simp [setEntry, getEntry]
    · simp [setEntry, getEntry, h, ih]

theorem getEntry_setEntry_ne (k q : JSStr) (v : CalendarEvent) (s : Store) (h : q ≠ k) :
    getEntry q (setEntry k v s) = getEntry q s := by
  have hkq : ¬ k = q := fun hc => h hc.symm
  induction s with
  | nil => simp [setEntry, getEntry, hkq]
  | cons kv rest ih =>
    obtain ⟨k', v'⟩ := kv
    by_cases hk : k' = k
    · subst hk
      simp [setEntry, getEntry, hkq]
    · by_cases hq : k' = q
      · subst hq; simp [setEntry, getEntry, hk]
      · simp [setEntry, getEntry, hk, hq, ih]

theorem getEntry_delEntry_ne (k q : JSStr) (s : Store) (h : q ≠ k) :
    getEntry q (delEntry k s) = getEntry q s := by
  have hkq : ¬ k = q := fun hc => h hc.symm
  induction s with
  | nil => simp [delEntry]
  | cons kv rest ih =>
    obtain ⟨k', v'⟩ := kv
    by_cases hk : k' = k
    · subst hk
      simp [delEntry, getEntry, hkq]
    · by_cases hq : k' = q
      · subst hq; simp [delEntry, getEntry, hk]
      · simp [delEntry, getEntry, hk, hq, ih]

theorem sanitizeEvent_sequence (e : CalendarEvent) :
    (sanitizeEvent e).sequence = e.sequence := rfl

theorem sanitizeEvent_uid (e : CalendarEvent) : (sanitizeEvent e).uid = e.uid := rfl

theorem sanitizeEvent_status (e : CalendarEvent) : (sanitizeEvent e).status = e.status := rfl

/-- One successful update: the event stays present and its sequence becomes
the previous value (absent read as zero) plus one. -/
theorem updateEvent_step (m : CalendarManager) (uid : JSStr) (p : EventPatch)
    (e : CalendarEvent) (h : getEntry uid m.events = some e) :
    ∃ e', getEntry uid (updateEvent m uid p).events = some e' ∧
      e'.sequence = some (e.sequence.getD 0 + 1) := by
  unfold updateEvent
  rw [h]
  refine ⟨_, getEntry_setEntry_self _ _ _, ?_⟩
  rw [sanitizeEvent_sequence]

-- ## Claim C5

/-- Claim C5: (a) every single successful update increments `sequence` by
exactly 1 over the previous value, absent read as zero; (b) after a list of
`k` successful updates on a present uid, the sequence (absent read as zero)
equals the value at creation plus `k`. -/
theorem C5_sequence_monotonicity :
    (∀ (m : CalendarManager) (uid : JSStr) (p : EventPatch) (e : CalendarEvent),
      getEntry uid m.events = some e →
      ∃ e', getEntry uid (updateEvent m uid p).events = some e' ∧
        e'.sequence = some (e.sequence.getD 0 + 1)) ∧
    (∀ (ps : List EventPatch) (m : CalendarManager) (uid : JSStr) (e : CalendarEvent),
      getEntry uid m.events = some e →
      ∃ e', getEntry uid ((ps.foldl (fun acc p => updateEvent acc uid p) m).events) = some e' ∧
        e'.sequence.getD 0 = e.sequence.getD 0 + ps.length) := by
  constructor
  · exact updateEvent_step
  · intro ps
    induction ps with
    | nil => intro m uid e h; exact ⟨e, h, by simp⟩
    | cons p ps ih =>
      intro m uid e h
      obtain ⟨e1, h1, hseq1⟩ := updateEvent_step m uid p e h
      obtain ⟨e', h', hseq'⟩ := ih (updateEvent m uid p) uid e1 h1
      refine ⟨e', h', ?_⟩
      rw [hseq', hseq1]
      simp
      omega

/-- Claim C5, witness: a store holding one event with no sequence; three
updates leave it with sequence 3. -/
theorem C5_witness :
    (getEntry (utf16 "w5") (CalendarManager.mk
        [(utf16 "w5", { uid := utf16 "w5", title := [], start := 0 })] [] []).events =
      some { uid := utf16 "w5", title := [], start := 0 }) ∧
    ∃ e', getEntry (utf16 "w5")
        (([({} : EventPatch), {}, {}].foldl
          (fun acc p => updateEvent acc (utf16 "w5") p)
          (CalendarManager.mk
            [(utf16 "w5", { uid := utf16 "w5", title := [], start := 0 })] [] [])).events) =
        some e' ∧
      e'.sequence.getD 0 =
        ({ uid := utf16 "w5", title := [], start := 0 } : CalendarEvent).sequence.getD 0 + 3 :=
  ⟨by decide, C5_sequence_monotonicity.2 [{}, {}, {}] _ (utf16 "w5") _ (by decide)⟩

theorem presence_applyOp (m : CalendarManager) (uid : JSStr) (op : StoreOp)
    (h : (getEntry uid m.events).isSome = true) (ha : Allowed uid op) :
    (getEntry uid (applyOp m op).events).isSome = true := by
  cases op with
  | add e =>
    show (getEntry uid (addEvent m e).events).isSome = true
    unfold addEvent
    by_cases he : e.uid = uid
    · subst he; rw [getEntry_setEntry_self]; rfl
    · rw [getEntry_setEntry_ne _ _ _ _ (fun hc => he hc.symm)]; exact h
  | update u p =>
    show (getEntry uid (updateEvent m u p).events).isSome = true
    unfold updateEvent
    cases hg : getEntry u m.events with
    | none => exact h
    | some ex =>
      by_cases hu : u = uid
      · subst hu; rw [getEntry_setEntry_self]; rfl
      · simp only
        rw [getEntry_setEntry_ne _ _ _ _ (fun hc => hu hc.symm)]
        exact h
  | cancel u =>
    show (getEntry uid (updateEvent m u _).events).isSome = true
    unfold updateEvent
    cases hg : getEntry u m.events with
    | none => exact h
    | some ex =>
      by_cases hu : u = uid
      · subst hu; rw [getEntry_setEntry_self]; rfl
      · simp only
        rw [getEntry_setEntry_ne _ _ _ _ (fun hc => hu hc.symm)]
        exact h
  | remove u =>
    show (getEntry uid (removeEvent m u).events).isSome = true
    unfold removeEvent
    rw [getEntry_delEntry_ne _ _ _ (fun hc => ha hc.symm)]
    exact h

theorem getEntry_applyOp_ne (m : CalendarManager) (uid : JSStr) (op : StoreOp)
    (h : NotTouching uid op) :
    getEntry uid (applyOp m op).events = getEntry uid m.events := by
  cases op with
  | add e =>
    show getEntry uid (addEvent m e).events = _
    unfold addEvent
    exact getEntry_setEntry_ne _ _ _ _ (fun hc => h hc.symm)
  | update u p =>
    show getEntry uid (updateEvent m u p).events = _
    unfold updateEvent
    cases hg : getEntry u m.events with
    | none => rfl
    | some ex => exact getEntry_setEntry_ne _ _ _ _ (fun hc => h hc.symm)
  | cancel u =>
    show getEntry uid (updateEvent m u _).events = _
    unfold updateEvent
    cases hg : getEntry u m.events with
    | none => rfl
    | some ex => exact getEntry_setEntry_ne _ _ _ _ (fun hc => h hc.symm)
  | remove u =>
    show getEntry uid (removeEvent m u).events = _
    unfold removeEvent
    exact getEntry_delEntry_ne _ _ _ (fun hc => h hc.symm)

theorem presence_applyOps (ops : List StoreOp) (m : CalendarManager) (uid : JSStr)
    (h : (getEntry uid m.events).isSome = true) (ha : ∀ op ∈ ops, Allowed uid op) :
    (getEntry uid (applyOps m ops).events).isSome = true := by
  induction ops generalizing m with
  | nil => exact h
  | cons op ops ih =>
    exact ih (applyOp m op)
      (presence_applyOp m uid op h (ha op (List.mem_cons_self _ _)))
      (fun o ho => ha o (List.mem_cons_of_mem _ ho))

theorem getEntry_applyOps_ne (ops : List StoreOp) (m : CalendarManager) (uid : JSStr)
    (h : ∀ op ∈ ops, NotTouching uid op) :
    getEntry uid (applyOps m ops).events = getEntry uid m.events := by
  induction ops generalizing m with
  | nil => rfl
  | cons op ops ih =>
    rw [show applyOps m (op :: ops) = applyOps (applyOp m op) ops from rfl,
      ih (applyOp m op) (fun o ho => h o (List.mem_cons_of_mem _ ho)),
      getEntry_applyOp_ne m uid op (h op (List.mem_cons_self _ _))]

theorem getEntry_mem (q : JSStr) (s : Store) (v : CalendarEvent)
    (h : getEntry q s = some v) : (q, v) ∈ s := by
  induction s with
  | nil => simp [getEntry] at h
  | cons kv rest ih =>
    obtain ⟨k', v'⟩ := kv
    by_cases hk : k' = q
    · subst hk
      simp [getEntry] at h
      subst h
      exact List.mem_cons_self _ _
    · simp [getEntry, hk] at h
      exact List.mem_cons_of_mem _ (ih h)

theorem block_line_mem_renderLines (m : CalendarManager) (now : Int)
    (uid : JSStr) (e : CalendarEvent) (x : JSStr)
    (hmem : (uid, e) ∈ m.events) (hx : x ∈ eventToVEvent now e) :
    x ∈ renderLines m now := by
  unfold renderLines
  rw [List.mem_append, List.mem_append]
  left; right
  rw [List.mem_join]
  exact ⟨eventToVEvent now e, List.mem_map.mpr ⟨(uid, e), hmem, rfl⟩, hx⟩

theorem uidLine_mem_block (now : Int) (e : CalendarEvent) :
    (utf16 "UID:" ++ e.uid ++ utf16 "@clawcal") ∈ eventToVEvent now e := by
  unfold eventToVEvent
  rw [List.mem_append]
  left
  rw [List.mem_append]
  left
  simp

theorem statusLine_mem_block (now : Int) (e : CalendarEvent)
    (h : e.status = some .CANCELLED) :
    utf16 "STATUS:CANCELLED" ∈ eventToVEvent now e := by
  unfold eventToVEvent
  rw [h]
  have hline : utf16 "STATUS:" ++ mapStatus .CANCELLED = utf16 "STATUS:CANCELLED" := by decide
  simp only [List.append_assoc, List.mem_append]
  right; right; right; right; right; left
  rw [hline]
  simp

theorem cancelEvent_step (m : CalendarManager) (uid : JSStr) (e : CalendarEvent)
    (h : getEntry uid m.events = some e) :
    ∃ e', getEntry uid (cancelEvent m uid).events = some e' ∧
      e'.status = some .CANCELLED ∧ e'.uid = e.uid := by
  unfold cancelEvent updateEvent
  rw [h]
  exact ⟨_, getEntry_setEntry_self _ _ _, rfl, rfl⟩

-- ## Claim C6

/-- Claim C6: cancelling a present uid is a status transition, never a
deletion.  Immediately after `cancelEvent(uid)` the store still holds the
uid with status CANCELLED and the rendered document contains its UID line
and a STATUS:CANCELLED line; the entry survives every later operation
except an explicit `removeEvent(uid)` (cleanup is the claim's other stated
exception and is not among these operations), and as long as no later
operation writes to that uid the document still shows it as cancelled. -/
theorem C6_cancellation_visibility (m : CalendarManager) (uid : JSStr)
    (e : CalendarEvent) (now : Int) (h : getEntry uid m.events = some e) :
    ∃ e', getEntry uid (cancelEvent m uid).events = some e' ∧
      e'.status = some .CANCELLED ∧ e'.uid = e.uid ∧
      (utf16 "UID:" ++ e'.uid ++ utf16 "@clawcal") ∈ renderLines (cancelEvent m uid) now ∧
      utf16 "STATUS:CANCELLED" ∈ renderLines (cancelEvent m uid) now ∧
      ∀ ops : List StoreOp, (∀ op ∈ ops, Allowed uid op) →
        (getEntry uid (applyOps (cancelEvent m uid) ops).events).isSome = true ∧
        ((∀ op ∈ ops, NotTouching uid op) →
          getEntry uid (applyOps (cancelEvent m uid) ops).events = some e' ∧
          (utf16 "UID:" ++ e'.uid ++ utf16 "@clawcal") ∈
            renderLines (applyOps (cancelEvent m uid) ops) now ∧
          utf16 "STATUS:CANCELLED" ∈ renderLines (applyOps (cancelEvent m uid) ops) now) := by
  obtain ⟨e', h1, h2, h3⟩ := cancelEvent_step m uid e h
  have hmem : (uid, e') ∈ (cancelEvent m uid).events := getEntry_mem _ _ _ h1
  have hu : (utf16 "UID:" ++ e'.uid ++ utf16 "@clawcal") ∈ renderLines (cancelEvent m uid) now :=
    block_line_mem_renderLines _ now uid e' _ hmem (uidLine_mem_block now e')
  have hs : utf16 "STATUS:CANCELLED" ∈ renderLines (cancelEvent m uid) now :=
    block_line_mem_renderLines _ now uid e' _ hmem (statusLine_mem_block now e' h2)
  refine ⟨e', h1, h2, h3, hu, hs, ?_⟩
  intro ops ha
  constructor
  · exact presence_applyOps ops _ uid (by rw [h1]; rfl) ha
  · intro hnt
    have hsame := getEntry_applyOps_ne ops (cancelEvent m uid) uid hnt
    rw [h1] at hsame
    have hmem' : (uid, e') ∈ (applyOps (cancelEvent m uid) ops).events :=
      getEntry_mem _ _ _ hsame
    exact ⟨hsame,
      block_line_mem_renderLines _ now uid e' _ hmem' (uidLine_mem_block now e'),
      block_line_mem_renderLines _ now uid e' _ hmem' (statusLine_mem_block now e' h2)⟩

/-- Claim C6, witness: a concrete one-event store, cancelled, then an add
of a different event, an unrelated update, and a remove of a different
uid; the cancelled entry is still present. -/
theorem C6_witness :
    (getEntry (utf16 "w6") (CalendarManager.mk
        [(utf16 "w6", { uid := utf16 "w6", title := utf16 "t", start := 0 })] [] []).events =
      some { uid := utf16 "w6", title := utf16 "t", start := 0 }) ∧
    ∃ e', getEntry (utf16 "w6")
        (cancelEvent (CalendarManager.mk
          [(utf16 "w6", { uid := utf16 "w6", title := utf16 "t", start := 0 })] [] [])
          (utf16 "w6")).events = some e' ∧
      e'.status = some .CANCELLED ∧
      e'.uid = ({ uid := utf16 "w6", title := utf16 "t", start := 0 } : CalendarEvent).uid ∧
      (utf16 "UID:" ++ e'.uid ++ utf16 "@clawcal") ∈
        renderLines (cancelEvent (CalendarManager.mk
          [(utf16 "w6", { uid := utf16 "w6", title := utf16 "t", start := 0 })] [] [])
          (utf16 "w6")) 0 ∧
      utf16 "STATUS:CANCELLED" ∈
        renderLines (cancelEvent (CalendarManager.mk
          [(utf16 "w6", { uid := utf16 "w6", title := utf16 "t", start := 0 })] [] [])
          (utf16 "w6")) 0 ∧
      ∀ ops : List StoreOp, (∀ op ∈ ops, Allowed (utf16 "w6") op) →
        (getEntry (utf16 "w6")
          (applyOps (cancelEvent (CalendarManager.mk
            [(utf16 "w6", { uid := utf16 "w6", title := utf16 "t", start := 0 })] [] [])
            (utf16 "w6")) ops).events).isSome = true ∧
        ((∀ op ∈ ops, NotTouching (utf16 "w6") op) →
          getEntry (utf16 "w6")
            (applyOps (cancelEvent (CalendarManager.mk
              [(utf16 "w6", { uid := utf16 "w6", title := utf16 "t", start := 0 })] [] [])
              (utf16 "w6")) ops).events = some e' ∧
          (utf16 "UID:" ++ e'.uid ++ utf16 "@clawcal") ∈
            renderLines (applyOps (cancelEvent (CalendarManager.mk
              [(utf16 "w6", { uid := utf16 "w6", title := utf16 "t", start := 0 })] [] [])
              (utf16 "w6")) ops) 0 ∧
          utf16 "STATUS:CANCELLED" ∈
            renderLines (applyOps (cancelEvent (CalendarManager.mk
              [(utf16 "w6", { uid := utf16 "w6", title := utf16 "t", start := 0 })] [] [])
              (utf16 "w6")) ops) 0) :=
  ⟨by decide, C6_cancellation_visibility _ (utf16 "w6") _ 0 (by decide)⟩

theorem getEntry_eq_none (k : JSStr) (s : Store) (h : k ∉ keysOf s) :
    getEntry k s = none := by
  induction s with
  | nil => rfl
  | cons kv rest ih =>
    obtain ⟨k', v'⟩ := kv
    have hk : k' ≠ k := by
      intro hc; subst hc
      exact h (List.mem_cons_self _ _)
    simp [getEntry, hk]
    exact ih (fun hc => h (List.mem_cons_of_mem _ hc))

theorem getEntry_of_mem_nodup (k : JSStr) (v : CalendarEvent) (s : Store)
    (hnd : (keysOf s).Nodup) (h : (k, v) ∈ s) : getEntry k s = some v := by
  induction s with
  | nil => simp at h
  | cons kv rest ih =>
    obtain ⟨k', v'⟩ := kv
    rcases List.mem_cons.mp h with heq | hmem
    · obtain ⟨h1, h2⟩ := Prod.mk.injEq .. ▸ heq
      cases heq
      simp [getEntry]
    · have hk : k' ≠ k := by
        intro hc; subst hc
        have : k' ∈ keysOf rest := List.mem_map.mpr ⟨(k', v), hmem, rfl⟩
        exact (List.nodup_cons.mp hnd).1 this
      simp [getEntry, hk]
      exact ih (List.nodup_cons.mp hnd).2 hmem

theorem delEntry_sublist (k : JSStr) (s : Store) : (delEntry k s).Sublist s := by
  induction s with
  | nil => simp [delEntry]
  | cons kv rest ih =>
    obtain ⟨k', v'⟩ := kv
    by_cases hk : k' = k
    · simp [delEntry, hk]
    · simpa [delEntry, hk] using ih.cons₂ (k', v')

theorem keys_delEntry_nodup (k : JSStr) (s : Store) (hnd : (keysOf s).Nodup) :
    (keysOf (delEntry k s)).Nodup :=
  List.Nodup.sublist ((delEntry_sublist k s).map Prod.fst) hnd

theorem getEntry_delEntry_self (k : JSStr) (s : Store) (hnd : (keysOf s).Nodup) :
    getEntry k (delEntry k s) = none := by
  induction s with
  | nil => rfl
  | cons kv rest ih =>
    obtain ⟨k', v'⟩ := kv
    by_cases hk : k' = k
    · subst hk
      simp only [delEntry, if_pos rfl]
      apply getEntry_eq_none
      intro hc
      exact (List.nodup_cons.mp hnd).1 hc
    · simp [delEntry, getEntry, hk]
      exact ih (List.nodup_cons.mp hnd).2

theorem length_delEntry_of_mem (k : JSStr) (s : Store) (h : k ∈ keysOf s) :
    (delEntry k s).length = s.length - 1 := by
  induction s with
  | nil => simp [keysOf] at h
  | cons kv rest ih =>
    obtain ⟨k', v'⟩ := kv
    by_cases hk : k' = k
    · simp [delEntry, hk]
    · have hmem : k ∈ keysOf rest := by
        rcases List.mem_cons.mp h with heq | hmem
        · exact absurd heq.symm hk
        · exact hmem
      have hlen : 1 ≤ rest.length := by
        cases rest with
        | nil => simp [keysOf] at hmem
        | cons _ _ => simp
      simp [delEntry, hk, ih hmem]
      omega

theorem mem_keys_delEntry_of_ne (k q : JSStr) (s : Store) (hq : q ≠ k)
    (h : q ∈ keysOf s) : q ∈ keysOf (delEntry k s) := by
  induction s with
  | nil => simp [keysOf] at h
  | cons kv rest ih =>
    obtain ⟨k', v'⟩ := kv
    simp only [keysOf, List.map_cons, List.mem_cons] at h
    by_cases hk : k' = k
    · rcases h with heq | hmem
      · exact absurd (heq.trans hk) hq
      · show q ∈ keysOf (if k' = k then rest else (k', v') :: delEntry k rest)
        rw [if_pos hk]
        exact hmem
    · rcases h with heq | hmem
      · show q ∈ keysOf (if k' = k then rest else (k', v') :: delEntry k rest)
        rw [if_neg hk]
        simp [keysOf, heq]
      · show q ∈ keysOf (if k' = k then rest else (k', v') :: delEntry k rest)
        rw [if_neg hk]
        simp only [keysOf, List.map_cons, List.mem_cons]
        right
        exact ih hmem

theorem delAll_sublist (victims : Store) : ∀ s, (delAll s victims).Sublist s := by
  induction victims with
  | nil => intro s; exact List.Sublist.refl s
  | cons kv rest ih =>
    intro s
    exact ((ih (delEntry kv.1 s)).trans (delEntry_sublist kv.1 s))

theorem keys_delAll_nodup (victims s : Store) (hnd : (keysOf s).Nodup) :
    (keysOf (delAll s victims)).Nodup :=
  List.Nodup.sublist ((delAll_sublist victims s).map Prod.fst) hnd

theorem getEntry_delAll (victims : Store) : ∀ (s : Store), (keysOf s).Nodup → ∀ k,
    getEntry k (delAll s victims) =
      if k ∈ keysOf victims then none else getEntry k s := by
  induction victims with
  | nil => intro s hnd k; simp [delAll, keysOf]
  | cons kv rest ih =>
    intro s hnd k
    have hstep : delAll s (kv :: rest) = delAll (delEntry kv.1 s) rest := rfl
    rw [hstep, ih (delEntry kv.1 s) (keys_delEntry_nodup kv.1 s hnd) k]
    by_cases hk : k = kv.1
    · subst hk
      have hrhs : kv.1 ∈ keysOf (kv :: rest) := by simp [keysOf]
      rw [if_pos hrhs]
      by_cases hmem : kv.1 ∈ keysOf rest
      · rw [if_pos hmem]
      · rw [if_neg hmem]
        exact getEntry_delEntry_self kv.1 s hnd
    · have hiff : (k ∈ keysOf (kv :: rest)) ↔ k ∈ keysOf rest := by
        simp only [keysOf, List.map_cons, List.mem_cons]
        constructor
        · rintro (heq | hm)
          · exact absurd heq hk
          · exact hm
        · exact fun hm => Or.inr hm
      by_cases hmem : k ∈ keysOf rest
      · rw [if_pos hmem, if_pos (hiff.mpr hmem)]
      · rw [if_neg hmem, if_neg (fun hc => hmem (hiff.mp hc))]
        exact getEntry_delEntry_ne kv.1 k s hk

theorem length_delAll (victims : Store) : ∀ (s : Store), (keysOf victims).Nodup →
    (∀ q ∈ keysOf victims, q ∈ keysOf s) →
    (delAll s victims).length = s.length - victims.length := by
  induction victims with
  | nil => intro s _ _; simp [delAll]
  | cons kv rest ih =>
    intro s hnd hsub
    have hstep : delAll s (kv :: rest) = delAll (delEntry kv.1 s) rest := rfl
    have hk1 : kv.1 ∈ keysOf s := hsub kv.1 (by simp [keysOf])
    have hrest : ∀ q ∈ keysOf rest, q ∈ keysOf (delEntry kv.1 s) := by
      intro q hq
      have hqne : q ≠ kv.1 := by
        intro hc; subst hc
        exact (List.nodup_cons.mp hnd).1 hq
      exact mem_keys_delEntry_of_ne kv.1 q s hqne (hsub q (List.mem_cons_of_mem _ hq))
    rw [hstep, ih (delEntry kv.1 s) (List.nodup_cons.mp hnd).2 hrest,
      length_delEntry_of_mem kv.1 s hk1]
    have : 1 ≤ s.length := by
      cases s with
      | nil => simp [keysOf] at hk1
      | cons _ _ => simp
    simp [keysOf]
    omega

theorem getEntry_filter (p : JSStr × CalendarEvent → Bool) (s : Store)
    (hnd : (keysOf s).Nodup) (uid : JSStr) :
    getEntry uid (s.filter p) =
      (getEntry uid s).bind (fun e => if p (uid, e) then some e else none) := by
  induction s with
  | nil => rfl
  | cons kv rest ih =>
    obtain ⟨k', v'⟩ := kv
    have hnds : k' ∉ keysOf rest ∧ (keysOf rest).Nodup := by
      have : (k' :: keysOf rest).Nodup := by simpa [keysOf] using hnd
      exact ⟨(List.nodup_cons.mp this).1, (List.nodup_cons.mp this).2⟩
    by_cases hk : k' = uid
    · subst hk
      by_cases hp : p (k', v') = true
    -- the head is kept or dropped; either way the key is unique
      · rw [List.filter_cons, if_pos hp]
        simp [getEntry, hp]
      · rw [List.filter_cons, if_neg hp]
        have hnot : k' ∉ keysOf (rest.filter p) := by
          intro hc
          exact hnds.1 (((List.filter_sublist rest).map Prod.fst).subset hc)
        rw [getEntry_eq_none _ _ hnot]
        simp [getEntry, hp]
    · by_cases hp : p (k', v') = true
      · rw [List.filter_cons, if_pos hp]
        simp only [getEntry, if_neg hk]
        exact ih hnds.2
      · rw [List.filter_cons, if_neg hp]
        simp only [getEntry, if_neg hk]
        exact ih hnds.2

theorem cleanup_eq (m : CalendarManager) (retention maxEvents : Nat) (now : Int) :
    cleanup m retention maxEvents now =
      if (cleanupPhase1 m retention now).length > maxEvents then
        (m.events.length - (cleanupPhase1 m retention now).length +
            (cleanupVictims (cleanupPhase1 m retention now) maxEvents).length,
          { m with events := delAll (cleanupPhase1 m retention now) (cleanupVictims (cleanupPhase1 m retention now) maxEvents) },
          decide (0 < m.events.length - (cleanupPhase1 m retention now).length +
            (cleanupVictims (cleanupPhase1 m retention now) maxEvents).length))
      else
        (m.events.length - (cleanupPhase1 m retention now).length,
          { m with events := cleanupPhase1 m retention now },
          decide (0 < m.events.length - (cleanupPhase1 m retention now).length)) := rfl

theorem phase1_nodup (m : CalendarManager) (retention : Nat) (now : Int)
    (hnd : (keysOf m.events).Nodup) : (keysOf (cleanupPhase1 m retention now)).Nodup :=
  List.Nodup.sublist ((List.filter_sublist m.events).map Prod.fst) hnd

theorem getEntry_phase1 (m : CalendarManager) (retention : Nat) (now : Int)
    (hnd : (keysOf m.events).Nodup) (uid : JSStr) :
    getEntry uid (cleanupPhase1 m retention now) =
      (getEntry uid m.events).bind (fun e =>
        if !(decide (e.start < cleanupCutoff retention now ∧
            e.status = some .COMPLETED)) then some e else none) :=
  getEntry_filter _ m.events hnd uid

theorem completed_perm (p1 : Store) :
    List.Perm (cleanupCompleted p1)
      (p1.filter (fun kv => decide (kv.2.status = some .COMPLETED))) :=
  List.perm_insertionSort _ _

theorem completed_nodup (p1 : Store) (hnd : (keysOf p1).Nodup) :
    (keysOf (cleanupCompleted p1)).Nodup := by
  have hperm : List.Perm (keysOf (cleanupCompleted p1))
      (keysOf (p1.filter (fun kv => decide (kv.2.status = some .COMPLETED)))) :=
    (completed_perm p1).map Prod.fst
  exact hperm.nodup_iff.mpr
    (List.Nodup.sublist ((List.filter_sublist p1).map Prod.fst) hnd)

theorem victims_sublist (p1 : Store) (maxEvents : Nat) :
    (cleanupVictims p1 maxEvents).Sublist (cleanupCompleted p1) :=
  List.take_sublist _ _

theorem victims_nodup (p1 : Store) (maxEvents : Nat) (hnd : (keysOf p1).Nodup) :
    (keysOf (cleanupVictims p1 maxEvents)).Nodup :=
  List.Nodup.sublist ((victims_sublist p1 maxEvents).map Prod.fst) (completed_nodup p1 hnd)

theorem victims_mem (p1 : Store) (maxEvents : Nat) (kv : JSStr × CalendarEvent)
    (h : kv ∈ cleanupVictims p1 maxEvents) :
    kv ∈ p1 ∧ kv.2.status = some .COMPLETED := by
  have h1 : kv ∈ cleanupCompleted p1 := (victims_sublist p1 maxEvents).subset h
  have h2 := (completed_perm p1).mem_iff.mp h1
  have h3 := List.mem_filter.mp h2
  exact ⟨h3.1, by simpa using h3.2⟩

theorem victims_keys_sub (p1 : Store) (maxEvents : Nat) :
    ∀ q ∈ keysOf (cleanupVictims p1 maxEvents), q ∈ keysOf p1 := by
  intro q hq
  obtain ⟨kv, hkv, hfst⟩ := List.mem_map.mp hq
  exact List.mem_map.mpr ⟨kv, (victims_mem p1 maxEvents kv hkv).1, hfst⟩

theorem phase1_keep (m : CalendarManager) (retention : Nat) (now : Int)
    (hnd : (keysOf m.events).Nodup) (uid : JSStr) (e : CalendarEvent)
    (hget : getEntry uid m.events = some e)
    (hp : ¬(e.start < cleanupCutoff retention now ∧ e.status = some .COMPLETED)) :
    getEntry uid (cleanupPhase1 m retention now) = some e := by
  rw [getEntry_phase1 m retention now hnd uid, hget]
  simp [hp]

theorem phase1_drop (m : CalendarManager) (retention : Nat) (now : Int)
    (hnd : (keysOf m.events).Nodup) (uid : JSStr) (e : CalendarEvent)
    (hget : getEntry uid m.events = some e)
    (hp : e.start < cleanupCutoff retention now ∧ e.status = some .COMPLETED) :
    getEntry uid (cleanupPhase1 m retention now) = none := by
  rw [getEntry_phase1 m retention now hnd uid, hget]
  simp [hp]

theorem phase1_inv (m : CalendarManager) (retention : Nat) (now : Int)
    (hnd : (keysOf m.events).Nodup) (uid : JSStr) (e : CalendarEvent)
    (hget : getEntry uid m.events = some e)
    (h1 : getEntry uid (cleanupPhase1 m retention now) = none) :
    e.start < cleanupCutoff retention now ∧ e.status = some .COMPLETED := by
  rw [getEntry_phase1 m retention now hnd uid, hget] at h1
  by_cases hp : e.start < cleanupCutoff retention now ∧ e.status = some .COMPLETED
  · exact hp
  · simp [hp] at h1

/-- Members of the first phase's result satisfy its predicate. -/
theorem phase1_mem_pred (m : CalendarManager) (retention : Nat) (now : Int)
    (kv : JSStr × CalendarEvent) (h : kv ∈ cleanupPhase1 m retention now) :
    ¬(kv.2.start < cleanupCutoff retention now ∧ kv.2.status = some .COMPLETED) := by
  have := (List.mem_filter.mp h).2
  intro hc
  simp [hc] at this

theorem victims_len_le (p1 : Store) (maxEvents : Nat) :
    (cleanupVictims p1 maxEvents).length ≤ p1.length := by
  have h1 : (cleanupVictims p1 maxEvents).length ≤ (cleanupCompleted p1).length :=
    (victims_sublist p1 maxEvents).length_le
  have h2 : (cleanupCompleted p1).length =
      (p1.filter (fun kv => decide (kv.2.status = some .COMPLETED))).length :=
    (completed_perm p1).length_eq
  have h3 := List.length_filter_le (fun kv => decide (kv.2.status = some .COMPLETED)) p1
  omega

theorem final_len (p1 : Store) (maxEvents : Nat) (hnd : (keysOf p1).Nodup) :
    (delAll p1 (cleanupVictims p1 maxEvents)).length =
      p1.length - (cleanupVictims p1 maxEvents).length :=
  length_delAll _ p1 (victims_nodup p1 maxEvents hnd) (victims_keys_sub p1 maxEvents)

/-- Claim C3: `cleanup(retentionDays, maxDays)` first removes every COMPLETED
event whose start time is older than the retention cutoff, then, if the map
still holds more than `maxEvents` events, removes the oldest remaining
COMPLETED events (by start time) first; events that are not COMPLETED are
never removed, the returned count is exactly the number of entries removed,
and the calendar is persisted exactly when that count is positive. -/
theorem C3_cleanup (m : CalendarManager) (retention maxEvents : Nat) (now : Int)
    (hnd : (keysOf m.events).Nodup) :
    (∀ uid e, getEntry uid m.events = some e → e.status ≠ some .COMPLETED →
      getEntry uid (cleanup m retention maxEvents now).2.1.events = some e) ∧
    (∀ uid e, getEntry uid m.events = some e → e.status = some .COMPLETED →
      e.start < cleanupCutoff retention now →
      getEntry uid (cleanup m retention maxEvents now).2.1.events = none) ∧
    ((cleanup m retention maxEvents now).1 =
      m.events.length - (cleanup m retention maxEvents now).2.1.events.length) ∧
    ((cleanup m retention maxEvents now).2.2 = true ↔
      0 < (cleanup m retention maxEvents now).1) ∧
    ((cleanup m retention maxEvents now).2.1.events.length > maxEvents →
      ∀ kv ∈ (cleanup m retention maxEvents now).2.1.events,
        kv.2.status ≠ some EventStatus.COMPLETED) ∧
    (∀ uid e, getEntry uid m.events = some e → e.status = some .COMPLETED →
      ¬ e.start < cleanupCutoff retention now →
      getEntry uid (cleanup m retention maxEvents now).2.1.events = none →
      ∀ kv ∈ (cleanup m retention maxEvents now).2.1.events,
        kv.2.status = some EventStatus.COMPLETED → e.start ≤ kv.2.start) := by
  have hp1nd := phase1_nodup m retention now hnd
  by_cases hsize : (cleanupPhase1 m retention now).length > maxEvents
  · have hres : cleanup m retention maxEvents now =
        (m.events.length - (cleanupPhase1 m retention now).length +
            (cleanupVictims (cleanupPhase1 m retention now) maxEvents).length,
          { m with events := delAll (cleanupPhase1 m retention now) (cleanupVictims (cleanupPhase1 m retention now) maxEvents) },
          decide (0 < m.events.length - (cleanupPhase1 m retention now).length +
            (cleanupVictims (cleanupPhase1 m retention now) maxEvents).length)) := by
      rw [cleanup_eq, if_pos hsize]
    have hev : (cleanup m retention maxEvents now).2.1.events =
        delAll (cleanupPhase1 m retention now)
          (cleanupVictims (cleanupPhase1 m retention now) maxEvents) := by rw [hres]
    have hcount : (cleanup m retention maxEvents now).1 =
        m.events.length - (cleanupPhase1 m retention now).length +
          (cleanupVictims (cleanupPhase1 m retention now) maxEvents).length := by rw [hres]
    have hflag : (cleanup m retention maxEvents now).2.2 =
        decide (0 < m.events.length - (cleanupPhase1 m retention now).length +
          (cleanupVictims (cleanupPhase1 m retention now) maxEvents).length) := by rw [hres]
    refine ⟨?_, ?_, ?_, ?_, ?_, ?_⟩
    · intro uid e hget hst
      rw [hev, getEntry_delAll _ _ hp1nd uid]
      have hkeep := phase1_keep m retention now hnd uid e hget (fun hc => hst hc.2)
      by_cases hmem : uid ∈ keysOf (cleanupVictims (cleanupPhase1 m retention now) maxEvents)
      · exfalso
        obtain ⟨⟨a, b⟩, hkv', hfst⟩ := List.mem_map.mp hmem
        have hvm := victims_mem _ maxEvents (a, b) hkv'
        have hge' : getEntry uid (cleanupPhase1 m retention now) = some b := by
          apply getEntry_of_mem_nodup _ _ _ hp1nd
          rw [← hfst]
          exact hvm.1
        rw [hkeep] at hge'
        have hbe : e = b := Option.some.inj hge'
        rw [hbe] at hst
        exact hst hvm.2
      · rw [if_neg hmem]; exact hkeep
    · intro uid e hget hcomp hcut
      rw [hev, getEntry_delAll _ _ hp1nd uid]
      have hd := phase1_drop m retention now hnd uid e hget ⟨hcut, hcomp⟩
      by_cases hmem : uid ∈ keysOf (cleanupVictims (cleanupPhase1 m retention now) maxEvents)
      · rw [if_pos hmem]
      · rw [if_neg hmem]; exact hd
    · rw [hcount, hev, final_len _ maxEvents hp1nd]
      have h1 : (cleanupPhase1 m retention now).length ≤ m.events.length :=
        List.length_filter_le _ _
      have h2 := victims_len_le (cleanupPhase1 m retention now) maxEvents
      omega
    · rw [hflag, hcount]; simp
    · intro hlen kv hkv hcomp
      rw [hev] at hlen hkv
      have hfl := final_len (cleanupPhase1 m retention now) maxEvents hp1nd
      have hvlen : (cleanupVictims (cleanupPhase1 m retention now) maxEvents).length =
          min ((cleanupPhase1 m retention now).length - maxEvents)
            (cleanupCompleted (cleanupPhase1 m retention now)).length := by
        simp [cleanupVictims, List.length_take]
      have hmin : min ((cleanupPhase1 m retention now).length - maxEvents)
          (cleanupCompleted (cleanupPhase1 m retention now)).length =
            (cleanupCompleted (cleanupPhase1 m retention now)).length := by omega
      have hveq : cleanupVictims (cleanupPhase1 m retention now) maxEvents =
          cleanupCompleted (cleanupPhase1 m retention now) := by
        unfold cleanupVictims
        rw [hmin]
        exact List.take_length _
      have hkvp1 : kv ∈ cleanupPhase1 m retention now := (delAll_sublist _ _).subset hkv
      have hkvC : kv ∈ cleanupCompleted (cleanupPhase1 m retention now) :=
        (completed_perm _).mem_iff.mpr (List.mem_filter.mpr ⟨hkvp1, by simp [hcomp]⟩)
      have hkvV : kv ∈ cleanupVictims (cleanupPhase1 m retention now) maxEvents := by
        rw [hveq]; exact hkvC
      have hkmem : kv.1 ∈ keysOf (cleanupVictims (cleanupPhase1 m retention now) maxEvents) :=
        List.mem_map.mpr ⟨kv, hkvV, rfl⟩
      have hge : getEntry kv.1 (delAll (cleanupPhase1 m retention now)
          (cleanupVictims (cleanupPhase1 m retention now) maxEvents)) = some kv.2 :=
        getEntry_of_mem_nodup _ _ _ (keys_delAll_nodup _ _ hp1nd) hkv
      rw [getEntry_delAll _ _ hp1nd kv.1, if_pos hkmem] at hge
      exact Option.noConfusion hge
    · intro uid e hget hcomp hcut hnone kv hkv hkvcomp
      rw [hev] at hnone hkv
      have hkeepE : getEntry uid (cleanupPhase1 m retention now) = some e :=
        phase1_keep m retention now hnd uid e hget (fun hc => hcut hc.1)
      rw [getEntry_delAll _ _ hp1nd uid] at hnone
      by_cases hmem : uid ∈ keysOf (cleanupVictims (cleanupPhase1 m retention now) maxEvents)
      · obtain ⟨⟨a, b⟩, hkv', hfst⟩ := List.mem_map.mp hmem
        have hvm := victims_mem _ maxEvents (a, b) hkv'
        have hge' : getEntry uid (cleanupPhase1 m retention now) = some b := by
          apply getEntry_of_mem_nodup _ _ _ hp1nd
          rw [← hfst]
          exact hvm.1
        rw [hkeepE] at hge'
        have hbe : b = e := (Option.some.inj hge').symm
        have hUe : (uid, e) ∈ cleanupVictims (cleanupPhase1 m retention now) maxEvents := by
          have h1 : (a, b) = (uid, e) := Prod.ext hfst hbe
          rw [← h1]; exact hkv'
        have hkvp1 : kv ∈ cleanupPhase1 m retention now := (delAll_sublist _ _).subset hkv
        have hkvC : kv ∈ cleanupCompleted (cleanupPhase1 m retention now) :=
          (completed_perm _).mem_iff.mpr (List.mem_filter.mpr ⟨hkvp1, by simp [hkvcomp]⟩)
        have hgeF : getEntry kv.1 (delAll (cleanupPhase1 m retention now)
            (cleanupVictims (cleanupPhase1 m retention now) maxEvents)) = some kv.2 :=
          getEntry_of_mem_nodup _ _ _ (keys_delAll_nodup _ _ hp1nd) hkv
        rw [getEntry_delAll _ _ hp1nd kv.1] at hgeF
        have hkvNot : kv.1 ∉ keysOf (cleanupVictims (cleanupPhase1 m retention now) maxEvents) := by
          intro hc; rw [if_pos hc] at hgeF; exact Option.noConfusion hgeF
        have hkvNotV : kv ∉ cleanupVictims (cleanupPhase1 m retention now) maxEvents :=
          fun hc => hkvNot (List.mem_map.mpr ⟨kv, hc, rfl⟩)
        have hsplit := List.take_append_drop
          (min ((cleanupPhase1 m retention now).length - maxEvents)
            (cleanupCompleted (cleanupPhase1 m retention now)).length)
          (cleanupCompleted (cleanupPhase1 m retention now))
        have hkvdrop : kv ∈ (cleanupCompleted (cleanupPhase1 m retention now)).drop
            (min ((cleanupPhase1 m retention now).length - maxEvents)
              (cleanupCompleted (cleanupPhase1 m retention now)).length) := by
          rcases List.mem_append.mp (by rw [hsplit]; exact hkvC) with h | h
          · exact absurd h hkvNotV
          · exact h
        have hsorted : List.Sorted startLE (cleanupCompleted (cleanupPhase1 m retention now)) :=
          List.sorted_insertionSort startLE _
        exact hsorted.rel_of_mem_take_of_mem_drop hUe hkvdrop
      · rw [if_neg hmem, hkeepE] at hnone
        exact Option.noConfusion hnone
  · have hres : cleanup m retention maxEvents now =
        (m.events.length - (cleanupPhase1 m retention now).length,
          { m with events := cleanupPhase1 m retention now },
          decide (0 < m.events.length - (cleanupPhase1 m retention now).length)) := by
      rw [cleanup_eq, if_neg hsize]
    have hev : (cleanup m retention maxEvents now).2.1.events =
        cleanupPhase1 m retention now := by rw [hres]
    have hcount : (cleanup m retention maxEvents now).1 =
        m.events.length - (cleanupPhase1 m retention now).length := by rw [hres]
    have hflag : (cleanup m retention maxEvents now).2.2 =
        decide (0 < m.events.length - (cleanupPhase1 m retention now).length) := by rw [hres]
    refine ⟨?_, ?_, ?_, ?_, ?_, ?_⟩
    · intro uid e hget hst
      rw [hev]; exact phase1_keep m retention now hnd uid e hget (fun hc => hst hc.2)
    · intro uid e hget hcomp hcut
      rw [hev]; exact phase1_drop m retention now hnd uid e hget ⟨hcut, hcomp⟩
    · rw [hcount, hev]
    · rw [hflag, hcount]; simp
    · intro hlen
      rw [hev] at hlen
      exact absurd hlen hsize
    · intro uid e hget hcomp hcut hnone
      rw [hev] at hnone
      have hk := phase1_keep m retention now hnd uid e hget (fun hc => hcut hc.1)
      rw [hk] at hnone
      exact Option.noConfusion hnone

theorem C3_witness :
    (keysOf c3mgr.events).Nodup ∧
    ((∀ uid e, getEntry uid c3mgr.events = some e → e.status ≠ some .COMPLETED →
      getEntry uid (cleanup c3mgr 90 100 0).2.1.events = some e) ∧
    (∀ uid e, getEntry uid c3mgr.events = some e → e.status = some .COMPLETED →
      e.start < cleanupCutoff 90 0 →
      getEntry uid (cleanup c3mgr 90 100 0).2.1.events = none) ∧
    ((cleanup c3mgr 90 100 0).1 =
      c3mgr.events.length - (cleanup c3mgr 90 100 0).2.1.events.length) ∧
    ((cleanup c3mgr 90 100 0).2.2 = true ↔
      0 < (cleanup c3mgr 90 100 0).1) ∧
    ((cleanup c3mgr 90 100 0).2.1.events.length > 100 →
      ∀ kv ∈ (cleanup c3mgr 90 100 0).2.1.events,
        kv.2.status ≠ some EventStatus.COMPLETED) ∧
    (∀ uid e, getEntry uid c3mgr.events = some e → e.status = some .COMPLETED →
      ¬ e.start < cleanupCutoff 90 0 →
      getEntry uid (cleanup c3mgr 90 100 0).2.1.events = none →
      ∀ kv ∈ (cleanup c3mgr 90 100 0).2.1.events,
        kv.2.status = some EventStatus.COMPLETED → e.start ≤ kv.2.start)) :=
  ⟨by decide, C3_cleanup c3mgr 90 100 0 (by decide)⟩

theorem byteLenU_le (u : Nat) : byteLenU u ≤ 3 := by
  unfold byteLenU
  split
  · omega
  · split <;> omega

theorem byteLenU_pos (u : Nat) : 1 ≤ byteLenU u := by
  unfold byteLenU
  split
  · omega
  · split <;> omega

theorem unfold_cons_ne13 (u : Nat) (l : JSStr) (h : u ≠ 13) :
    unfoldICS (u :: l) = u :: unfoldICS l := by
  rw [unfoldICS.eq_def]
  split
  · rename_i heq
    exact absurd (List.cons.inj heq).1 h
  · rename_i heq
    obtain ⟨h1, h2⟩ := List.cons.inj heq
    rw [← h1, ← h2]
  · rename_i heq
    exact absurd heq (List.cons_ne_nil u l)

theorem unfold_crlfsp (l : JSStr) : unfoldICS (13 :: 10 :: 32 :: l) = unfoldICS l := rfl

theorem unfold_append_noCR (c t : JSStr) (h : (13 : Nat) ∉ c) :
    unfoldICS (c ++ t) = c ++ unfoldICS t := by
  induction c with
  | nil => rfl
  | cons u c ih =>
    have hu : u ≠ 13 := fun he => h (he ▸ List.mem_cons_self u c)
    rw [List.cons_append, unfold_cons_ne13 u _ hu, ih (fun hm => h (List.mem_cons_of_mem u hm))]
    rfl

theorem unitLen_cut : ∀ (s : JSStr) (b : Nat), unitLen (cutAtOctetBoundary s b) ≤ b := by
  intro s
  induction s with
  | nil => intro b; simp [cutAtOctetBoundary, unitLen]
  | cons u rest ih =>
    intro b
    by_cases hb : byteLenU u ≤ b
    · rw [cutAtOctetBoundary, if_pos hb]
      have := ih (b - byteLenU u)
      simp only [unitLen]
      omega
    · rw [cutAtOctetBoundary, if_neg hb]
      simp [unitLen]

theorem cut_prepend : ∀ (s : JSStr) (b : Nat),
    cutAtOctetBoundary s b ++ s.drop (cutAtOctetBoundary s b).length = s := by
  intro s
  induction s with
  | nil => intro b; rfl
  | cons u rest ih =>
    intro b
    by_cases hb : byteLenU u ≤ b
    · rw [cutAtOctetBoundary, if_pos hb]
      have := ih (b - byteLenU u)
      simp only [List.length_cons, List.drop_succ_cons, List.cons_append]
      rw [this]
    · rw [cutAtOctetBoundary, if_neg hb]
      rfl

theorem cut_ne_nil (u : Nat) (rest : JSStr) :
    cutAtOctetBoundary (u :: rest) 74 ≠ [] := by
  rw [cutAtOctetBoundary, if_pos (le_trans (byteLenU_le u) (by omega))]
  exact List.cons_ne_nil _ _

theorem encodeLen_le_unitLen : ∀ s : JSStr, encodeLen s ≤ unitLen s
  | [] => le_refl _
  | [u] => by simp [encodeLen, unitLen]
  | u :: v :: rest => by
    rw [encodeLen]
    by_cases h1 : 55296 ≤ u ∧ u ≤ 56319
    · rw [if_pos h1]
      by_cases h2 : 56320 ≤ v ∧ v ≤ 57343
      · rw [if_pos h2]
        have hr := encodeLen_le_unitLen rest
        have hu : byteLenU u = 3 := by unfold byteLenU; rw [if_neg (by omega), if_neg (by omega)]
        have hv : byteLenU v = 3 := by unfold byteLenU; rw [if_neg (by omega), if_neg (by omega)]
        have he : unitLen (u :: v :: rest) = byteLenU u + (byteLenU v + unitLen rest) := rfl
        rw [he, hu, hv]
        omega
      · rw [if_neg h2]
        have hr := encodeLen_le_unitLen (v :: rest)
        have he : unitLen (u :: v :: rest) = byteLenU u + unitLen (v :: rest) := rfl
        rw [he]
        omega
    · rw [if_neg h1]
      have hr := encodeLen_le_unitLen (v :: rest)
      have he : unitLen (u :: v :: rest) = byteLenU u + unitLen (v :: rest) := rfl
      rw [he]
      omega

theorem foldContin_chunks : ∀ (f : Nat) (rest : JSStr), rest.length ≤ f →
    ∃ cs : List JSStr,
      foldContin f rest = (cs.map (fun c => [13, 10, 32] ++ c)).flatten ∧
      cs.flatten = rest ∧
      (∀ c ∈ cs, c ≠ [] ∧ unitLen c ≤ 74) ∧
      (∀ c ∈ cs, ∀ u ∈ c, u ∈ rest) := by
  intro f
  induction f with
  | zero =>
    intro rest hf
    have : rest = [] := List.eq_nil_of_length_eq_zero (Nat.le_zero.mp hf)
    exact ⟨[], by simp [foldContin, this]⟩
  | succ f ih =>
    intro rest hf
    by_cases hr : rest = []
    · exact ⟨[], by simp [foldContin, hr]⟩
    · obtain ⟨u, rest', hru⟩ := List.exists_cons_of_ne_nil hr
      have hch : cutAtOctetBoundary rest 74 ≠ [] := by rw [hru]; exact cut_ne_nil u rest'
      have hchlen : 0 < (cutAtOctetBoundary rest 74).length := List.length_pos.mpr hch
      have hdrop : (rest.drop (cutAtOctetBoundary rest 74).length).length ≤ f := by
        rw [List.length_drop]
        have : 0 < rest.length := by rw [hru]; simp
        omega
      obtain ⟨cs, h1, h2, h3, h4⟩ := ih (rest.drop (cutAtOctetBoundary rest 74).length) hdrop
      refine ⟨cutAtOctetBoundary rest 74 :: cs, ?_, ?_, ?_, ?_⟩
      · rw [foldContin, if_neg hr]
        simp only [List.map_cons, List.flatten_cons, h1]
      · simp only [List.flatten_cons, h2]
        exact cut_prepend rest 74
      · intro c hc
        rcases List.mem_cons.mp hc with hc | hc
        · subst hc
          exact ⟨hch, unitLen_cut rest 74⟩
        · exact h3 c hc
      · intro c hc x hx
        rcases List.mem_cons.mp hc with hc | hc
        · subst hc
          have hp := cut_prepend rest 74
          rw [← hp]
          exact List.mem_append_left _ hx
        · exact List.mem_of_mem_drop (h4 c hc x hx)

theorem intercalate_cons₂ (sep c d : List Nat) (cs : List (List Nat)) :
    List.intercalate sep (c :: d :: cs) = c ++ sep ++ List.intercalate sep (d :: cs) := by
  simp [List.intercalate, List.intersperse, List.append_assoc]

theorem intercalate_single (sep c : List Nat) : List.intercalate sep [c] = c := by
  simp [List.intercalate, List.intersperse]

theorem intercalate_eq_flatten_map (sep c0 : List Nat) :
    ∀ cs : List (List Nat),
      List.intercalate sep (c0 :: cs) = c0 ++ (cs.map (fun c => sep ++ c)).flatten := by
  intro cs
  induction cs generalizing c0 with
  | nil => simp [intercalate_single]
  | cons d ds ih =>
    rw [intercalate_cons₂, ih d]
    simp [List.append_assoc]

theorem unfold_chunks (cs : List JSStr) (h : ∀ c ∈ cs, (13 : Nat) ∉ c) :
    unfoldICS ((cs.map (fun c => [13, 10, 32] ++ c)).flatten) = cs.flatten := by
  induction cs with
  | nil => rfl
  | cons c ds ih =>
    simp only [List.map_cons, List.flatten_cons]
    have h13 : (13 : Nat) ∉ c := h c (List.mem_cons_self c ds)
    rw [List.append_assoc]
    rw [show ([13, 10, 32] : JSStr) ++ (c ++ (ds.map (fun c => [13, 10, 32] ++ c)).flatten) =
      13 :: 10 :: 32 :: (c ++ (ds.map (fun c => [13, 10, 32] ++ c)).flatten) from rfl]
    rw [unfold_crlfsp]
    rw [unfold_append_noCR c _ h13, ih (fun d hd => h d (List.mem_cons_of_mem c hd))]

theorem foldLine_eq (pfx value : JSStr) :
    foldLine pfx value =
      if encodeLen value ≤ 75 - encodeLen pfx then value
      else cutAtOctetBoundary value (75 - encodeLen pfx) ++
        foldContin value.length
          (value.drop (cutAtOctetBoundary value (75 - encodeLen pfx)).length) := rfl

theorem foldLine_chunks (pfx s : JSStr) :
    ∃ c0 cs,
      foldLine pfx s = List.intercalate [13, 10, 32] (c0 :: cs) ∧
      (c0 :: cs).flatten = s ∧
      encodeLen c0 ≤ 75 - encodeLen pfx ∧
      (∀ c ∈ cs, c ≠ [] ∧ encodeLen c ≤ 74) ∧
      (∀ c ∈ c0 :: cs, ∀ u ∈ c, u ∈ s) := by
  by_cases hsmall : encodeLen s ≤ 75 - encodeLen pfx
  · refine ⟨s, [], ?_, by simp, hsmall, by simp, by simp⟩
    rw [foldLine_eq, if_pos hsmall, intercalate_single]
  · obtain ⟨cs, h1, h2, h3, h4⟩ := foldContin_chunks s.length
      (s.drop (cutAtOctetBoundary s (75 - encodeLen pfx)).length)
      (by rw [List.length_drop]; omega)
    refine ⟨cutAtOctetBoundary s (75 - encodeLen pfx), cs, ?_, ?_, ?_, ?_, ?_⟩
    · rw [foldLine_eq, if_neg hsmall, h1, intercalate_eq_flatten_map]
    · rw [List.flatten_cons, h2]
      exact cut_prepend s _
    · exact le_trans (encodeLen_le_unitLen _) (unitLen_cut s _)
    · intro c hc
      obtain ⟨hne, hle⟩ := h3 c hc
      exact ⟨hne, le_trans (encodeLen_le_unitLen c) hle⟩
    · intro c hc u hu
      rcases List.mem_cons.mp hc with hc | hc
      · subst hc
        have hp := cut_prepend s (75 - encodeLen pfx)
        rw [← hp]
        exact List.mem_append_left _ hu
      · exact List.mem_of_mem_drop (h4 c hc u hu)

/-- Claim C7 (amended): for every prefix and every CR-free string, folding and
then unfolding returns the original string; the folded output is the chunks
joined by CRLF-plus-one-space, the chunks concatenate back to the string, the
first chunk carries at most 75 minus the prefix length octets, every
continuation chunk is nonempty and carries at most 74 octets, and every unit
of every chunk comes from the original string (so for surrogate-free input no
encoded character is split).  The unamended claim fails: a string already
containing CRLF-space does not round-trip, and a surrogate pair can be split
across the fold boundary (see the counterexample). -/
theorem C7_folding_invariant (pfx s : JSStr) (h13 : (13 : Nat) ∉ s) :
    unfoldICS (foldLine pfx s) = s ∧
    ∃ c0 cs, foldLine pfx s = List.intercalate [13, 10, 32] (c0 :: cs) ∧
      (c0 :: cs).flatten = s ∧
      encodeLen c0 ≤ 75 - encodeLen pfx ∧
      (∀ c ∈ cs, c ≠ [] ∧ encodeLen c ≤ 74) ∧
      (∀ c ∈ c0 :: cs, ∀ u ∈ c, u ∈ s) := by
  obtain ⟨c0, cs, he, hfl, hb0, hbs, hmem⟩ := foldLine_chunks pfx s
  have hno : ∀ c ∈ c0 :: cs, (13 : Nat) ∉ c := fun c hc hu => h13 (hmem c hc 13 hu)
  constructor
  · rw [he, intercalate_eq_flatten_map]
    rw [unfold_append_noCR c0 _ (hno c0 (List.mem_cons_self c0 cs))]
    rw [unfold_chunks cs (fun d hd => hno d (List.mem_cons_of_mem c0 hd))]
    exact hfl
  · exact ⟨c0, cs, he, hfl, hb0, hbs, hmem⟩

/-- Two failures of the literal folding claim: the value "a" CR LF SP "b"
folds to itself (it is short) but unfolding then deletes the CRLF-space, and
folding 64 letters followed by the surrogate pair U+D83D U+DC00 under the
SUMMARY: prefix splits the pair across the fold boundary. -/
theorem C7_counterexample :
    (unfoldICS (foldLine [83, 85, 77, 77, 65, 82, 89, 58] [97, 13, 10, 32, 98]) ≠
      [97, 13, 10, 32, 98]) ∧
    foldLine [83, 85, 77, 77, 65, 82, 89, 58] (List.replicate 64 97 ++ [55357, 56832]) =
      List.replicate 64 97 ++ [55357, 13, 10, 32, 56832] := by decide

theorem C7_witness :
    ((13 : Nat) ∉ List.replicate 100 97) ∧
    (unfoldICS (foldLine (utf16 "SUMMARY:") (List.replicate 100 97)) = List.replicate 100 97 ∧
    ∃ c0 cs, foldLine (utf16 "SUMMARY:") (List.replicate 100 97) =
        List.intercalate [13, 10, 32] (c0 :: cs) ∧
      (c0 :: cs).flatten = List.replicate 100 97 ∧
      encodeLen c0 ≤ 75 - encodeLen (utf16 "SUMMARY:") ∧
      (∀ c ∈ cs, c ≠ [] ∧ encodeLen c ≤ 74) ∧
      (∀ c ∈ c0 :: cs, ∀ u ∈ c, u ∈ List.replicate 100 97)) :=
  ⟨by decide, C7_folding_invariant (utf16 "SUMMARY:") (List.replicate 100 97) (by decide)⟩

set_option maxHeartbeats 1000000 in
theorem eventToVEvent_dtstampR (n₁ n₂ : Int) (e : CalendarEvent) :
    List.Forall₂ dtstampR (eventToVEvent n₁ e) (eventToVEvent n₂ e) := by
  have h1 : eventToVEvent n₁ e =
      [utf16 "BEGIN:VEVENT", utf16 "UID:" ++ e.uid ++ utf16 "@clawcal",
       utf16 "DTSTAMP:" ++ formatICSDate n₁] ++ (eventToVEvent n₂ e).drop 3 := rfl
  have h2 : eventToVEvent n₂ e =
      [utf16 "BEGIN:VEVENT", utf16 "UID:" ++ e.uid ++ utf16 "@clawcal",
       utf16 "DTSTAMP:" ++ formatICSDate n₂] ++ (eventToVEvent n₂ e).drop 3 := rfl
  rw [h1, h2]
  refine List.rel_append ?_ ?_
  · exact List.Forall₂.cons (Or.inl rfl) (List.Forall₂.cons (Or.inl rfl)
      (List.Forall₂.cons (Or.inr ⟨formatICSDate n₁, formatICSDate n₂, rfl, rfl⟩)
        List.Forall₂.nil))
  · exact List.forall₂_same.mpr (fun x _ => Or.inl rfl)

theorem renderLines_dtstampR (m : CalendarManager) (n₁ n₂ : Int) :
    List.Forall₂ dtstampR (renderLines m n₁) (renderLines m n₂) := by
  unfold renderLines
  refine List.rel_append (List.rel_append ?_ ?_) ?_
  · exact List.forall₂_same.mpr (fun x _ => Or.inl rfl)
  · induction m.events with
    | nil => exact List.Forall₂.nil
    | cons kv rest ih =>
      simp only [List.map_cons, List.flatten_cons]
      exact List.rel_append (eventToVEvent_dtstampR n₁ n₂ kv.2) ih
  · exact List.forall₂_same.mpr (fun x _ => Or.inl rfl)

set_option maxRecDepth 8192 in
/-- Rendering the same store at two different wall-clock instants yields two
different documents: the DTSTAMP lines embed the clock, so render() alone is
not a function of the in-memory state. -/
theorem C10_counterexample : toICS c10mA 0 ≠ toICS c10mA 60000 := by decide

/-- Claim C10 (amended): rendering is deterministic given the in-memory event
collection, the calendar name and the wall-clock instant — the backing file
path does not influence the document — and two renders of the same state at
different instants produce line-for-line identical documents except that the
DTSTAMP lines (which embed the clock) may differ.  Unamended, the claim fails
because eventToVEvent stamps DTSTAMP from the current clock (see the
counterexample). -/
theorem C10_render_deterministic :
    (∀ (m₁ m₂ : CalendarManager) (now : Int), m₁.events = m₂.events →
      m₁.calendarName = m₂.calendarName → toICS m₁ now = toICS m₂ now) ∧
    (∀ (m : CalendarManager) (n₁ n₂ : Int),
      List.Forall₂ dtstampR (renderLines m n₁) (renderLines m n₂)) := by
  constructor
  · intro m₁ m₂ now he hc
    unfold toICS renderLines
    rw [he, hc]
  · exact renderLines_dtstampR

set_option maxRecDepth 8192 in
theorem C10_witness :
    c10mA.events = c10mB.events ∧ c10mA.calendarName = c10mB.calendarName ∧
    toICS c10mA 0 = toICS c10mB 0 ∧
    List.Forall₂ dtstampR (renderLines c10mA 0) (renderLines c10mA 86400000) :=
  ⟨by decide, by decide,
   C10_render_deterministic.1 c10mA c10mB 0 (by decide) (by decide),
   C10_render_deterministic.2 c10mA 0 86400000⟩

set_option maxRecDepth 8192 in
/-- Claim C4: the daily aggregate for 30 tasks keeps all 30 bullets — the
description splits into exactly 30 lines, each a plain bullet, with no
trailing "+ 5 more" line — and the title joins the agent with a double
hyphen, not an em dash.  The repository's own test suite instead expects the
bullet list capped at 25 with a "+ 5 more" line, so the code diverges from
both the specification and its tests. -/
theorem C4_no_truncation :
    (buildDailyTaskAggregate (utf16 "dev-agent") 0 (List.replicate 30 (utf16 "T"))).title =
      utf16 "Shipped 30 tasks -- dev-agent" ∧
    (buildDailyTaskAggregate (utf16 "dev-agent") 0 (List.replicate 30 (utf16 "T"))).title ≠
      utf16 "Shipped 30 tasks — dev-agent" ∧
    (buildDailyTaskAggregate (utf16 "dev-agent") 0 (List.replicate 30 (utf16 "T"))).description =
      some (List.intercalate [10] (List.replicate 30 (utf16 "- T"))) ∧
    ((List.intercalate [10] (List.replicate 30 (utf16 "- T"))).splitOn 10).length = 30 ∧
    ∀ l ∈ (List.intercalate [10] (List.replicate 30 (utf16 "- T"))).splitOn 10,
      l = utf16 "- T" := by decide

/-- Claim C8: the cron translator maps an every-day schedule to FREQ=DAILY, a
single weekday to a weekly rule on that day, a comma list to a weekly rule on
those days, and 1-5 to Monday through Friday; and whenever the minute field
contains a slash or a comma, or the hour field contains a slash, it returns
the empty rule. -/
theorem C8_cron_translation :
    cronToRRule (utf16 "0 8 * * *") = utf16 "FREQ=DAILY" ∧
    cronToRRule (utf16 "0 8 * * 1") = utf16 "FREQ=WEEKLY;BYDAY=MO" ∧
    cronToRRule (utf16 "0 8 * * 1,3,5") = utf16 "FREQ=WEEKLY;BYDAY=MO,WE,FR" ∧
    cronToRRule (utf16 "0 8 * * 1-5") = utf16 "FREQ=WEEKLY;BYDAY=MO,TU,WE,TH,FR" ∧
    cronToRRule (utf16 "*/5 * * * *") = [] ∧
    (∀ (cron minute hour x y dw : JSStr) (rest : List JSStr),
      splitWs (trimJS cron) = minute :: hour :: x :: y :: dw :: rest →
      47 ∈ minute ∨ 44 ∈ minute ∨ 47 ∈ hour →
      cronToRRule cron = []) := by
  refine ⟨by decide, by decide, by decide, by decide, by decide, ?_⟩
  intro cron minute hour x y dw rest hsplit hbad
  unfold cronToRRule
  rw [hsplit]
  exact if_pos hbad

theorem C8_witness :
    splitWs (trimJS (utf16 "*/6 12 * * 3")) =
      [utf16 "*/6", utf16 "12", [42], [42], utf16 "3"] ∧
    ((47 : Nat) ∈ utf16 "*/6" ∨ (44 : Nat) ∈ utf16 "*/6" ∨ (47 : Nat) ∈ utf16 "12") ∧
    cronToRRule (utf16 "*/6 12 * * 3") = [] :=
  ⟨by decide, by decide,
   C8_cron_translation.2.2.2.2.2 (utf16 "*/6 12 * * 3") (utf16 "*/6") (utf16 "12")
     [42] [42] (utf16 "3") [] (by decide) (by decide)⟩

/-- The agent id "all.agents" sanitizes onto the reserved combined feed
file name: the replacement map is not injective into the non-reserved
names, so distinct sources can collide with the combined feed. -/
theorem C9_counterexample :
    feedFileName (utf16 "all.agents") = combinedFeedFileName ∧
    utf16 "all.agents" ≠ utf16 "all-agents" := by decide

/-- Claim C9 (amended): the per-source backing name is the identifier with
every character outside the safe class replaced by a hyphen, followed by the
extension: the base keeps the identifier's length, every base character lies
in the safe class, identifiers already made of safe characters map to
themselves, and no file name contains a path separator, backslash, or space
(so no identifier can escape the feed directory).  The reserved-name part of
the original claim fails: an identifier such as "all.agents" collides with
the combined feed's file (see the counterexample). -/
theorem C9_safe_names (agentId : JSStr) :
    (∃ base, feedFileName agentId = base ++ utf16 ".ics" ∧
      base.length = agentId.length ∧
      ∀ u ∈ base, safeUnit u = true) ∧
    ((∀ u ∈ agentId, safeUnit u = true) → feedFileName agentId = agentId ++ utf16 ".ics") ∧
    (∀ u ∈ feedFileName agentId, u ≠ 47 ∧ u ≠ 92 ∧ u ≠ 32) := by
  refine ⟨⟨agentId.map (fun u => if safeUnit u then u else 45), rfl,
      List.length_map _ _, ?_⟩, ?_, ?_⟩
  · intro u hu
    obtain ⟨a, _, rfl⟩ := List.mem_map.mp hu
    by_cases hs : safeUnit a = true
    · rw [if_pos hs]; exact hs
    · rw [if_neg hs]; decide
  · intro h
    unfold feedFileName
    rw [List.map_congr_left (fun a ha => if_pos (h a ha)), List.map_id']
  · intro u hu
    rcases List.mem_append.mp hu with hb | hs
    · obtain ⟨a, _, rfl⟩ := List.mem_map.mp hb
      by_cases hsu : safeUnit a = true
      · rw [if_pos hsu]
        have := of_decide_eq_true hsu
        omega
      · rw [if_neg hsu]
        omega
    · have h4 : u ∈ ([46, 105, 99, 115] : List Nat) := hs
      simp at h4
      rcases h4 with rfl | rfl | rfl | rfl <;> omega

theorem C9_witness :
    (∀ u ∈ utf16 "main", safeUnit u = true) ∧
    feedFileName (utf16 "main") = utf16 "main" ++ utf16 ".ics" :=
  ⟨by decide, (C9_safe_names (utf16 "main")).2.1 (by decide)⟩

-- ## Round-trip value lemmas (C1)

theorem splitColon_cons_ne (u : Nat) (l : JSStr) (h : u ≠ 58) :
    splitColon (u :: l) = (splitColon l).map (fun kv => (u :: kv.1, kv.2)) := by
  rw [splitColon.eq_def]
  split
  · rename_i heq
    exact absurd heq (List.cons_ne_nil u l)
  · rename_i heq
    exact absurd (List.cons.inj heq).1 h
  · rename_i v r heq
    obtain ⟨h1, h2⟩ := List.cons.inj heq
    rw [← h1, ← h2]

theorem splitColon_pfx (k v : JSStr) (hk : (58 : Nat) ∉ k) :
    splitColon (k ++ 58 :: v) = some (k, v) := by
  induction k with
  | nil => rfl
  | cons u k ih =>
    have hu : u ≠ 58 := fun he => hk (he ▸ List.mem_cons_self u k)
    rw [List.cons_append, splitColon_cons_ne u _ hu,
      ih (fun hm => hk (List.mem_cons_of_mem u hm))]
    rfl

theorem isPrefixOf_append_self : ∀ (l t : List Nat), List.isPrefixOf l (l ++ t) = true := by
  intro l t
  induction l with
  | nil => simp [List.isPrefixOf]
  | cons a l ih => simp [List.isPrefixOf, ih]

theorem isSuffixOf_append_self (u s : List Nat) : List.isSuffixOf s (u ++ s) = true := by
  unfold List.isSuffixOf
  rw [List.reverse_append]
  exact isPrefixOf_append_self _ _

theorem stripAtClawcal_append (u : JSStr) :
    stripAtClawcal (u ++ utf16 "@clawcal") = u := by
  unfold stripAtClawcal
  rw [if_pos (isSuffixOf_append_self u (utf16 "@clawcal"))]
  rw [List.length_append]
  have h8 : (utf16 "@clawcal").length = 8 := rfl
  rw [h8]
  have h9 : u.length + 8 - 8 = u.length := by omega
  rw [h9, List.take_left]

theorem takeWhile_all (p : Nat → Bool) : ∀ l : JSStr, (∀ u ∈ l, p u = true) →
    l.takeWhile p = l := by
  intro l
  induction l with
  | nil => intro _; rfl
  | cons u l ih =>
    intro h
    rw [List.takeWhile_cons_of_pos (h u (List.mem_cons_self u l)),
      ih (fun x hx => h x (List.mem_cons_of_mem u hx))]

theorem takeWhile_digits_append (a : JSStr) (v : Nat) (b : JSStr)
    (ha : ∀ u ∈ a, isDigit u = true) (hv : isDigit v = false) :
    (a ++ v :: b).takeWhile (fun u => isDigit u) = a := by
  induction a with
  | nil => simp [List.takeWhile_cons, hv]
  | cons u a ih =>
    rw [List.cons_append, List.takeWhile_cons_of_pos (ha u (List.mem_cons_self u a)),
      ih (fun x hx => ha x (List.mem_cons_of_mem u hx))]

theorem isJsWS_digit (d : Nat) (h : 48 ≤ d ∧ d ≤ 57) : isJsWS d = false := by
  obtain ⟨h1, h2⟩ := h
  interval_cases d <;> decide

theorem parseDigitRun_digits (l : JSStr) (hne : l ≠ [])
    (hd : ∀ u ∈ l, isDigit u = true) :
    parseDigitRun l = some ((digitsToNat l : Nat) : Int) := by
  unfold parseDigitRun
  rw [takeWhile_all _ l hd]
  rw [if_neg (by simp [hne])]

theorem parseIntJS_natToDigits (n : Nat) : parseIntJS (natToDigits n) = some (n : Int) := by
  obtain ⟨d, ds, hds⟩ := List.exists_cons_of_ne_nil (natToDigits_ne_nil n)
  have hd : isDigit d = true := by
    apply natToDigits_digits n
    rw [hds]; exact List.mem_cons_self d ds
  have hdn : 48 ≤ d ∧ d ≤ 57 := by
    simp only [isDigit, Bool.and_eq_true, decide_eq_true_eq] at hd
    omega
  have hrun : parseDigitRun (d :: ds) = some ((digitsToNat (d :: ds) : Nat) : Int) := by
    apply parseDigitRun_digits _ (List.cons_ne_nil d ds)
    rw [← hds]; exact natToDigits_digits n
  have hdrop : (d :: ds).dropWhile isJsWS = d :: ds := by
    rw [List.dropWhile_cons, if_neg (by rw [isJsWS_digit d hdn]; simp)]
  have hval : digitsToNat (d :: ds) = n := by rw [← hds]; exact digitsToNat_natToDigits n
  rw [hds]
  unfold parseIntJS
  rw [hdrop]
  split
  · rename_i heq
    exact absurd (List.cons.inj heq).1 (by omega)
  · rename_i heq
    exact absurd (List.cons.inj heq).1 (by omega)
  · rw [hrun, hval]

theorem triggerMatch_render (m : Nat) :
    triggerMatch (utf16 "-PT" ++ (natToDigits m ++ [77])) = some m := by
  have h1 : utf16 "-PT" ++ (natToDigits m ++ [77]) =
      45 :: 80 :: 84 :: (natToDigits m ++ [77]) := rfl
  have h2 : triggerMatch (45 :: 80 :: 84 :: (natToDigits m ++ [77])) =
      if ((natToDigits m ++ [77]).takeWhile (fun u => isDigit u)) ≠ [] ∧
          ((natToDigits m ++ [77]).drop
            ((natToDigits m ++ [77]).takeWhile (fun u => isDigit u)).length).head? =
            some 77
      then some (digitsToNat ((natToDigits m ++ [77]).takeWhile (fun u => isDigit u)))
      else triggerMatch (80 :: 84 :: (natToDigits m ++ [77])) := rfl
  have hds : (natToDigits m ++ [77]).takeWhile (fun u => isDigit u) = natToDigits m :=
    takeWhile_digits_append _ 77 [] (natToDigits_digits m) (by decide)
  rw [h1, h2, hds]
  rw [if_pos ⟨natToDigits_ne_nil m, by rw [List.drop_left]; rfl⟩, digitsToNat_natToDigits]

theorem mem_E3 (u : Nat) : ∀ s : JSStr, u ∈ E3 s →
    u = 92 ∨ u = 110 ∨ (u ∈ s ∧ u ≠ 10) := by
  intro s
  induction s with
  | nil => intro h; simp [E3] at h
  | cons v rest ih =>
    intro h
    rw [E3] at h
    rcases List.mem_append.mp h with h | h
    · unfold enc3 at h
      split_ifs at h with h1 h2 h3 h4
      · simp at h; exact Or.inl h
      · simp at h
        rcases h with rfl | rfl
        · exact Or.inl rfl
        · exact Or.inr (Or.inr ⟨h2 ▸ List.mem_cons_self v rest, by omega⟩)
      · simp at h
        rcases h with rfl | rfl
        · exact Or.inl rfl
        · exact Or.inr (Or.inr ⟨h3 ▸ List.mem_cons_self v rest, by omega⟩)
      · simp at h
        rcases h with rfl | rfl
        · exact Or.inl rfl
        · exact Or.inr (Or.inl rfl)
      · simp at h
        rw [h]
        exact Or.inr (Or.inr ⟨List.mem_cons_self v rest, h4⟩)
    · rcases ih h with h | h | ⟨hm, hne⟩
      · exact Or.inl h
      · exact Or.inr (Or.inl h)
      · exact Or.inr (Or.inr ⟨List.mem_cons_of_mem v hm, hne⟩)

theorem escapeICS_no13 (s : JSStr) (h : (13 : Nat) ∉ s) : (13 : Nat) ∉ escapeICS s := by
  rw [escapeICS_eq_E3]
  intro hc
  rcases mem_E3 13 s hc with h1 | h1 | ⟨h1, _⟩
  · omega
  · omega
  · exact h h1

theorem escapeICS_no10 (s : JSStr) : (10 : Nat) ∉ escapeICS s := by
  rw [escapeICS_eq_E3]
  intro hc
  rcases mem_E3 10 s hc with h1 | h1 | ⟨_, h1⟩
  · omega
  · omega
  · exact h1 rfl

theorem pad2_digits (n : Nat) : ∀ u ∈ pad2 n, 48 ≤ u ∧ u ≤ 57 := by
  intro u hu
  simp [pad2] at hu
  have ha : n / 10 % 10 < 10 := Nat.mod_lt _ (by omega)
  have hb : n % 10 < 10 := Nat.mod_lt _ (by omega)
  rcases hu with rfl | rfl <;> omega

theorem pad4_digits (n : Nat) : ∀ u ∈ pad4 n, 48 ≤ u ∧ u ≤ 57 := by
  intro u hu
  simp [pad4] at hu
  have ha : n / 1000 % 10 < 10 := Nat.mod_lt _ (by omega)
  have hb : n / 100 % 10 < 10 := Nat.mod_lt _ (by omega)
  have hc : n / 10 % 10 < 10 := Nat.mod_lt _ (by omega)
  have hd : n % 10 < 10 := Nat.mod_lt _ (by omega)
  rcases hu with rfl | rfl | rfl | rfl <;> omega

theorem formatICSDate_mem (t : Int) : ∀ u ∈ formatICSDate t,
    (48 ≤ u ∧ u ≤ 57) ∨ u = 84 ∨ u = 90 := by
  intro u hu
  unfold formatICSDate at hu
  simp only [List.append_assoc, List.mem_append, List.mem_cons, List.mem_singleton,
    List.not_mem_nil, or_false] at hu
  rcases hu with h | h | h | h | h | h | h | h
  · exact Or.inl (pad4_digits _ u h)
  · exact Or.inl (pad2_digits _ u h)
  · exact Or.inl (pad2_digits _ u h)
  · exact Or.inr (Or.inl h)
  · exact Or.inl (pad2_digits _ u h)
  · exact Or.inl (pad2_digits _ u h)
  · exact Or.inl (pad2_digits _ u h)
  · exact Or.inr (Or.inr h)

theorem formatICSDateOnly_mem (t : Int) : ∀ u ∈ formatICSDateOnly t,
    48 ≤ u ∧ u ≤ 57 := by
  intro u hu
  unfold formatICSDateOnly at hu
  simp only [List.append_assoc, List.mem_append] at hu
  rcases hu with h | h | h
  · exact pad4_digits _ u h
  · exact pad2_digits _ u h
  · exact pad2_digits _ u h

theorem status_roundtrip (s : EventStatus) (h : s ≠ .IN_PROGRESS) :
    reverseMapStatus (mapStatus s) = s := by
  cases s
  · decide
  · exact absurd rfl h
  · decide
  · decide

theorem mapStatus_mem (s : EventStatus) : ∀ u ∈ mapStatus s, 65 ≤ u ∧ u ≤ 90 := by
  cases s <;> decide

theorem intToStr_nonneg (q : Int) (h : 0 ≤ q) : intToStr q = natToDigits q.toNat := by
  unfold intToStr
  rw [if_neg (by omega)]

-- ## Parser step lemmas (C1)

theorem parseLine_beginEvent (c : Option PEvent) (b : Bool) (a : Option PAlert) (evs : Store) :
    parseLine ⟨c, b, a, evs⟩ (utf16 "BEGIN:VEVENT") = ⟨some {}, b, a, evs⟩ := by
  unfold parseLine
  rw [if_pos rfl]

theorem parseLine_none (st : PState) (line : JSStr) (hcur : st.current = none)
    (h1 : line ≠ utf16 "BEGIN:VEVENT") : parseLine st line = st := by
  unfold parseLine
  rw [if_neg h1, hcur]

theorem parseLine_endEvent (cur : PEvent) (b : Bool) (a : Option PAlert) (evs : Store)
    (u : JSStr) (ev : CalendarEvent) (hfin : finishEvent cur = some (u, ev)) :
    parseLine ⟨some cur, b, a, evs⟩ (utf16 "END:VEVENT") =
      ⟨none, b, a, setEntry u ev evs⟩ := by
  unfold parseLine
  dsimp only
  rw [if_neg (by decide), if_pos rfl, hfin]

theorem parseLine_beginAlarm (cur : PEvent) (b : Bool) (a : Option PAlert) (evs : Store) :
    parseLine ⟨some cur, b, a, evs⟩ (utf16 "BEGIN:VALARM") =
      ⟨some cur, true, some {}, evs⟩ := by
  unfold parseLine
  dsimp only
  rw [if_neg (by decide), if_neg (by decide), if_pos rfl]

theorem parseLine_endAlarm (cur : PEvent) (al : PAlert) (evs : Store) (mn : Nat)
    (hmn : al.minutes = some mn) :
    parseLine ⟨some cur, true, some al, evs⟩ (utf16 "END:VALARM") =
      ⟨some { cur with alerts := cur.alerts ++ [⟨mn, al.description⟩] },
        false, none, evs⟩ := by
  unfold parseLine
  dsimp only
  rw [if_neg (by decide), if_neg (by decide), if_neg (by decide), if_pos rfl, hmn]

theorem parseLine_prop (cur : PEvent) (evs : Store) (line key value : JSStr)
    (h1 : line ≠ utf16 "BEGIN:VEVENT") (h2 : line ≠ utf16 "END:VEVENT")
    (h3 : line ≠ utf16 "BEGIN:VALARM") (h4 : line ≠ utf16 "END:VALARM")
    (hsp : splitColon line = some (key, value)) :
    parseLine ⟨some cur, false, none, evs⟩ line =
      ⟨some (applyEventKey cur key value), false, none, evs⟩ := by
  unfold parseLine
  dsimp only
  rw [if_neg h1, if_neg h2, if_neg h3, if_neg h4, hsp]
  dsimp only
  rw [if_neg (by simp)]

theorem parseLine_alarmProp (cur : PEvent) (al : PAlert) (evs : Store) (line key value : JSStr)
    (h1 : line ≠ utf16 "BEGIN:VEVENT") (h2 : line ≠ utf16 "END:VEVENT")
    (h3 : line ≠ utf16 "BEGIN:VALARM") (h4 : line ≠ utf16 "END:VALARM")
    (hsp : splitColon line = some (key, value)) :
    parseLine ⟨some cur, true, some al, evs⟩ line =
      ⟨some cur, true, some (applyAlarmKey al key value), evs⟩ := by
  unfold parseLine
  dsimp only
  rw [if_neg h1, if_neg h2, if_neg h3, if_neg h4, hsp]
  dsimp only
  rw [if_pos (by simp)]
  rfl

theorem applyEventKey_UID (c : PEvent) (v : JSStr) :
    applyEventKey c (utf16 "UID") v = { c with uid := some (stripAtClawcal v) } := rfl

theorem applyEventKey_SUMMARY (c : PEvent) (v : JSStr) :
    applyEventKey c (utf16 "SUMMARY") v = { c with title := some (unescapeICS v) } := rfl

theorem applyEventKey_DESCRIPTION (c : PEvent) (v : JSStr) :
    applyEventKey c (utf16 "DESCRIPTION") v =
      { c with description := some (unescapeICS v) } := rfl

theorem applyEventKey_DTSTART (c : PEvent) (v : JSStr) :
    applyEventKey c (utf16 "DTSTART") v = { c with start := parseICSDate v } := rfl

theorem applyEventKey_DTSTARTD (c : PEvent) (v : JSStr) :
    applyEventKey c (utf16 "DTSTART;VALUE=DATE") v =
      { c with start := parseICSDateOnly v, allDay := true } := rfl

theorem applyEventKey_DTEND (c : PEvent) (v : JSStr) :
    applyEventKey c (utf16 "DTEND") v = { c with endT := parseICSDate v } := rfl

theorem applyEventKey_DTENDD (c : PEvent) (v : JSStr) :
    applyEventKey c (utf16 "DTEND;VALUE=DATE") v =
      { c with endT := parseICSDateOnly v } := rfl

theorem applyEventKey_DURATION (c : PEvent) (v : JSStr) :
    applyEventKey c (utf16 "DURATION") v =
      match durationMatch v with
      | some d => { c with duration := some d }
      | none => c := rfl

theorem applyEventKey_CATEGORIES (c : PEvent) (v : JSStr) :
    applyEventKey c (utf16 "CATEGORIES") v = { c with category := some v } := rfl

theorem applyEventKey_STATUS (c : PEvent) (v : JSStr) :
    applyEventKey c (utf16 "STATUS") v =
      { c with status := some (reverseMapStatus v) } := rfl

theorem applyEventKey_SEQUENCE (c : PEvent) (v : JSStr) :
    applyEventKey c (utf16 "SEQUENCE") v = { c with sequence := parseIntJS v } := rfl

theorem applyEventKey_RRULE (c : PEvent) (v : JSStr) :
    applyEventKey c (utf16 "RRULE") v = { c with rrule := some v } := rfl

theorem applyEventKey_AGENT (c : PEvent) (v : JSStr) :
    applyEventKey c (utf16 "X-OPENCLAW-AGENT") v =
      { c with agent := some (unescapeICS v) } := rfl

theorem applyEventKey_PROJECT (c : PEvent) (v : JSStr) :
    applyEventKey c (utf16 "X-OPENCLAW-PROJECT") v =
      { c with project := some (unescapeICS v) } := rfl

theorem applyEventKey_URL (c : PEvent) (v : JSStr) :
    applyEventKey c (utf16 "URL") v = { c with url := some v } := rfl

theorem applyEventKey_DTSTAMP (c : PEvent) (v : JSStr) :
    applyEventKey c (utf16 "DTSTAMP") v = c := rfl

theorem applyEventKey_SOURCEID (c : PEvent) (v : JSStr) :
    applyEventKey c (utf16 "X-CLAWCAL-SOURCE-ID") v = c := rfl

theorem applyAlarmKey_ACTION (al : PAlert) (v : JSStr) :
    applyAlarmKey al (utf16 "ACTION") v = al := rfl

theorem applyAlarmKey_TRIGGER (al : PAlert) (v : JSStr) :
    applyAlarmKey al (utf16 "TRIGGER") v =
      match triggerMatch v with
      | some m => { al with minutes := some m }
      | none => al := rfl

theorem applyAlarmKey_DESCRIPTION (al : PAlert) (v : JSStr) :
    applyAlarmKey al (utf16 "DESCRIPTION") v =
      { al with description := some (unescapeICS v) } := rfl

theorem unfold_sep (t : JSStr) (ht : ∀ h ∈ t.head?, ¬(h = 32 ∨ h = 9)) :
    unfoldICS (13 :: 10 :: t) = 13 :: 10 :: unfoldICS t := by
  cases t with
  | nil => rfl
  | cons h r =>
    have hh : ¬(h = 32 ∨ h = 9) := ht h rfl
    have he : unfoldICS (13 :: 10 :: h :: r) =
        if h = 32 ∨ h = 9 then unfoldICS r else 13 :: unfoldICS (10 :: h :: r) := rfl
    rw [he, if_neg hh, unfold_cons_ne13 10 (h :: r) (by omega)]

theorem unfold_line_append (cs : List JSStr) : ∀ c0,
    (∀ c ∈ c0 :: cs, (13 : Nat) ∉ c) →
    ∀ t, unfoldICS (List.intercalate [13, 10, 32] (c0 :: cs) ++ t) =
      (c0 :: cs).flatten ++ unfoldICS t := by
  induction cs with
  | nil =>
    intro c0 h t
    rw [intercalate_single, unfold_append_noCR c0 t (h c0 (List.mem_cons_self c0 []))]
    simp
  | cons d ds ih =>
    intro c0 h t
    rw [intercalate_cons₂, List.append_assoc, List.append_assoc,
      unfold_append_noCR c0 _ (h c0 (List.mem_cons_self c0 _))]
    rw [show ([13, 10, 32] : JSStr) ++ (List.intercalate [13, 10, 32] (d :: ds) ++ t) =
      13 :: 10 :: 32 :: (List.intercalate [13, 10, 32] (d :: ds) ++ t) from rfl,
      unfold_crlfsp, ih d (fun c hc => h c (List.mem_cons_of_mem c0 hc)) t]
    simp [List.append_assoc]

theorem head?_intercalate_cons (sep l : JSStr) (ls : List JSStr) (t : JSStr)
    (h : l ≠ []) : (List.intercalate sep (l :: ls) ++ t).head? = l.head? := by
  obtain ⟨a, l', rfl⟩ := List.exists_cons_of_ne_nil h
  cases ls with
  | nil => rw [intercalate_single]; rfl
  | cons m ms => rw [intercalate_cons₂]; rfl

theorem unfold_doc : ∀ (ps : List (JSStr × JSStr)),
    (∀ p ∈ ps, LineOK p.1 p.2) →
    unfoldICS (List.intercalate crlf (ps.map Prod.fst) ++ crlf) =
      List.intercalate crlf (ps.map Prod.snd) ++ crlf := by
  intro ps
  induction ps with
  | nil => intro _; rfl
  | cons p ps ih =>
    intro h
    obtain ⟨⟨c0, cs, hint, hflat, h13⟩, hne, hhead⟩ := h p (List.mem_cons_self p ps)
    have h13' : ∀ c ∈ c0 :: cs, (13 : Nat) ∉ c := fun c hc => (h13 c hc).1
    cases ps with
    | nil =>
      simp only [List.map_cons, List.map_nil, intercalate_single]
      rw [hint, unfold_line_append cs c0 h13' crlf, hflat]
      rw [show unfoldICS crlf = crlf from rfl]
    | cons q qs =>
      have hq := h q (List.mem_cons_of_mem p (List.mem_cons_self q qs))
      simp only [List.map_cons]
      rw [intercalate_cons₂, intercalate_cons₂, List.append_assoc, List.append_assoc,
        hint, unfold_line_append cs c0 h13' _, hflat]
      have hnext : ∀ hh ∈ (List.intercalate crlf (q.1 :: List.map Prod.fst qs) ++
          crlf).head?, ¬(hh = 32 ∨ hh = 9) := by
        rw [head?_intercalate_cons crlf q.1 _ crlf hq.2.1]
        exact hq.2.2
      rw [show crlf ++ (List.intercalate crlf (q.1 :: List.map Prod.fst qs) ++ crlf) =
        13 :: 10 :: (List.intercalate crlf (q.1 :: List.map Prod.fst qs) ++ crlf) from rfl,
        unfold_sep _ hnext]
      have ihq := ih (fun r hr => h r (List.mem_cons_of_mem p hr))
      simp only [List.map_cons] at ihq
      rw [ihq]
      simp only [List.append_assoc]
      rfl

theorem splitNL_ne_nil : ∀ s : JSStr, splitNL s ≠ [] := by
  intro s
  rw [splitNL.eq_def]
  split
  · simp
  · simp
  · simp
  · split <;> simp

theorem splitNL_cons_clean (a : Nat) (l : JSStr) (h13 : a ≠ 13) (h10 : a ≠ 10) :
    splitNL (a :: l) =
      match splitNL l with
      | [] => [[a]]
      | x :: xs => (a :: x) :: xs := by
  rw [splitNL.eq_def]
  split
  · rename_i heq
    exact absurd heq (List.cons_ne_nil a l)
  · rename_i heq
    exact absurd (List.cons.inj heq).1 h13
  · rename_i heq
    exact absurd (List.cons.inj heq).1 h10
  · rename_i u rest heq
    obtain ⟨h1, h2⟩ := List.cons.inj heq
    rw [← h1, ← h2]

theorem splitNL_crlf_cons (rest : JSStr) : splitNL (13 :: 10 :: rest) = [] :: splitNL rest := rfl

theorem splitNL_clean_append (u : JSStr) (hu : ∀ x ∈ u, x ≠ 13 ∧ x ≠ 10) :
    ∀ (t w : JSStr) (ws : List JSStr), splitNL t = w :: ws →
    splitNL (u ++ t) = (u ++ w) :: ws := by
  induction u with
  | nil =>
    intro t w ws ht
    simpa using ht
  | cons a u ih =>
    intro t w ws ht
    have ha := hu a (List.mem_cons_self a u)
    rw [List.cons_append, splitNL_cons_clean a _ ha.1 ha.2,
      ih (fun x hx => hu x (List.mem_cons_of_mem a hx)) t w ws ht]
    rfl

theorem splitNL_doc : ∀ (us : List JSStr) (u : JSStr),
    (∀ x ∈ u, x ≠ 13 ∧ x ≠ 10) → (∀ v ∈ us, ∀ x ∈ v, x ≠ 13 ∧ x ≠ 10) →
    splitNL (List.intercalate crlf (u :: us) ++ crlf) = (u :: us) ++ [[]] := by
  intro us
  induction us with
  | nil =>
    intro u hu _
    rw [intercalate_single, splitNL_clean_append u hu crlf [] [[]] (by rfl)]
    simp
  | cons v vs ih =>
    intro u hu hv
    rw [intercalate_cons₂, List.append_assoc, List.append_assoc]
    have hrest := ih v (hv v (List.mem_cons_self v vs))
      (fun w hw => hv w (List.mem_cons_of_mem v hw))
    have h2 : splitNL (crlf ++ (List.intercalate crlf (v :: vs) ++ crlf)) =
        [] :: ((v :: vs) ++ [[]]) := by
      rw [show crlf ++ (List.intercalate crlf (v :: vs) ++ crlf) =
        13 :: 10 :: (List.intercalate crlf (v :: vs) ++ crlf) from rfl,
        splitNL_crlf_cons, hrest]
    rw [splitNL_clean_append u hu _ [] ((v :: vs) ++ [[]]) h2]
    simp

theorem doc_split (ps : List (JSStr × JSStr)) (p0 : JSStr × JSStr) (ps' : List (JSStr × JSStr))
    (hps : ps = p0 :: ps') (h : ∀ p ∈ ps, LineOK p.1 p.2) :
    splitNL (unfoldICS (List.intercalate crlf (ps.map Prod.fst) ++ crlf)) =
      ps.map Prod.snd ++ [[]] := by
  have hclean : ∀ p ∈ ps, ∀ x ∈ p.2, x ≠ 13 ∧ x ≠ 10 := by
    intro p hp x hx
    obtain ⟨⟨c0, cs, _, hflat, h13⟩, _, _⟩ := h p hp
    rw [← hflat] at hx
    obtain ⟨c, hc, hxc⟩ := List.mem_flatten.mp hx
    have := h13 c hc
    exact ⟨fun he => this.1 (he ▸ hxc), fun he => this.2 (he ▸ hxc)⟩
  rw [unfold_doc ps h, hps]
  simp only [List.map_cons]
  apply splitNL_doc
  · intro x hx
    exact hclean p0 (hps ▸ List.mem_cons_self p0 ps') x hx
  · intro v hv x hx
    obtain ⟨q, hq, rfl⟩ := List.mem_map.mp hv
    exact hclean q (hps ▸ List.mem_cons_of_mem p0 hq) x hx

theorem lineOK_of_plain (l : JSStr) (hc : ∀ x ∈ l, x ≠ 13 ∧ x ≠ 10) (hne : l ≠ [])
    (hh : ∀ h ∈ l.head?, ¬(h = 32 ∨ h = 9)) : LineOK l l := by
  refine ⟨⟨l, [], by rw [intercalate_single], by simp, ?_⟩, hne, hh⟩
  intro c hcm
  have : c = l := by simpa using hcm
  subst this
  exact ⟨fun hm => (hc 13 hm).1 rfl, fun hm => (hc 10 hm).2 rfl⟩

theorem lineOK_line (a : Nat) (p v : JSStr)
    (ha : ¬(a = 32 ∨ a = 9) ∧ a ≠ 13 ∧ a ≠ 10)
    (hp : ∀ x ∈ p, x ≠ 13 ∧ x ≠ 10) (hv : ∀ x ∈ v, x ≠ 13 ∧ x ≠ 10) :
    LineOK (a :: (p ++ v)) (a :: (p ++ v)) := by
  apply lineOK_of_plain
  · intro x hx
    rcases List.mem_cons.mp hx with rfl | hx
    · exact ha.2
    · rcases List.mem_append.mp hx with hx | hx
      · exact hp x hx
      · exact hv x hx
  · exact List.cons_ne_nil _ _
  · intro h hh
    have : a = h := by simpa using hh
    rw [← this]
    exact ha.1

theorem lineOK_folded (a : Nat) (p v : JSStr)
    (ha : ¬(a = 32 ∨ a = 9) ∧ a ≠ 13 ∧ a ≠ 10)
    (hp : ∀ x ∈ p, x ≠ 13 ∧ x ≠ 10) (hv : ∀ x ∈ v, x ≠ 13 ∧ x ≠ 10) :
    LineOK ((a :: p) ++ foldLine (a :: p) v) ((a :: p) ++ v) := by
  obtain ⟨c0, cs, he, hfl, _, _, hmem⟩ := foldLine_chunks (a :: p) v
  refine ⟨⟨(a :: p) ++ c0, cs, ?_, ?_, ?_⟩, by simp, ?_⟩
  · rw [he, intercalate_eq_flatten_map, intercalate_eq_flatten_map, List.append_assoc]
  · rw [List.flatten_cons] at hfl ⊢
    rw [List.append_assoc, hfl]
  · intro c hcm
    rcases List.mem_cons.mp hcm with rfl | hcm
    · constructor
      · intro hm
        rcases List.mem_append.mp hm with hm | hm
        · rcases List.mem_cons.mp hm with heq | hm
          · exact ha.2.1 heq.symm
          · exact (hp 13 hm).1 rfl
        · exact (hv 13 (hmem c0 (List.mem_cons_self c0 cs) 13 hm)).1 rfl
      · intro hm
        rcases List.mem_append.mp hm with hm | hm
        · rcases List.mem_cons.mp hm with heq | hm
          · exact ha.2.2 heq.symm
          · exact (hp 10 hm).2 rfl
        · exact (hv 10 (hmem c0 (List.mem_cons_self c0 cs) 10 hm)).2 rfl
    · constructor
      · exact fun hm => (hv 13 (hmem c (List.mem_cons_of_mem c0 hcm) 13 hm)).1 rfl
      · exact fun hm => (hv 10 (hmem c (List.mem_cons_of_mem c0 hcm) 10 hm)).2 rfl
  · intro h hh
    have : a = h := by simpa using hh
    rw [← this]
    exact ha.1

theorem clean_append {v w : JSStr} (hv : ∀ x ∈ v, x ≠ 13 ∧ x ≠ 10)
    (hw : ∀ x ∈ w, x ≠ 13 ∧ x ≠ 10) : ∀ x ∈ v ++ w, x ≠ 13 ∧ x ≠ 10 := by
  intro x hx
  rcases List.mem_append.mp hx with hx | hx
  · exact hv x hx
  · exact hw x hx

theorem clean_escape {s : JSStr} (h13 : ∀ x ∈ s, x ≠ 13) :
    ∀ x ∈ escapeICS s, x ≠ 13 ∧ x ≠ 10 := by
  intro x hx
  constructor
  · intro he
    exact escapeICS_no13 s (fun hm => h13 13 hm rfl) (he ▸ hx)
  · intro he
    exact escapeICS_no10 s (he ▸ hx)

theorem clean_digits (n : Nat) : ∀ x ∈ natToDigits n, x ≠ 13 ∧ x ≠ 10 := by
  intro x hx
  have := natToDigits_digits n x hx
  simp only [isDigit, Bool.and_eq_true, decide_eq_true_eq] at this
  omega

theorem clean_format (t : Int) : ∀ x ∈ formatICSDate t, x ≠ 13 ∧ x ≠ 10 := by
  intro x hx
  rcases formatICSDate_mem t x hx with h | h | h <;> omega

theorem clean_formatOnly (t : Int) : ∀ x ∈ formatICSDateOnly t, x ≠ 13 ∧ x ≠ 10 := by
  intro x hx
  have := formatICSDateOnly_mem t x hx
  omega

theorem clean_intToStr (q : Int) : ∀ x ∈ intToStr q, x ≠ 13 ∧ x ≠ 10 := by
  intro x hx
  unfold intToStr at hx
  split at hx
  · rcases List.mem_cons.mp hx with rfl | hx
    · omega
    · exact clean_digits _ x hx
  · exact clean_digits _ x hx

theorem clean_mapStatus (s : EventStatus) : ∀ x ∈ mapStatus s, x ≠ 13 ∧ x ≠ 10 := by
  intro x hx
  have := mapStatus_mem s x hx
  omega

theorem clean_pair {v : JSStr} (h13 : ∀ x ∈ v, x ≠ 13) (h10 : ∀ x ∈ v, x ≠ 10) :
    ∀ x ∈ v, x ≠ 13 ∧ x ≠ 10 := fun x hx => ⟨h13 x hx, h10 x hx⟩

theorem doc_split₂ (ls us : List JSStr) (l0 : JSStr) (ls' : List JSStr)
    (hls : ls = l0 :: ls') (h : List.Forall₂ LineOK ls us) :
    splitNL (unfoldICS (List.intercalate crlf ls ++ crlf)) = us ++ [[]] := by
  have hlen := h.length_eq
  have hfst : (ls.zip us).map Prod.fst = ls := List.map_fst_zip ls us (le_of_eq hlen)
  have hsnd : (ls.zip us).map Prod.snd = us := List.map_snd_zip ls us (le_of_eq hlen.symm)
  have hp : ∀ p ∈ ls.zip us, LineOK p.1 p.2 := by
    intro p hpm
    exact (List.forall₂_iff_zip.mp h).2 hpm
  have hne : ls.zip us ≠ [] := by
    intro hc
    have := congrArg List.length hc
    rw [List.length_zip, ← hlen, hls] at this
    simp at this
  obtain ⟨p0, ps', hps⟩ := List.exists_cons_of_ne_nil hne
  have hd := doc_split (ls.zip us) p0 ps' hps hp
  rw [hfst, hsnd] at hd
  exact hd

theorem lineOK_pfx (pfx v : JSStr) (h1 : pfx ≠ []) (h2 : ∀ x ∈ pfx, x ≠ 13 ∧ x ≠ 10)
    (h3 : ∀ x ∈ pfx.take 1, ¬(x = 32 ∨ x = 9)) (hv : ∀ x ∈ v, x ≠ 13 ∧ x ≠ 10) :
    LineOK (pfx ++ v) (pfx ++ v) := by
  obtain ⟨a, p, rfl⟩ := List.exists_cons_of_ne_nil h1
  apply lineOK_of_plain
  · exact clean_append h2 hv
  · simp
  · intro h hh
    have : a = h := by simpa using hh
    rw [← this]
    exact h3 a (by simp)

theorem lineOK_foldpfx (pfx v : JSStr) (h1 : pfx ≠ []) (h2 : ∀ x ∈ pfx, x ≠ 13 ∧ x ≠ 10)
    (h3 : ∀ x ∈ pfx.take 1, ¬(x = 32 ∨ x = 9)) (hv : ∀ x ∈ v, x ≠ 13 ∧ x ≠ 10) :
    LineOK (pfx ++ foldLine pfx v) (pfx ++ v) := by
  obtain ⟨a, p, rfl⟩ := List.exists_cons_of_ne_nil h1
  exact lineOK_folded a p v
    ⟨h3 a (by simp), (h2 a (by simp)).1, (h2 a (by simp)).2⟩
    (fun x hx => h2 x (List.mem_cons_of_mem a hx)) hv

theorem eventLines_lineOK (now : Int) (e : CalendarEvent) (h : WFEvent e) :
    List.Forall₂ LineOK (eventToVEvent now e) (eventLinesU now e) := by
  obtain ⟨hu0, hu, ht13, htb, hvt, hmid, hdesc, hcat, hag, hpr, hst, hsq, hrr, hur, hal⟩ := h
  unfold eventToVEvent eventLinesU
  refine List.rel_append (List.rel_append (List.rel_append (List.rel_append
    (List.rel_append (List.rel_append (List.rel_append (List.rel_append
    (List.rel_append (List.rel_append (List.rel_append (List.rel_append
    (List.rel_append ?_ ?_) ?_) ?_) ?_) ?_) ?_) ?_) ?_) ?_) ?_) ?_) ?_) ?_
  · refine List.Forall₂.cons ?_ (List.Forall₂.cons ?_ (List.Forall₂.cons ?_ List.Forall₂.nil))
    · exact lineOK_pfx (utf16 "BEGIN:VEVENT") [] (by decide) (by decide) (by decide) (by decide)
    · exact lineOK_pfx (utf16 "UID:") (e.uid ++ utf16 "@clawcal") (by decide) (by decide)
        (by decide) (clean_append hu (by decide))
    · exact lineOK_pfx (utf16 "DTSTAMP:") (formatICSDate now) (by decide) (by decide)
        (by decide) (clean_format now)
  · apply List.forall₂_same.mpr
    intro l hl
    cases hA : e.allDay
    · rw [if_neg (by simp [hA])] at hl
      cases hE : e.endT
      · rw [hE] at hl
        dsimp only at hl
        cases hD : e.duration
        · rw [hD] at hl
          dsimp only at hl
          simp only [List.cons_append, List.nil_append, List.mem_cons,
            List.not_mem_nil, or_false] at hl
          rcases hl with rfl | rfl
          · exact lineOK_pfx (utf16 "DTSTART:") (formatICSDate e.start) (by decide)
              (by decide) (by decide) (clean_format _)
          · exact lineOK_pfx (utf16 "DTEND:") (formatICSDate (e.start + 15 * 60000))
              (by decide) (by decide) (by decide) (clean_format _)
        · rename_i d
          rw [hD] at hl
          dsimp only at hl
          by_cases hz : d = 0
          · rw [if_pos hz] at hl
            simp only [List.cons_append, List.nil_append, List.mem_cons,
              List.not_mem_nil, or_false] at hl
            rcases hl with rfl | rfl
            · exact lineOK_pfx (utf16 "DTSTART:") (formatICSDate e.start) (by decide)
                (by decide) (by decide) (clean_format _)
            · exact lineOK_pfx (utf16 "DTEND:") (formatICSDate (e.start + 15 * 60000))
                (by decide) (by decide) (by decide) (clean_format _)
          · rw [if_neg hz] at hl
            simp only [List.cons_append, List.nil_append, List.mem_cons,
              List.not_mem_nil, or_false] at hl
            rcases hl with rfl | rfl
            · exact lineOK_pfx (utf16 "DTSTART:") (formatICSDate e.start) (by decide)
                (by decide) (by decide) (clean_format _)
            · exact lineOK_pfx (utf16 "DURATION:PT") (natToDigits d ++ [77]) (by decide)
                (by decide) (by decide) (clean_append (clean_digits d) (by decide))
      · rename_i en
        rw [hE] at hl
        dsimp only at hl
        simp only [List.cons_append, List.nil_append, List.mem_cons,
          List.not_mem_nil, or_false] at hl
        rcases hl with rfl | rfl
        · exact lineOK_pfx (utf16 "DTSTART:") (formatICSDate e.start) (by decide)
            (by decide) (by decide) (clean_format _)
        · exact lineOK_pfx (utf16 "DTEND:") (formatICSDate en) (by decide) (by decide)
            (by decide) (clean_format _)
    · rw [if_pos hA] at hl
      cases hE : e.endT
      · rw [hE] at hl
        dsimp only at hl
        simp only [List.cons_append, List.nil_append, List.mem_cons,
          List.not_mem_nil, or_false] at hl
        rw [hl]
        exact lineOK_pfx (utf16 "DTSTART;VALUE=DATE:") (formatICSDateOnly e.start)
          (by decide) (by decide) (by decide) (clean_formatOnly _)
      · rename_i en
        rw [hE] at hl
        dsimp only at hl
        simp only [List.cons_append, List.nil_append, List.mem_cons,
          List.not_mem_nil, or_false] at hl
        rcases hl with rfl | rfl
        · exact lineOK_pfx (utf16 "DTSTART;VALUE=DATE:") (formatICSDateOnly e.start)
            (by decide) (by decide) (by decide) (clean_formatOnly _)
        · exact lineOK_pfx (utf16 "DTEND;VALUE=DATE:") (formatICSDateOnly en)
            (by decide) (by decide) (by decide) (clean_formatOnly _)
  · exact List.Forall₂.cons (lineOK_foldpfx (utf16 "SUMMARY:") (escapeICS e.title)
      (by decide) (by decide) (by decide) (clean_escape ht13)) List.Forall₂.nil
  · cases hD : e.description
    · exact List.Forall₂.nil
    · rename_i d
      rw [hD] at hdesc
      dsimp only
      by_cases hd0 : d = []
      · rw [if_pos hd0, if_pos hd0]
        exact List.Forall₂.nil
      · rw [if_neg hd0, if_neg hd0]
        exact List.Forall₂.cons (lineOK_foldpfx (utf16 "DESCRIPTION:") (escapeICS d)
          (by decide) (by decide) (by decide) (clean_escape hdesc)) List.Forall₂.nil
  · cases hC : e.category
    · exact List.Forall₂.nil
    · rename_i c
      rw [hC] at hcat
      dsimp only
      by_cases hc0 : c = []
      · rw [if_pos hc0]
        exact List.Forall₂.nil
      · rw [if_neg hc0]
        exact List.Forall₂.cons (lineOK_pfx (utf16 "CATEGORIES:") (escapeICS c)
          (by decide) (by decide) (by decide) (clean_escape hcat)) List.Forall₂.nil
  · cases hS : e.status
    · exact List.Forall₂.nil
    · rename_i st
      exact List.Forall₂.cons (lineOK_pfx (utf16 "STATUS:") (mapStatus st)
        (by decide) (by decide) (by decide) (clean_mapStatus st)) List.Forall₂.nil
  · cases hQ : e.sequence
    · exact List.Forall₂.nil
    · rename_i q
      exact List.Forall₂.cons (lineOK_pfx (utf16 "SEQUENCE:") (intToStr q)
        (by decide) (by decide) (by decide) (clean_intToStr q)) List.Forall₂.nil
  · cases hR : e.rrule
    · exact List.Forall₂.nil
    · rename_i r
      rw [hR] at hrr
      dsimp only
      rw [if_neg hrr.1]
      exact List.Forall₂.cons (lineOK_pfx (utf16 "RRULE:") r
        (by decide) (by decide) (by decide) hrr.2) List.Forall₂.nil
  · cases hG : e.agent
    · exact List.Forall₂.nil
    · rename_i a
      rw [hG] at hag
      dsimp only
      by_cases ha0 : a = []
      · rw [if_pos ha0]
        exact List.Forall₂.nil
      · rw [if_neg ha0]
        exact List.Forall₂.cons (lineOK_pfx (utf16 "X-OPENCLAW-AGENT:") (escapeICS a)
          (by decide) (by decide) (by decide) (clean_escape hag)) List.Forall₂.nil
  · cases hP : e.project
    · exact List.Forall₂.nil
    · rename_i p
      rw [hP] at hpr
      dsimp only
      by_cases hp0 : p = []
      · rw [if_pos hp0]
        exact List.Forall₂.nil
      · rw [if_neg hp0]
        exact List.Forall₂.cons (lineOK_pfx (utf16 "X-OPENCLAW-PROJECT:") (escapeICS p)
          (by decide) (by decide) (by decide) (clean_escape hpr)) List.Forall₂.nil
  · cases hU : e.url
    · exact List.Forall₂.nil
    · rename_i u
      rw [hU] at hur
      dsimp only
      rw [if_neg hur.1]
      exact List.Forall₂.cons (lineOK_pfx (utf16 "URL:") u
        (by decide) (by decide) (by decide) hur.2) List.Forall₂.nil
  · exact List.Forall₂.cons (lineOK_pfx (utf16 "X-CLAWCAL-SOURCE-ID:") e.uid
      (by decide) (by decide) (by decide) hu) List.Forall₂.nil
  · apply List.forall₂_same.mpr
    intro l hl
    rw [List.mem_flatten] at hl
    obtain ⟨b, hb, hlb⟩ := hl
    obtain ⟨al, halm, rfl⟩ := List.mem_map.mp hb
    simp only [List.mem_cons, List.not_mem_nil, or_false] at hlb
    have hclean : ∀ x ∈ escapeICS (match al.description with
        | some d => if d = [] then e.title else d
        | none => e.title), x ≠ 13 ∧ x ≠ 10 := by
      cases hAD : al.description
      · exact clean_escape ht13
      · rename_i d
        dsimp only
        by_cases hd0 : d = []
        · rw [if_pos hd0]
          exact clean_escape ht13
        · rw [if_neg hd0]
          have := hal al halm
          rw [hAD] at this
          exact clean_escape this.2.1
    rcases hlb with rfl | rfl | rfl | rfl | rfl
    · exact lineOK_pfx (utf16 "BEGIN:VALARM") [] (by decide) (by decide) (by decide) (by decide)
    · exact lineOK_pfx (utf16 "ACTION:DISPLAY") [] (by decide) (by decide) (by decide) (by decide)
    · exact lineOK_pfx (utf16 "DESCRIPTION:") _ (by decide) (by decide) (by decide) hclean
    · exact lineOK_pfx (utf16 "TRIGGER:-PT") (natToDigits al.minutes ++ [77]) (by decide)
        (by decide) (by decide) (clean_append (clean_digits _) (by decide))
    · exact lineOK_pfx (utf16 "END:VALARM") [] (by decide) (by decide) (by decide) (by decide)
  · exact List.Forall₂.cons (lineOK_pfx (utf16 "END:VEVENT") [] (by decide) (by decide)
      (by decide) (by decide)) List.Forall₂.nil

theorem cons_ne_lit (a : Nat) (t : JSStr) (b : Nat) (t' : JSStr) (h : a ≠ b) :
    (a :: t) ≠ (b :: t') := fun he => h (List.cons.inj he).1

theorem foldl_alarms (e : CalendarEvent) : ∀ (alerts : List EventAlert) (cur : PEvent)
    (evs : Store),
    (∀ al ∈ alerts,
      match al.description with
      | some d => d ≠ [] ∧ (∀ x ∈ d, x ≠ 13) ∧ noBsN d = true
      | none => False) →
    List.foldl parseLine ⟨some cur, false, none, evs⟩
      ((alerts.map (fun al =>
        [utf16 "BEGIN:VALARM",
         utf16 "ACTION:DISPLAY",
         utf16 "DESCRIPTION:" ++ escapeICS (match al.description with
           | some d => if d = [] then e.title else d
           | none => e.title),
         utf16 "TRIGGER:-PT" ++ natToDigits al.minutes ++ [77],
         utf16 "END:VALARM"])).flatten) =
      ⟨some { cur with alerts := cur.alerts ++ alerts }, false, none, evs⟩ := by
  intro alerts
  induction alerts with
  | nil =>
    intro cur evs _
    simp
  | cons al rest ih =>
    intro cur evs hWF
    have hd := hWF al (List.mem_cons_self al rest)
    cases hAD : al.description
    · rw [hAD] at hd
      exact hd.elim
    · rename_i d
      rw [hAD] at hd
      obtain ⟨hd0, hd13, hdb⟩ := hd
      simp only [List.map_cons, List.flatten_cons]
      rw [hAD]
      dsimp only
      rw [if_neg hd0]
      have hspA : splitColon (utf16 "ACTION:DISPLAY") =
          some (utf16 "ACTION", utf16 "DISPLAY") :=
        splitColon_pfx (utf16 "ACTION") (utf16 "DISPLAY") (by decide)
      have hspD : splitColon (utf16 "DESCRIPTION:" ++ escapeICS d) =
          some (utf16 "DESCRIPTION", escapeICS d) :=
        splitColon_pfx (utf16 "DESCRIPTION") (escapeICS d) (by decide)
      have hspT : splitColon (utf16 "TRIGGER:-PT" ++ natToDigits al.minutes ++ [77]) =
          some (utf16 "TRIGGER", utf16 "-PT" ++ (natToDigits al.minutes ++ [77])) := by
        have h0 := splitColon_pfx (utf16 "TRIGGER")
          (utf16 "-PT" ++ (natToDigits al.minutes ++ [77])) (by decide)
        rw [show utf16 "TRIGGER" ++ 58 :: (utf16 "-PT" ++ (natToDigits al.minutes ++ [77])) =
          utf16 "TRIGGER:-PT" ++ (natToDigits al.minutes ++ [77]) from rfl,
          ← List.append_assoc] at h0
        exact h0
      rw [List.foldl_append, List.foldl_cons, parseLine_beginAlarm]
      rw [List.foldl_cons, parseLine_alarmProp cur {} evs (utf16 "ACTION:DISPLAY")
        (utf16 "ACTION") (utf16 "DISPLAY") (by decide) (by decide) (by decide) (by decide)
        hspA, applyAlarmKey_ACTION]
      rw [List.foldl_cons, parseLine_alarmProp cur {} evs (utf16 "DESCRIPTION:" ++ escapeICS d)
        (utf16 "DESCRIPTION") (escapeICS d)
        (cons_ne_lit 68 _ 66 _ (by decide)) (cons_ne_lit 68 _ 69 _ (by decide))
        (cons_ne_lit 68 _ 66 _ (by decide)) (cons_ne_lit 68 _ 69 _ (by decide))
        hspD, applyAlarmKey_DESCRIPTION]
      rw [unescape_escapeICS d hdb]
      rw [List.foldl_cons, parseLine_alarmProp cur _ evs
        (utf16 "TRIGGER:-PT" ++ natToDigits al.minutes ++ [77])
        (utf16 "TRIGGER") (utf16 "-PT" ++ (natToDigits al.minutes ++ [77]))
        (cons_ne_lit 84 _ 66 _ (by decide)) (cons_ne_lit 84 _ 69 _ (by decide))
        (cons_ne_lit 84 _ 66 _ (by decide)) (cons_ne_lit 84 _ 69 _ (by decide))
        hspT, applyAlarmKey_TRIGGER, triggerMatch_render al.minutes]
      dsimp only
      rw [List.foldl_cons, parseLine_endAlarm cur _ evs al.minutes rfl]
      rw [List.foldl_nil]
      rw [ih _ evs (fun a ha => hWF a (List.mem_cons_of_mem al ha))]
      rw [← hAD]
      simp [List.append_assoc]

theorem foldl_single_prop (cur : PEvent) (evs : Store) (line key value : JSStr)
    (h1 : line ≠ utf16 "BEGIN:VEVENT") (h2 : line ≠ utf16 "END:VEVENT")
    (h3 : line ≠ utf16 "BEGIN:VALARM") (h4 : line ≠ utf16 "END:VALARM")
    (hsp : splitColon line = some (key, value)) :
    List.foldl parseLine ⟨some cur, false, none, evs⟩ [line] =
      ⟨some (applyEventKey cur key value), false, none, evs⟩ := by
  rw [List.foldl_cons, parseLine_prop cur evs line key value h1 h2 h3 h4 hsp, List.foldl_nil]

theorem foldl_seg_dt (e : CalendarEvent) (cur : PEvent) (evs : Store)
    (hvt : ValidICSTime e.start) (hmid : e.allDay = true → e.start % 86400000 = 0) :
    ∃ cur', List.foldl parseLine ⟨some cur, false, none, evs⟩
      (if e.allDay = true then
        [utf16 "DTSTART;VALUE=DATE:" ++ formatICSDateOnly e.start] ++
        (match e.endT with
         | some en => [utf16 "DTEND;VALUE=DATE:" ++ formatICSDateOnly en]
         | none => [])
      else
        [utf16 "DTSTART:" ++ formatICSDate e.start] ++
        (match e.endT with
         | some en => [utf16 "DTEND:" ++ formatICSDate en]
         | none =>
           match e.duration with
           | some d =>
             if d = 0 then [utf16 "DTEND:" ++ formatICSDate (e.start + 15 * 60000)]
             else [utf16 "DURATION:PT" ++ natToDigits d ++ [77]]
           | none => [utf16 "DTEND:" ++ formatICSDate (e.start + 15 * 60000)])) =
      ⟨some cur', false, none, evs⟩ ∧
      T9 cur' = (cur.uid, cur.title, some e.start, (e.allDay || cur.allDay),
        cur.status, cur.sequence, cur.rrule, cur.alerts, cur.url) := by
  have hsp1 : splitColon (utf16 "DTSTART:" ++ formatICSDate e.start) =
      some (utf16 "DTSTART", formatICSDate e.start) :=
    splitColon_pfx (utf16 "DTSTART") (formatICSDate e.start) (by decide)
  cases hA : e.allDay
  · rw [if_neg (by simp)]
    cases hE : e.endT
    · cases hD : e.duration
      · dsimp only
        rw [List.foldl_append,
          foldl_single_prop cur evs (utf16 "DTSTART:" ++ formatICSDate e.start) (utf16 "DTSTART") (formatICSDate e.start)
            (cons_ne_lit 68 _ 66 _ (by decide)) (cons_ne_lit 68 _ 69 _ (by decide))
            (cons_ne_lit 68 _ 66 _ (by decide)) (cons_ne_lit 68 _ 69 _ (by decide)) hsp1,
          applyEventKey_DTSTART, parse_formatICSDate e.start hvt,
          foldl_single_prop _ evs (utf16 "DTEND:" ++ formatICSDate (e.start + 15 * 60000)) (utf16 "DTEND")
            (formatICSDate (e.start + 15 * 60000))
            (cons_ne_lit 68 _ 66 _ (by decide)) (cons_ne_lit 68 _ 69 _ (by decide))
            (cons_ne_lit 68 _ 66 _ (by decide)) (cons_ne_lit 68 _ 69 _ (by decide))
            (splitColon_pfx (utf16 "DTEND") (formatICSDate (e.start + 15 * 60000))
              (by decide)),
          applyEventKey_DTEND]
        exact ⟨_, rfl, rfl⟩
      · rename_i d
        dsimp only
        by_cases hz : d = 0
        · rw [if_pos hz]
          rw [List.foldl_append,
            foldl_single_prop cur evs (utf16 "DTSTART:" ++ formatICSDate e.start) (utf16 "DTSTART") (formatICSDate e.start)
              (cons_ne_lit 68 _ 66 _ (by decide)) (cons_ne_lit 68 _ 69 _ (by decide))
              (cons_ne_lit 68 _ 66 _ (by decide)) (cons_ne_lit 68 _ 69 _ (by decide)) hsp1,
            applyEventKey_DTSTART, parse_formatICSDate e.start hvt,
            foldl_single_prop _ evs (utf16 "DTEND:" ++ formatICSDate (e.start + 15 * 60000)) (utf16 "DTEND")
              (formatICSDate (e.start + 15 * 60000))
              (cons_ne_lit 68 _ 66 _ (by decide)) (cons_ne_lit 68 _ 69 _ (by decide))
              (cons_ne_lit 68 _ 66 _ (by decide)) (cons_ne_lit 68 _ 69 _ (by decide))
              (splitColon_pfx (utf16 "DTEND") (formatICSDate (e.start + 15 * 60000))
                (by decide)),
            applyEventKey_DTEND]
          exact ⟨_, rfl, rfl⟩
        · rw [if_neg hz]
          have hspDur : splitColon (utf16 "DURATION:PT" ++ natToDigits d ++ [77]) =
              some (utf16 "DURATION", utf16 "PT" ++ (natToDigits d ++ [77])) := by
            have h0 := splitColon_pfx (utf16 "DURATION")
              (utf16 "PT" ++ (natToDigits d ++ [77])) (by decide)
            rw [show utf16 "DURATION" ++ 58 :: (utf16 "PT" ++ (natToDigits d ++ [77])) =
              utf16 "DURATION:PT" ++ (natToDigits d ++ [77]) from rfl,
              ← List.append_assoc] at h0
            exact h0
          rw [List.foldl_append,
            foldl_single_prop cur evs (utf16 "DTSTART:" ++ formatICSDate e.start) (utf16 "DTSTART") (formatICSDate e.start)
              (cons_ne_lit 68 _ 66 _ (by decide)) (cons_ne_lit 68 _ 69 _ (by decide))
              (cons_ne_lit 68 _ 66 _ (by decide)) (cons_ne_lit 68 _ 69 _ (by decide)) hsp1,
            applyEventKey_DTSTART, parse_formatICSDate e.start hvt,
            foldl_single_prop _ evs (utf16 "DURATION:PT" ++ natToDigits d ++ [77]) (utf16 "DURATION")
              (utf16 "PT" ++ (natToDigits d ++ [77]))
              (cons_ne_lit 68 _ 66 _ (by decide)) (cons_ne_lit 68 _ 69 _ (by decide))
              (cons_ne_lit 68 _ 66 _ (by decide)) (cons_ne_lit 68 _ 69 _ (by decide))
              hspDur, applyEventKey_DURATION]
          cases hDm : durationMatch (utf16 "PT" ++ (natToDigits d ++ [77]))
          · exact ⟨_, rfl, rfl⟩
          · exact ⟨_, rfl, rfl⟩
    · rename_i en
      dsimp only
      rw [List.foldl_append,
        foldl_single_prop cur evs (utf16 "DTSTART:" ++ formatICSDate e.start) (utf16 "DTSTART") (formatICSDate e.start)
          (cons_ne_lit 68 _ 66 _ (by decide)) (cons_ne_lit 68 _ 69 _ (by decide))
          (cons_ne_lit 68 _ 66 _ (by decide)) (cons_ne_lit 68 _ 69 _ (by decide)) hsp1,
        applyEventKey_DTSTART, parse_formatICSDate e.start hvt,
        foldl_single_prop _ evs (utf16 "DTEND:" ++ formatICSDate en) (utf16 "DTEND") (formatICSDate en)
          (cons_ne_lit 68 _ 66 _ (by decide)) (cons_ne_lit 68 _ 69 _ (by decide))
          (cons_ne_lit 68 _ 66 _ (by decide)) (cons_ne_lit 68 _ 69 _ (by decide))
          (splitColon_pfx (utf16 "DTEND") (formatICSDate en) (by decide)),
        applyEventKey_DTEND]
      exact ⟨_, rfl, rfl⟩
  · rw [if_pos rfl]
    have hsp2 : splitColon (utf16 "DTSTART;VALUE=DATE:" ++ formatICSDateOnly e.start) =
        some (utf16 "DTSTART;VALUE=DATE", formatICSDateOnly e.start) :=
      splitColon_pfx (utf16 "DTSTART;VALUE=DATE") (formatICSDateOnly e.start) (by decide)
    cases hE : e.endT
    · dsimp only
      rw [List.foldl_append,
        foldl_single_prop cur evs (utf16 "DTSTART;VALUE=DATE:" ++ formatICSDateOnly e.start)
          (utf16 "DTSTART;VALUE=DATE") (formatICSDateOnly e.start)
          (cons_ne_lit 68 _ 66 _ (by decide)) (cons_ne_lit 68 _ 69 _ (by decide))
          (cons_ne_lit 68 _ 66 _ (by decide)) (cons_ne_lit 68 _ 69 _ (by decide)) hsp2,
        applyEventKey_DTSTARTD, parse_formatICSDateOnly e.start hvt (hmid hA),
        List.foldl_nil]
      exact ⟨_, rfl, rfl⟩
    · rename_i en
      dsimp only
      rw [List.foldl_append,
        foldl_single_prop cur evs (utf16 "DTSTART;VALUE=DATE:" ++ formatICSDateOnly e.start)
          (utf16 "DTSTART;VALUE=DATE") (formatICSDateOnly e.start)
          (cons_ne_lit 68 _ 66 _ (by decide)) (cons_ne_lit 68 _ 69 _ (by decide))
          (cons_ne_lit 68 _ 66 _ (by decide)) (cons_ne_lit 68 _ 69 _ (by decide)) hsp2,
        applyEventKey_DTSTARTD, parse_formatICSDateOnly e.start hvt (hmid hA),
        foldl_single_prop _ evs (utf16 "DTEND;VALUE=DATE:" ++ formatICSDateOnly en)
          (utf16 "DTEND;VALUE=DATE") (formatICSDateOnly en)
          (cons_ne_lit 68 _ 66 _ (by decide)) (cons_ne_lit 68 _ 69 _ (by decide))
          (cons_ne_lit 68 _ 66 _ (by decide)) (cons_ne_lit 68 _ 69 _ (by decide))
          (splitColon_pfx (utf16 "DTEND;VALUE=DATE") (formatICSDateOnly en) (by decide)),
        applyEventKey_DTENDD]
      exact ⟨_, rfl, rfl⟩

theorem foldl_seg_desc (e : CalendarEvent) (cur : PEvent) (evs : Store) :
    ∃ cur', List.foldl parseLine ⟨some cur, false, none, evs⟩
      (match e.description with
       | some d => if d = [] then [] else [utf16 "DESCRIPTION:" ++ escapeICS d]
       | none => []) =
      ⟨some cur', false, none, evs⟩ ∧ T9 cur' = T9 cur := by
  cases hD : e.description
  · exact ⟨cur, rfl, rfl⟩
  · rename_i d
    dsimp only
    by_cases hd0 : d = []
    · rw [if_pos hd0]
      exact ⟨cur, rfl, rfl⟩
    · rw [if_neg hd0,
        foldl_single_prop cur evs (utf16 "DESCRIPTION:" ++ escapeICS d) (utf16 "DESCRIPTION")
          (escapeICS d)
          (cons_ne_lit 68 _ 66 _ (by decide)) (cons_ne_lit 68 _ 69 _ (by decide))
          (cons_ne_lit 68 _ 66 _ (by decide)) (cons_ne_lit 68 _ 69 _ (by decide))
          (splitColon_pfx (utf16 "DESCRIPTION") (escapeICS d) (by decide)),
        applyEventKey_DESCRIPTION]
      exact ⟨_, rfl, rfl⟩

theorem foldl_seg_cat (e : CalendarEvent) (cur : PEvent) (evs : Store) :
    ∃ cur', List.foldl parseLine ⟨some cur, false, none, evs⟩
      (match e.category with
       | some c => if c = [] then [] else [utf16 "CATEGORIES:" ++ escapeICS c]
       | none => []) =
      ⟨some cur', false, none, evs⟩ ∧ T9 cur' = T9 cur := by
  cases hC : e.category
  · exact ⟨cur, rfl, rfl⟩
  · rename_i c
    dsimp only
    by_cases hc0 : c = []
    · rw [if_pos hc0]
      exact ⟨cur, rfl, rfl⟩
    · rw [if_neg hc0,
        foldl_single_prop cur evs (utf16 "CATEGORIES:" ++ escapeICS c) (utf16 "CATEGORIES")
          (escapeICS c)
          (cons_ne_lit 67 _ 66 _ (by decide)) (cons_ne_lit 67 _ 69 _ (by decide))
          (cons_ne_lit 67 _ 66 _ (by decide)) (cons_ne_lit 67 _ 69 _ (by decide))
          (splitColon_pfx (utf16 "CATEGORIES") (escapeICS c) (by decide)),
        applyEventKey_CATEGORIES]
      exact ⟨_, rfl, rfl⟩

theorem foldl_seg_status (e : CalendarEvent) (cur : PEvent) (evs : Store)
    (hst : e.status ≠ some .IN_PROGRESS) :
    ∃ cur', List.foldl parseLine ⟨some cur, false, none, evs⟩
      (match e.status with
       | some s => [utf16 "STATUS:" ++ mapStatus s]
       | none => []) =
      ⟨some cur', false, none, evs⟩ ∧
      T9 cur' = (cur.uid, cur.title, cur.start, cur.allDay, e.status.or cur.status,
        cur.sequence, cur.rrule, cur.alerts, cur.url) := by
  cases hS : e.status
  · exact ⟨cur, rfl, rfl⟩
  · rename_i st
    dsimp only
    rw [foldl_single_prop cur evs (utf16 "STATUS:" ++ mapStatus st) (utf16 "STATUS")
        (mapStatus st)
        (cons_ne_lit 83 _ 66 _ (by decide)) (cons_ne_lit 83 _ 69 _ (by decide))
        (cons_ne_lit 83 _ 66 _ (by decide)) (cons_ne_lit 83 _ 69 _ (by decide))
        (splitColon_pfx (utf16 "STATUS") (mapStatus st) (by decide)),
      applyEventKey_STATUS,
      status_roundtrip st (fun he => hst (by rw [hS, he]))]
    exact ⟨_, rfl, rfl⟩

theorem foldl_seg_seq (e : CalendarEvent) (cur : PEvent) (evs : Store)
    (hsq : match e.sequence with | some q => 0 ≤ q | none => True) :
    ∃ cur', List.foldl parseLine ⟨some cur, false, none, evs⟩
      (match e.sequence with
       | some q => [utf16 "SEQUENCE:" ++ intToStr q]
       | none => []) =
      ⟨some cur', false, none, evs⟩ ∧
      T9 cur' = (cur.uid, cur.title, cur.start, cur.allDay, cur.status,
        e.sequence.or cur.sequence, cur.rrule, cur.alerts, cur.url) := by
  cases hQ : e.sequence
  · exact ⟨cur, rfl, rfl⟩
  · rename_i q
    rw [hQ] at hsq
    dsimp only
    rw [foldl_single_prop cur evs (utf16 "SEQUENCE:" ++ intToStr q) (utf16 "SEQUENCE")
        (intToStr q)
        (cons_ne_lit 83 _ 66 _ (by decide)) (cons_ne_lit 83 _ 69 _ (by decide))
        (cons_ne_lit 83 _ 66 _ (by decide)) (cons_ne_lit 83 _ 69 _ (by decide))
        (splitColon_pfx (utf16 "SEQUENCE") (intToStr q) (by decide)),
      applyEventKey_SEQUENCE, intToStr_nonneg q hsq, parseIntJS_natToDigits,
      Int.toNat_of_nonneg hsq]
    exact ⟨_, rfl, rfl⟩

theorem foldl_seg_rrule (e : CalendarEvent) (cur : PEvent) (evs : Store)
    (hrr : match e.rrule with
      | some r => r ≠ [] ∧ ∀ x ∈ r, x ≠ 13 ∧ x ≠ 10
      | none => True) :
    ∃ cur', List.foldl parseLine ⟨some cur, false, none, evs⟩
      (match e.rrule with
       | some r => if r = [] then [] else [utf16 "RRULE:" ++ r]
       | none => []) =
      ⟨some cur', false, none, evs⟩ ∧
      T9 cur' = (cur.uid, cur.title, cur.start, cur.allDay, cur.status,
        cur.sequence, e.rrule.or cur.rrule, cur.alerts, cur.url) := by
  cases hR : e.rrule
  · exact ⟨cur, rfl, rfl⟩
  · rename_i r
    rw [hR] at hrr
    dsimp only
    rw [if_neg hrr.1,
      foldl_single_prop cur evs (utf16 "RRULE:" ++ r) (utf16 "RRULE") r
        (cons_ne_lit 82 _ 66 _ (by decide)) (cons_ne_lit 82 _ 69 _ (by decide))
        (cons_ne_lit 82 _ 66 _ (by decide)) (cons_ne_lit 82 _ 69 _ (by decide))
        (splitColon_pfx (utf16 "RRULE") r (by decide)),
      applyEventKey_RRULE]
    exact ⟨_, rfl, rfl⟩

theorem foldl_seg_agent (e : CalendarEvent) (cur : PEvent) (evs : Store) :
    ∃ cur', List.foldl parseLine ⟨some cur, false, none, evs⟩
      (match e.agent with
       | some a => if a = [] then [] else [utf16 "X-OPENCLAW-AGENT:" ++ escapeICS a]
       | none => []) =
      ⟨some cur', false, none, evs⟩ ∧ T9 cur' = T9 cur := by
  cases hG : e.agent
  · exact ⟨cur, rfl, rfl⟩
  · rename_i a
    dsimp only
    by_cases ha0 : a = []
    · rw [if_pos ha0]
      exact ⟨cur, rfl, rfl⟩
    · rw [if_neg ha0,
        foldl_single_prop cur evs (utf16 "X-OPENCLAW-AGENT:" ++ escapeICS a)
          (utf16 "X-OPENCLAW-AGENT") (escapeICS a)
          (cons_ne_lit 88 _ 66 _ (by decide)) (cons_ne_lit 88 _ 69 _ (by decide))
          (cons_ne_lit 88 _ 66 _ (by decide)) (cons_ne_lit 88 _ 69 _ (by decide))
          (splitColon_pfx (utf16 "X-OPENCLAW-AGENT") (escapeICS a) (by decide)),
        applyEventKey_AGENT]
      exact ⟨_, rfl, rfl⟩

theorem foldl_seg_project (e : CalendarEvent) (cur : PEvent) (evs : Store) :
    ∃ cur', List.foldl parseLine ⟨some cur, false, none, evs⟩
      (match e.project with
       | some p => if p = [] then [] else [utf16 "X-OPENCLAW-PROJECT:" ++ escapeICS p]
       | none => []) =
      ⟨some cur', false, none, evs⟩ ∧ T9 cur' = T9 cur := by
  cases hP : e.project
  · exact ⟨cur, rfl, rfl⟩
  · rename_i p
    dsimp only
    by_cases hp0 : p = []
    · rw [if_pos hp0]
      exact ⟨cur, rfl, rfl⟩
    · rw [if_neg hp0,
        foldl_single_prop cur evs (utf16 "X-OPENCLAW-PROJECT:" ++ escapeICS p)
          (utf16 "X-OPENCLAW-PROJECT") (escapeICS p)
          (cons_ne_lit 88 _ 66 _ (by decide)) (cons_ne_lit 88 _ 69 _ (by decide))
          (cons_ne_lit 88 _ 66 _ (by decide)) (cons_ne_lit 88 _ 69 _ (by decide))
          (splitColon_pfx (utf16 "X-OPENCLAW-PROJECT") (escapeICS p) (by decide)),
        applyEventKey_PROJECT]
      exact ⟨_, rfl, rfl⟩

theorem foldl_seg_url (e : CalendarEvent) (cur : PEvent) (evs : Store)
    (hur : match e.url with
      | some u => u ≠ [] ∧ ∀ x ∈ u, x ≠ 13 ∧ x ≠ 10
      | none => True) :
    ∃ cur', List.foldl parseLine ⟨some cur, false, none, evs⟩
      (match e.url with
       | some u => if u = [] then [] else [utf16 "URL:" ++ u]
       | none => []) =
      ⟨some cur', false, none, evs⟩ ∧
      T9 cur' = (cur.uid, cur.title, cur.start, cur.allDay, cur.status,
        cur.sequence, cur.rrule, cur.alerts, e.url.or cur.url) := by
  cases hU : e.url
  · exact ⟨cur, rfl, rfl⟩
  · rename_i u
    rw [hU] at hur
    dsimp only
    rw [if_neg hur.1,
      foldl_single_prop cur evs (utf16 "URL:" ++ u) (utf16 "URL") u
        (cons_ne_lit 85 _ 66 _ (by decide)) (cons_ne_lit 85 _ 69 _ (by decide))
        (cons_ne_lit 85 _ 66 _ (by decide)) (cons_ne_lit 85 _ 69 _ (by decide))
        (splitColon_pfx (utf16 "URL") u (by decide)),
      applyEventKey_URL]
    exact ⟨_, rfl, rfl⟩

theorem foldl_block (now : Int) (e : CalendarEvent) (h : WFEvent e) (evs : Store) :
    ∃ e', List.foldl parseLine ⟨none, false, none, evs⟩ (eventLinesU now e) =
      ⟨none, false, none, setEntry e.uid e' evs⟩ ∧ Agree9 e e' := by
  obtain ⟨hu0, hu, ht13, htb, hvt, hmid, hdesc, hcat, hag, hpr, hst, hsq, hrr, hur, hal⟩ := h
  have hspU : splitColon (utf16 "UID:" ++ e.uid ++ utf16 "@clawcal") =
      some (utf16 "UID", e.uid ++ utf16 "@clawcal") := by
    have h0 := splitColon_pfx (utf16 "UID") (e.uid ++ utf16 "@clawcal") (by decide)
    rw [show utf16 "UID" ++ 58 :: (e.uid ++ utf16 "@clawcal") =
      utf16 "UID:" ++ (e.uid ++ utf16 "@clawcal") from rfl, ← List.append_assoc] at h0
    exact h0
  unfold eventLinesU
  simp only [List.foldl_append]
  have hA : List.foldl parseLine (⟨none, false, none, evs⟩ : PState)
      [utf16 "BEGIN:VEVENT",
       utf16 "UID:" ++ e.uid ++ utf16 "@clawcal",
       utf16 "DTSTAMP:" ++ formatICSDate now] =
      ⟨some ⟨some e.uid, none, none, none, none, none, false, none, none, none,
        none, none, none, none, []⟩, false, none, evs⟩ := by
    rw [List.foldl_cons, parseLine_beginEvent, List.foldl_cons,
      parseLine_prop {} evs (utf16 "UID:" ++ e.uid ++ utf16 "@clawcal") (utf16 "UID")
        (e.uid ++ utf16 "@clawcal")
        (cons_ne_lit 85 _ 66 _ (by decide)) (cons_ne_lit 85 _ 69 _ (by decide))
        (cons_ne_lit 85 _ 66 _ (by decide)) (cons_ne_lit 85 _ 69 _ (by decide)) hspU,
      applyEventKey_UID, stripAtClawcal_append, List.foldl_cons,
      parseLine_prop _ evs (utf16 "DTSTAMP:" ++ formatICSDate now) (utf16 "DTSTAMP")
        (formatICSDate now)
        (cons_ne_lit 68 _ 66 _ (by decide)) (cons_ne_lit 68 _ 69 _ (by decide))
        (cons_ne_lit 68 _ 66 _ (by decide)) (cons_ne_lit 68 _ 69 _ (by decide))
        (splitColon_pfx (utf16 "DTSTAMP") (formatICSDate now) (by decide)),
      applyEventKey_DTSTAMP, List.foldl_nil]
  rw [hA]
  obtain ⟨c2, hc2, ht2⟩ := foldl_seg_dt e
    ⟨some e.uid, none, none, none, none, none, false, none, none, none,
      none, none, none, none, []⟩ evs hvt hmid
  rw [hc2]
  simp only [T9, Prod.mk.injEq] at ht2
  obtain ⟨h2u, h2t, h2s, h2a, h2st, h2q, h2r, h2al, h2url⟩ := ht2
  rw [foldl_single_prop c2 evs (utf16 "SUMMARY:" ++ escapeICS e.title) (utf16 "SUMMARY")
      (escapeICS e.title)
      (cons_ne_lit 83 _ 66 _ (by decide)) (cons_ne_lit 83 _ 69 _ (by decide))
      (cons_ne_lit 83 _ 66 _ (by decide)) (cons_ne_lit 83 _ 69 _ (by decide))
      (splitColon_pfx (utf16 "SUMMARY") (escapeICS e.title) (by decide)),
    applyEventKey_SUMMARY, unescape_escapeICS e.title htb]
  obtain ⟨c4, hc4, ht4⟩ := foldl_seg_desc e { c2 with title := some e.title } evs
  rw [hc4]
  simp only [T9, Prod.mk.injEq] at ht4
  obtain ⟨h4u, h4t, h4s, h4a, h4st, h4q, h4r, h4al, h4url⟩ := ht4
  obtain ⟨c5, hc5, ht5⟩ := foldl_seg_cat e c4 evs
  rw [hc5]
  simp only [T9, Prod.mk.injEq] at ht5
  obtain ⟨h5u, h5t, h5s, h5a, h5st, h5q, h5r, h5al, h5url⟩ := ht5
  obtain ⟨c6, hc6, ht6⟩ := foldl_seg_status e c5 evs hst
  rw [hc6]
  simp only [T9, Prod.mk.injEq] at ht6
  obtain ⟨h6u, h6t, h6s, h6a, h6st, h6q, h6r, h6al, h6url⟩ := ht6
  obtain ⟨c7, hc7, ht7⟩ := foldl_seg_seq e c6 evs hsq
  rw [hc7]
  simp only [T9, Prod.mk.injEq] at ht7
  obtain ⟨h7u, h7t, h7s, h7a, h7st, h7q, h7r, h7al, h7url⟩ := ht7
  obtain ⟨c8, hc8, ht8⟩ := foldl_seg_rrule e c7 evs hrr
  rw [hc8]
  simp only [T9, Prod.mk.injEq] at ht8
  obtain ⟨h8u, h8t, h8s, h8a, h8st, h8q, h8r, h8al, h8url⟩ := ht8
  obtain ⟨c9, hc9, ht9⟩ := foldl_seg_agent e c8 evs
  rw [hc9]
  simp only [T9, Prod.mk.injEq] at ht9
  obtain ⟨h9u, h9t, h9s, h9a, h9st, h9q, h9r, h9al, h9url⟩ := ht9
  obtain ⟨c10, hc10, ht10⟩ := foldl_seg_project e c9 evs
  rw [hc10]
  simp only [T9, Prod.mk.injEq] at ht10
  obtain ⟨hXu, hXt, hXs, hXa, hXst, hXq, hXr, hXal, hXurl⟩ := ht10
  obtain ⟨c11, hc11, ht11⟩ := foldl_seg_url e c10 evs hur
  rw [hc11]
  simp only [T9, Prod.mk.injEq] at ht11
  obtain ⟨hYu, hYt, hYs, hYa, hYst, hYq, hYr, hYal, hYurl⟩ := ht11
  rw [foldl_single_prop c11 evs (utf16 "X-CLAWCAL-SOURCE-ID:" ++ e.uid)
      (utf16 "X-CLAWCAL-SOURCE-ID") e.uid
      (cons_ne_lit 88 _ 66 _ (by decide)) (cons_ne_lit 88 _ 69 _ (by decide))
      (cons_ne_lit 88 _ 66 _ (by decide)) (cons_ne_lit 88 _ 69 _ (by decide))
      (splitColon_pfx (utf16 "X-CLAWCAL-SOURCE-ID") e.uid (by decide)),
    applyEventKey_SOURCEID]
  rw [foldl_alarms e e.alerts c11 evs hal]
  have huid11 : c11.uid = some e.uid := by
    rw [hYu, hXu, h9u, h8u, h7u, h6u, h5u, h4u]
    exact h2u
  have htitle11 : c11.title = some e.title := by
    rw [hYt, hXt, h9t, h8t, h7t, h6t, h5t, h4t]
  have hstart11 : c11.start = some e.start := by
    rw [hYs, hXs, h9s, h8s, h7s, h6s, h5s, h4s]
    exact h2s
  have hallday11 : c11.allDay = e.allDay := by
    rw [hYa, hXa, h9a, h8a, h7a, h6a, h5a, h4a, h2a]
    simp
  have hstatus11 : c11.status = e.status := by
    rw [hYst, hXst, h9st, h8st, h7st, h6st]
    rw [h5st, h4st, h2st]
    cases e.status <;> rfl
  have hseq11 : c11.sequence = e.sequence := by
    rw [hYq, hXq, h9q, h8q, h7q]
    rw [h6q, h5q, h4q, h2q]
    cases e.sequence <;> rfl
  have hrrule11 : c11.rrule = e.rrule := by
    rw [hYr, hXr, h9r, h8r]
    rw [h7r, h6r, h5r, h4r, h2r]
    cases e.rrule <;> rfl
  have halerts11 : c11.alerts = [] := by
    rw [hYal, hXal, h9al, h8al, h7al, h6al, h5al, h4al]
    exact h2al
  have hurl11 : c11.url = e.url := by
    rw [hYurl]
    rw [hXurl, h9url, h8url, h7url, h6url, h5url, h4url, h2url]
    cases e.url <;> rfl
  have hfin : finishEvent { c11 with alerts := c11.alerts ++ e.alerts } =
      some (e.uid,
        { uid := e.uid, title := c11.title.getD [], description := c11.description,
          start := e.start, endT := c11.endT, duration := c11.duration,
          allDay := c11.allDay, category := c11.category, agent := c11.agent,
          project := c11.project, status := c11.status, sequence := c11.sequence,
          rrule := c11.rrule, alerts := c11.alerts ++ e.alerts, url := c11.url }) := by
    unfold finishEvent
    rw [show ({ c11 with alerts := c11.alerts ++ e.alerts } : PEvent).uid = some e.uid
        from huid11,
      show ({ c11 with alerts := c11.alerts ++ e.alerts } : PEvent).start = some e.start
        from hstart11]
    dsimp only
    rw [if_neg hu0]
  rw [List.foldl_cons, parseLine_endEvent _ false none evs e.uid _ hfin, List.foldl_nil]
  refine ⟨_, rfl, ?_⟩
  refine ⟨rfl, ?_, rfl, ?_, ?_, ?_, ?_, ?_, ?_⟩
  · show c11.title.getD [] = e.title
    rw [htitle11]
    rfl
  · exact hallday11
  · exact hstatus11
  · exact hseq11
  · exact hrrule11
  · show c11.alerts ++ e.alerts = e.alerts
    rw [halerts11]
    rfl
  · exact hurl11

theorem blocks_lineOK (now : Int) : ∀ evds : Store, (∀ kv ∈ evds, WFEvent kv.2) →
    List.Forall₂ LineOK ((evds.map (fun kv => eventToVEvent now kv.2)).join)
      ((evds.map (fun kv => eventLinesU now kv.2)).flatten) := by
  intro evds
  induction evds with
  | nil => intro _; exact List.Forall₂.nil
  | cons kv rest ih =>
    intro h
    simp only [List.map_cons, List.join_cons, List.flatten_cons]
    exact List.rel_append (eventLines_lineOK now kv.2 (h kv (List.mem_cons_self kv rest)))
      (ih (fun x hx => h x (List.mem_cons_of_mem kv hx)))

theorem renderLines_lineOK (m : CalendarManager) (now : Int)
    (h : ∀ kv ∈ m.events, WFEvent kv.2)
    (hcal : ∀ x ∈ m.calendarName, x ≠ 13 ∧ x ≠ 10) :
    List.Forall₂ LineOK (renderLines m now) (renderLinesU m now) := by
  unfold renderLines renderLinesU
  refine List.rel_append (List.rel_append ?_ ?_) ?_
  · apply List.forall₂_same.mpr
    intro l hl
    simp only [List.mem_cons, List.not_mem_nil, or_false] at hl
    rcases hl with rfl | rfl | rfl | rfl | rfl | rfl | rfl
    · exact lineOK_pfx (utf16 "BEGIN:VCALENDAR") [] (by decide) (by decide) (by decide)
        (by decide)
    · exact lineOK_pfx (utf16 "VERSION:2.0") [] (by decide) (by decide) (by decide)
        (by decide)
    · exact lineOK_pfx (utf16 "PRODID:-//ClawCal//OpenClaw//EN") [] (by decide) (by decide)
        (by decide) (by decide)
    · exact lineOK_pfx (utf16 "CALSCALE:GREGORIAN") [] (by decide) (by decide) (by decide)
        (by decide)
    · exact lineOK_pfx (utf16 "METHOD:PUBLISH") [] (by decide) (by decide) (by decide)
        (by decide)
    · exact lineOK_pfx (utf16 "X-WR-CALNAME:") m.calendarName (by decide) (by decide)
        (by decide) hcal
    · exact lineOK_pfx (utf16 "X-WR-TIMEZONE:UTC") [] (by decide) (by decide) (by decide)
        (by decide)
  · exact blocks_lineOK now m.events h
  · exact List.Forall₂.cons (lineOK_pfx (utf16 "END:VCALENDAR") [] (by decide) (by decide)
      (by decide) (by decide)) List.Forall₂.nil

theorem toICS_splitNL (m : CalendarManager) (now : Int)
    (h : ∀ kv ∈ m.events, WFEvent kv.2)
    (hcal : ∀ x ∈ m.calendarName, x ≠ 13 ∧ x ≠ 10) :
    splitNL (unfoldICS (toICS m now)) = renderLinesU m now ++ [[]] := by
  unfold toICS
  obtain ⟨l0, ls', hls⟩ := List.exists_cons_of_ne_nil
    (show renderLines m now ≠ [] by unfold renderLines; simp)
  exact doc_split₂ _ _ l0 ls' hls (renderLines_lineOK m now h hcal)

theorem setEntry_not_mem (k : JSStr) (v : CalendarEvent) : ∀ s : Store,
    k ∉ keysOf s → setEntry k v s = s ++ [(k, v)] := by
  intro s
  induction s with
  | nil => intro _; rfl
  | cons kv rest ih =>
    intro hk
    have hne : kv.1 ≠ k := by
      intro he
      exact hk (List.mem_map.mpr ⟨kv, List.mem_cons_self kv rest, he⟩)
    obtain ⟨k', v'⟩ := kv
    rw [setEntry, if_neg hne, ih (fun hm => hk (List.mem_cons_of_mem _ hm))]
    rfl

theorem foldl_blocks (now : Int) : ∀ (evds : Store),
    (∀ kv ∈ evds, kv.1 = kv.2.uid ∧ WFEvent kv.2) →
    (keysOf evds).Nodup →
    ∀ evs0 : Store, (∀ kv ∈ evds, kv.1 ∉ keysOf evs0) →
    ∃ out, List.foldl parseLine ⟨none, false, none, evs0⟩
        ((evds.map (fun kv => eventLinesU now kv.2)).flatten) =
      ⟨none, false, none, evs0 ++ out⟩ ∧
      List.Forall₂ (fun kv kv' => kv'.1 = kv.1 ∧ Agree9 kv.2 kv'.2) evds out := by
  intro evds
  induction evds with
  | nil =>
    intro _ _ evs0 _
    exact ⟨[], by simp, List.Forall₂.nil⟩
  | cons kv rest ih =>
    intro hkw hnd evs0 hnotin
    simp only [List.map_cons, List.flatten_cons, List.foldl_append]
    obtain ⟨e', hfold, hagree⟩ := foldl_block now kv.2
      (hkw kv (List.mem_cons_self kv rest)).2 evs0
    rw [hfold]
    have hset : setEntry kv.2.uid e' evs0 = evs0 ++ [(kv.2.uid, e')] :=
      setEntry_not_mem _ _ _ (by
        rw [← (hkw kv (List.mem_cons_self kv rest)).1]
        exact hnotin kv (List.mem_cons_self kv rest))
    rw [hset]
    have hndk : kv.1 ∉ keysOf rest := by
      have : (keysOf (kv :: rest)) = kv.1 :: keysOf rest := rfl
      rw [this] at hnd
      exact (List.nodup_cons.mp hnd).1
    obtain ⟨out, hout, hf2⟩ := ih (fun x hx => hkw x (List.mem_cons_of_mem kv hx))
      (by
        have : (keysOf (kv :: rest)) = kv.1 :: keysOf rest := rfl
        rw [this] at hnd
        exact (List.nodup_cons.mp hnd).2)
      (evs0 ++ [(kv.2.uid, e')])
      (by
        intro x hx hmem
        rw [keysOf, List.map_append] at hmem
        rcases List.mem_append.mp hmem with hm | hm
        · exact hnotin x (List.mem_cons_of_mem kv hx) hm
        · simp at hm
          apply hndk
          rw [← (hkw kv (List.mem_cons_self kv rest)).1] at hm
          rw [← hm]
          exact List.mem_map.mpr ⟨x, hx, rfl⟩)
    rw [hout]
    refine ⟨(kv.2.uid, e') :: out, by rw [List.append_assoc]; rfl, ?_⟩
    exact List.Forall₂.cons ⟨((hkw kv (List.mem_cons_self kv rest)).1).symm, hagree⟩ hf2

/-- Claim C1 (amended): for every well-formed store — distinct keys, each key
its event's uid, each event with a nonempty CR/LF-free uid, CR-free title
free of literal backslash-n, a valid (midnight-aligned when all-day) start,
CR-free optional text fields, status other than IN_PROGRESS, nonnegative
sequence, none-or-nonempty clean rrule and url, alerts carrying explicit
nonempty clean descriptions, and a CR/LF-free calendar name — rendering the
document and parsing it back with a fresh store reconstructs, in order and
under the same keys, events whose uid, title, start, allDay, status,
sequence, rrule, alerts and url all equal the stored event's.  Unamended the
claim fails: an IN_PROGRESS event serializes as CONFIRMED and reads back
COMPLETED (see the counterexample). -/
theorem C1_round_trip (m : CalendarManager) (now : Int)
    (hnd : (keysOf m.events).Nodup)
    (hw : ∀ kv ∈ m.events, kv.1 = kv.2.uid ∧ WFEvent kv.2)
    (hcal : ∀ x ∈ m.calendarName, x ≠ 13 ∧ x ≠ 10) :
    List.Forall₂ (fun kv kv' => kv'.1 = kv.1 ∧ Agree9 kv.2 kv'.2)
      m.events (loadExisting (toICS m now)) := by
  unfold loadExisting
  rw [toICS_splitNL m now (fun kv hkv => (hw kv hkv).2) hcal]
  unfold renderLinesU
  simp only [List.foldl_append]
  have hHdr : List.foldl parseLine ({} : PState)
      [utf16 "BEGIN:VCALENDAR", utf16 "VERSION:2.0",
       utf16 "PRODID:-//ClawCal//OpenClaw//EN", utf16 "CALSCALE:GREGORIAN",
       utf16 "METHOD:PUBLISH", utf16 "X-WR-CALNAME:" ++ m.calendarName,
       utf16 "X-WR-TIMEZONE:UTC"] = {} := by
    rw [List.foldl_cons, parseLine_none {} _ rfl (by decide)]
    rw [List.foldl_cons, parseLine_none {} _ rfl (by decide)]
    rw [List.foldl_cons, parseLine_none {} _ rfl (by decide)]
    rw [List.foldl_cons, parseLine_none {} _ rfl (by decide)]
    rw [List.foldl_cons, parseLine_none {} _ rfl (by decide)]
    rw [List.foldl_cons, parseLine_none {} (utf16 "X-WR-CALNAME:" ++ m.calendarName) rfl
      (cons_ne_lit 88 _ 66 _ (by decide))]
    rw [List.foldl_cons, parseLine_none {} _ rfl (by decide)]
    rw [List.foldl_nil]
  rw [hHdr]
  obtain ⟨out, hout, hf2⟩ := foldl_blocks now m.events hw hnd [] (by simp [keysOf])
  rw [hout]
  rw [List.foldl_cons, parseLine_none _ _ rfl (by decide), List.foldl_nil]
  rw [List.foldl_cons, parseLine_none _ _ rfl (by decide), List.foldl_nil]
  show List.Forall₂ _ m.events ([] ++ out)
  rw [List.nil_append]
  exact hf2

set_option maxRecDepth 8192 in
/-- An IN_PROGRESS event does not survive the round trip: it is rendered as
STATUS:CONFIRMED and parsed back as COMPLETED. -/
theorem C1_counterexample :
    c1mgr.events.map (fun kv => (kv.1, kv.2.status)) =
      [([120], some EventStatus.IN_PROGRESS)] ∧
    (loadExisting (toICS c1mgr 0)).map (fun kv => (kv.1, kv.2.status)) =
      [([120], some EventStatus.COMPLETED)] := by decide

set_option maxRecDepth 8192 in
theorem C1_witness :
    (keysOf c1wmgr.events).Nodup ∧
    (([119] : JSStr) = c1wev.uid ∧ WFEvent c1wev) ∧
    (∀ x ∈ c1wmgr.calendarName, x ≠ 13 ∧ x ≠ 10) ∧
    List.Forall₂ (fun kv kv' => kv'.1 = kv.1 ∧ Agree9 kv.2 kv'.2)
      c1wmgr.events (loadExisting (toICS c1wmgr 0)) :=
  ⟨by decide, ⟨by decide, by
        unfold WFEvent c1wev
        dsimp only
        refine ⟨by decide, by decide, by decide, by decide, by decide, by decide, by decide,
          by decide, by decide, by decide, by decide, by decide, by decide, by decide, ?_⟩
        intro al hal
        have hale : al = ⟨10, some [65]⟩ := by simpa using hal
        rw [hale]
        exact ⟨by decide, by decide, by decide⟩⟩, by decide,
   C1_round_trip c1wmgr 0 (by decide)
     (by
       intro kv hkv
       have hkv' : kv = ([119], c1wev) := by
         unfold c1wmgr at hkv
         simpa using hkv
       rw [hkv']
       exact ⟨by decide, by
        unfold WFEvent c1wev
        dsimp only
        refine ⟨by decide, by decide, by decide, by decide, by decide, by decide, by decide,
          by decide, by decide, by decide, by decide, by decide, by decide, by decide, ?_⟩
        intro al hal
        have hale : al = ⟨10, some [65]⟩ := by simpa using hal
        rw [hale]
        exact ⟨by decide, by decide, by decide⟩⟩)
     (by decide)⟩
